import Mathlib

/-!
# FixedPoint: the decimal arithmetic engine of `fp_decimal.h`

A shallow embedding of the class template `FixedDecimal` (strict-width mode,
`FIXEDPOINT_FORCEFORMAT`) and of the resizing members of the class template
`Decimal`, followed by theorems about the digit-wise arithmetic, the
comparisons, the digit access, the constructors and the resizing.  The
simplification, the sum, the difference, the equality and the order of
`Fraction` (`fp_fraction.h`) and the component constructor, the accessors, the
integer and sign setters and the format conversion of the binary `FixedPoint`
(`fp_fixedpoint.h`) are embedded too.

Conventions of the embedding.

* A storage word (`_group_type`) is a natural number below `2 ^ _group_size`,
  where `_group_size` is `std::numeric_limits<_group_type>::digits`; it is the
  third parameter of `FixedDecimal` and stands for the template parameter
  `_StorageType`.  `fp_internal.h` names `unsigned char` as its default, which
  is `_group_size = 8`.
* `count_type` and `_digit_type` are `unsigned char`: a value stored in one of
  them is reduced modulo `256`.
* The member arrays `_integer` and `_decimal` are lists.  Reading or writing a
  cell outside an array has no defined result in C++; here such an access
  yields `none`, and a function that performs one yields `none`.  The members
  whose names end in `_reading` follow the same code with a read outside an
  array yielding an unspecified word of the storage type instead, so that a
  property of every object they return holds whatever such a read yields.
* A member function that mutates `*this` returns the new object.
* `Fraction` is embedded twice: over the integers, for the executions in which
  no operation leaves the type, and as `FractionOf` over a machine integer
  type, with the integral promotion, the conversions and the signed overflow.
* The mask of `FixedPoint::_d()` is computed on an `int`; the members that
  evaluate it yield `none` when the shift count is not below the `31` value
  bits of an `int`.
-/

/-- The number of bits of a `char`. -/
def CHAR_BIT : Nat := 8

/-- Conversion of an integer to `count_type` (`unsigned char`). -/
def count_type (n : Int) : Nat := (n % 2 ^ CHAR_BIT).toNat

/-- Conversion of an integer to `_digit_type` (`unsigned char`). -/
def _digit_type (n : Int) : Nat := (n % 2 ^ CHAR_BIT).toNat

/-- Conversion of a non-negative integer to `_group_type`, a word of
`_group_size` bits. -/
def _group_type (_group_size : Nat) (n : Nat) : Nat := n % 2 ^ _group_size

/-- The counted loop `for (count_type i = 0; i < n; i++) body`, threading the
mutated state: `count_loop body n s` is the state after the iterations
`i = 0, ..., n - 1`, or `none` once an iteration has no defined result. -/
def count_loop {σ : Type} (body : σ → Nat → Option σ) : Nat → σ → Option σ
  | 0, s => some s
  | n + 1, s => (count_loop body n s).bind (fun t => body t n)

/-- How a call of a member function whose loop may run without bound ends. -/
inductive Outcome (α : Type) where
  /-- The call returned this value. -/
  | returned (a : α)
  /-- The call read an array cell outside the array. -/
  | outOfBounds
  /-- The call was still running when the step budget ran out. -/
  | outOfFuel
deriving DecidableEq

/-- An object of `FixedDecimal<_IntegerCount, _DecimalCount, _Signed, _StorageType>`:
its two member arrays.  Both start at the least significant digit of their
part. -/
structure FixedDecimal (_IntegerCount _DecimalCount _group_size : Nat) where
  /-- The groups of the integer part. -/
  _integer : List Nat
  /-- The groups of the fractional part. -/
  _decimal : List Nat
deriving DecidableEq

namespace FixedDecimal

variable {_IntegerCount _DecimalCount _group_size : Nat}

/-- The largest digit. -/
def _digit_max : Nat := 0x09

/-- The number of digit values. -/
def _digit_capacity : Nat := _digit_max + 1

/-- The number of bits of a packed digit. -/
def _digit_size : Nat := 4

/-- The mask of one packed digit. -/
def _digit_mask : Nat := (1 <<< _digit_size) - 1

/-- The constant `_digits_per_group = (CHAR_BIT * sizeof(_digit_type)) / _group_size`. -/
def _digits_per_group (_group_size : Nat) : Nat :=
  count_type ((CHAR_BIT * 1 / _group_size : Nat) : Int)

/-- The constant `_integer_groups`, the length of the array `_integer`.  (When
`_digits_per_group` is `0` the C++ constant has no value; here it is `0`.) -/
def _integer_groups (_IntegerCount _group_size : Nat) : Nat :=
  count_type (((_IntegerCount + (_digits_per_group _group_size - 1))
    / _digits_per_group _group_size : Nat) : Int)

/-- The constant `_decimal_groups`, the length of the array `_decimal`.  (When
`_digits_per_group` is `0` the C++ constant has no value; here it is `0`.) -/
def _decimal_groups (_DecimalCount _group_size : Nat) : Nat :=
  count_type (((_DecimalCount + (_digits_per_group _group_size - 1))
    / _digits_per_group _group_size : Nat) : Int)

/-- The object is one the class can hold: the template arguments are
`count_type` values, the arrays have their declared lengths and every cell is a
`_group_type` value. -/
def wf (self : FixedDecimal _IntegerCount _DecimalCount _group_size) : Prop :=
  _IntegerCount < 256 ∧ _DecimalCount < 256 ∧
  self._integer.length = _integer_groups _IntegerCount _group_size ∧
  self._decimal.length = _decimal_groups _DecimalCount _group_size ∧
  (∀ g ∈ self._integer, g < 2 ^ _group_size) ∧
  (∀ g ∈ self._decimal, g < 2 ^ _group_size)

instance (self : FixedDecimal _IntegerCount _DecimalCount _group_size) :
    Decidable self.wf := by
  unfold wf; infer_instance

/-- The read accessor `_integer_group(_pos)`: the cell `_integer[_pos]`. -/
def _integer_group (self : FixedDecimal _IntegerCount _DecimalCount _group_size)
    (_pos : Nat) : Option Nat :=
  self._integer[_pos]?

/-- The read accessor `_decimal_group(_pos)`: the cell `_decimal[_pos]`. -/
def _decimal_group (self : FixedDecimal _IntegerCount _DecimalCount _group_size)
    (_pos : Nat) : Option Nat :=
  self._decimal[_pos]?

/-- Assignment through the reference `_integer_group(_pos)`. -/
def _integer_group_set (self : FixedDecimal _IntegerCount _DecimalCount _group_size)
    (_pos : Nat) (g : Nat) : Option (FixedDecimal _IntegerCount _DecimalCount _group_size) :=
  if _pos < self._integer.length then
    some { self with _integer := self._integer.set _pos (_group_type _group_size g) }
  else none

/-- Assignment through the reference `_decimal_group(_pos)`. -/
def _decimal_group_set (self : FixedDecimal _IntegerCount _DecimalCount _group_size)
    (_pos : Nat) (g : Nat) : Option (FixedDecimal _IntegerCount _DecimalCount _group_size) :=
  if _pos < self._decimal.length then
    some { self with _decimal := self._decimal.set _pos (_group_type _group_size g) }
  else none

/-- The getter `_integer_digit(_pos)`:
`(_integer_group(_pos / _digits_per_group) >> (_pos % _digits_per_group) * _digit_size) & _digit_mask`. -/
def _integer_digit (self : FixedDecimal _IntegerCount _DecimalCount _group_size)
    (_pos : Nat) : Option Nat :=
  (self._integer_group (_pos / _digits_per_group _group_size)).map (fun g =>
    _digit_type (((g >>> ((_pos % _digits_per_group _group_size) * _digit_size))
      &&& _digit_mask : Nat) : Int))

/-- The getter `_decimal_digit(_pos)`:
`(_decimal_group(_pos / _digits_per_group) >> (_pos % _digits_per_group) * _digit_size) & _digit_mask`. -/
def _decimal_digit (self : FixedDecimal _IntegerCount _DecimalCount _group_size)
    (_pos : Nat) : Option Nat :=
  (self._decimal_group (_pos / _digits_per_group _group_size)).map (fun g =>
    _digit_type (((g >>> ((_pos % _digits_per_group _group_size) * _digit_size))
      &&& _digit_mask : Nat) : Int))

/-- The setter `_integer_digit(_pos, _value)`.  Its last line shifts by
`pos % _digits_per_group`, where no `pos` is declared; it is read as `_pos`. -/
def _integer_digit_set (self : FixedDecimal _IntegerCount _DecimalCount _group_size)
    (_pos : Nat) (_value : Nat) :
    Option (FixedDecimal _IntegerCount _DecimalCount _group_size) := do
  let g ← self._integer_group (_pos / _digits_per_group _group_size)
  let _isolated_digit := _group_type _group_size g
  let _isolated_digit := _group_type _group_size
    (_isolated_digit &&& (_digit_mask <<< (_pos % _digits_per_group _group_size)))
  let g1 := _group_type _group_size (g ^^^ _isolated_digit)
  let self1 ← self._integer_group_set (_pos / _digits_per_group _group_size) g1
  self1._integer_group_set (_pos / _digits_per_group _group_size)
    (g1 ||| (_value <<< (_pos % _digits_per_group _group_size)))

/-- The setter `_decimal_digit(_pos, _value)`.  Its last line shifts by
`pos % _digits_per_group`, where no `pos` is declared; it is read as `_pos`. -/
def _decimal_digit_set (self : FixedDecimal _IntegerCount _DecimalCount _group_size)
    (_pos : Nat) (_value : Nat) :
    Option (FixedDecimal _IntegerCount _DecimalCount _group_size) := do
  let g ← self._decimal_group (_pos / _digits_per_group _group_size)
  let _isolated_digit := _group_type _group_size g
  let _isolated_digit := _group_type _group_size
    (_isolated_digit &&& (_digit_mask <<< (_pos % _digits_per_group _group_size)))
  let g1 := _group_type _group_size (g ^^^ _isolated_digit)
  let self1 ← self._decimal_group_set (_pos / _digits_per_group _group_size) g1
  self1._decimal_group_set (_pos / _digits_per_group _group_size)
    (g1 ||| (_value <<< (_pos % _digits_per_group _group_size)))

/-- The default constructor: `memset` clears `_integer_groups` bytes of
`_integer` and `_decimal_groups` bytes of `_decimal`.  A storage type for which
`_digits_per_group` is not zero has at most eight bits, hence is one byte wide,
so that these are all the cells. -/
def default_ctor (_IntegerCount _DecimalCount _group_size : Nat) :
    FixedDecimal _IntegerCount _DecimalCount _group_size :=
  { _integer := List.replicate (_integer_groups _IntegerCount _group_size) 0
    _decimal := List.replicate (_decimal_groups _DecimalCount _group_size) 0 }

/-- The constructor from two arrays of groups: it copies the first
`_integer_groups` cells of `integer` and the first `_decimal_groups` cells of
`decimal`, each a `_group_type` value, and reads outside an array that is
shorter. -/
def group_ctor (integer decimal : List Nat) :
    Option (FixedDecimal _IntegerCount _DecimalCount _group_size) :=
  if _integer_groups _IntegerCount _group_size ≤ integer.length ∧
      _decimal_groups _DecimalCount _group_size ≤ decimal.length then
    some { _integer := (integer.take (_integer_groups _IntegerCount _group_size)).map
             (_group_type _group_size)
           _decimal := (decimal.take (_decimal_groups _DecimalCount _group_size)).map
             (_group_type _group_size) }
  else none

/-! ### Addition -/

/-- One iteration of the first loop of `_digit_add`, on the pair of `*this`
and the local `_carrybit`. -/
def _digit_add_decimal_body (_other : FixedDecimal _IntegerCount _DecimalCount _group_size)
    (st : FixedDecimal _IntegerCount _DecimalCount _group_size × Bool) (i : Nat) :
    Option (FixedDecimal _IntegerCount _DecimalCount _group_size × Bool) := do
  let x ← st.1._decimal_digit i
  let y ← _other._decimal_digit i
  let _result := _digit_type ((x + y + st.2.toNat : Nat) : Int)
  let _carrybit := decide (_result / _digit_capacity ≠ 0)
  let self1 ← st.1._decimal_digit_set i (_digit_type ((_result % _digit_capacity : Nat) : Int))
  pure (self1, _carrybit)

/-- One iteration of the second loop of `_digit_add`; the digit of `_other` it
adds is `_other._decimal_digit(i)`, as in the source. -/
def _digit_add_integer_body (_other : FixedDecimal _IntegerCount _DecimalCount _group_size)
    (st : FixedDecimal _IntegerCount _DecimalCount _group_size × Bool) (i : Nat) :
    Option (FixedDecimal _IntegerCount _DecimalCount _group_size × Bool) := do
  let x ← st.1._integer_digit i
  let y ← _other._decimal_digit i
  let _result := _digit_type ((x + y + st.2.toNat : Nat) : Int)
  let _carrybit := decide (_result / _digit_capacity ≠ 0)
  let self1 ← st.1._integer_digit_set i (_digit_type ((_result % _digit_capacity : Nat) : Int))
  pure (self1, _carrybit)

/-- The body of `_digit_add`: `*this` and the local `_carrybit` when the
function ends. -/
def _digit_add_locals (self _other : FixedDecimal _IntegerCount _DecimalCount _group_size) :
    Option (FixedDecimal _IntegerCount _DecimalCount _group_size × Bool) :=
  (count_loop (_digit_add_decimal_body _other) _DecimalCount (self, false)).bind
    (count_loop (_digit_add_integer_body _other) _IntegerCount)

/-- The member `void _digit_add(_other)`: the new `*this`.  The test of
`_carrybit` that ends the function has an empty body. -/
def _digit_add (self _other : FixedDecimal _IntegerCount _DecimalCount _group_size) :
    Option (FixedDecimal _IntegerCount _DecimalCount _group_size) :=
  (self._digit_add_locals _other).map Prod.fst

/-- The operator `+=`: calls `_digit_add(other)` and returns `*this`. -/
def operator_add_assign (self other : FixedDecimal _IntegerCount _DecimalCount _group_size) :
    Option (FixedDecimal _IntegerCount _DecimalCount _group_size) :=
  self._digit_add other

/-- The operator `+`: copies `*this` and returns `_copy += other`. -/
def operator_add (self other : FixedDecimal _IntegerCount _DecimalCount _group_size) :
    Option (FixedDecimal _IntegerCount _DecimalCount _group_size) :=
  let _copy := self
  _copy.operator_add_assign other

/-! ### Subtraction -/

/-- One iteration of the first loop of `_digit_subtract`, on the pair of
`*this` and the local `_borrowbit`. -/
def _digit_subtract_decimal_body (_other : FixedDecimal _IntegerCount _DecimalCount _group_size)
    (st : FixedDecimal _IntegerCount _DecimalCount _group_size × Bool) (i : Nat) :
    Option (FixedDecimal _IntegerCount _DecimalCount _group_size × Bool) := do
  let y ← _other._decimal_digit i
  let _difference := _digit_type ((y + st.2.toNat : Nat) : Int)
  let x ← st.1._decimal_digit i
  let _borrowbit := decide (_difference > x)
  let self1 ← st.1._decimal_digit_set i
    (_digit_type ((x : Int) + ((_borrowbit.toNat * _digit_capacity : Nat) - (_difference : Int))))
  pure (self1, _borrowbit)

/-- One iteration of the second loop of `_digit_subtract`. -/
def _digit_subtract_integer_body (_other : FixedDecimal _IntegerCount _DecimalCount _group_size)
    (st : FixedDecimal _IntegerCount _DecimalCount _group_size × Bool) (i : Nat) :
    Option (FixedDecimal _IntegerCount _DecimalCount _group_size × Bool) := do
  let y ← _other._integer_digit i
  let _difference := _digit_type ((y + st.2.toNat : Nat) : Int)
  let x ← st.1._integer_digit i
  let _borrowbit := decide (_difference > x)
  let self1 ← st.1._integer_digit_set i
    (_digit_type ((x : Int) + ((_borrowbit.toNat * _digit_capacity : Nat) - (_difference : Int))))
  pure (self1, _borrowbit)

/-- The body of `_digit_subtract`: `*this` and the local `_borrowbit` when the
function ends. -/
def _digit_subtract_locals (self _other : FixedDecimal _IntegerCount _DecimalCount _group_size) :
    Option (FixedDecimal _IntegerCount _DecimalCount _group_size × Bool) :=
  (count_loop (_digit_subtract_decimal_body _other) _DecimalCount (self, false)).bind
    (count_loop (_digit_subtract_integer_body _other) _IntegerCount)

/-- The member `void _digit_subtract(_other)`: the new `*this`.  The test of
`_borrowbit` that ends the function has an empty body. -/
def _digit_subtract (self _other : FixedDecimal _IntegerCount _DecimalCount _group_size) :
    Option (FixedDecimal _IntegerCount _DecimalCount _group_size) :=
  (self._digit_subtract_locals _other).map Prod.fst

/-- The operator `-=`: calls `_digit_subtract(other)` and returns `*this`. -/
def operator_sub_assign (self other : FixedDecimal _IntegerCount _DecimalCount _group_size) :
    Option (FixedDecimal _IntegerCount _DecimalCount _group_size) :=
  self._digit_subtract other

/-- The operator `-`: copies `*this` and returns `_copy -= other`. -/
def operator_sub (self other : FixedDecimal _IntegerCount _DecimalCount _group_size) :
    Option (FixedDecimal _IntegerCount _DecimalCount _group_size) :=
  let _copy := self
  _copy.operator_sub_assign other

end FixedDecimal

/-! ### Digit cells

The two loops of an arithmetic member run the same body over two different
arrays.  The definitions below state that body once, over an abstract pair of
a digit getter and a digit setter, together with the number a run of digits
stands for. -/

/-- The number written by the `n` lowest digits read by `get`, least
significant first; a position that cannot be read counts as `0`. -/
def digit_sum {σ : Type} (get : σ → Nat → Option Nat) (n : Nat) (s : σ) : Nat :=
  ∑ i in Finset.range n, (get s i).getD 0 * 10 ^ i

/-- What a getter and a setter of digits over `N` positions guarantee on the
states satisfying `ok`: a position below `N` can be read, and writing a nibble
there yields a state where it reads back, the other positions read as before
and the part `rest` of the state is untouched. -/
structure DigitCells {σ ρ : Type} (get : σ → Nat → Option Nat)
    (set : σ → Nat → Nat → Option σ) (N : Nat) (ok : σ → Prop) (rest : σ → ρ) : Prop where
  /-- A position below `N` holds a nibble. -/
  read : ∀ s i, ok s → i < N → ∃ d, get s i = some d ∧ d < 16
  /-- Writing a nibble at a position below `N`. -/
  write : ∀ s i v, ok s → i < N → v < 16 →
    ∃ t, set s i v = some t ∧ ok t ∧ get t i = some v ∧
      (∀ j, j ≠ i → get t j = get s j) ∧ rest t = rest s

/-- The body of a loop of `_digit_subtract` over abstract digit cells; `gb`
reads the digits of the subtrahend. -/
def sub_body {σ : Type} (get : σ → Nat → Option Nat) (set : σ → Nat → Nat → Option σ)
    (gb : Nat → Option Nat) (st : σ × Bool) (i : Nat) : Option (σ × Bool) := do
  let y ← gb i
  let _difference := _digit_type ((y + st.2.toNat : Nat) : Int)
  let x ← get st.1 i
  let _borrowbit := decide (_difference > x)
  let self1 ← set st.1 i
    (_digit_type ((x : Int) +
      ((_borrowbit.toNat * FixedDecimal._digit_capacity : Nat) - (_difference : Int))))
  pure (self1, _borrowbit)

/-- The body of a loop of `_digit_add` over abstract digit cells; `gb` reads the
digits of the addend. -/
def add_body {σ : Type} (get : σ → Nat → Option Nat) (set : σ → Nat → Nat → Option σ)
    (gb : Nat → Option Nat) (st : σ × Bool) (i : Nat) : Option (σ × Bool) := do
  let x ← get st.1 i
  let y ← gb i
  let _result := _digit_type ((x + y + st.2.toNat : Nat) : Int)
  let _carrybit := decide (_result / FixedDecimal._digit_capacity ≠ 0)
  let self1 ← set st.1 i
    (_digit_type ((_result % FixedDecimal._digit_capacity : Nat) : Int))
  pure (self1, _carrybit)

namespace FixedDecimal

variable {_IntegerCount _DecimalCount _group_size : Nat}

/-- The digits of the object as its getters read them: the `_DecimalCount`
fractional digits, then the `_IntegerCount` integer digits, each part least
significant digit first. -/
def digits (self : FixedDecimal _IntegerCount _DecimalCount _group_size) : List Nat :=
  (List.range _DecimalCount).map (fun i => (self._decimal_digit i).getD 0) ++
    (List.range _IntegerCount).map (fun i => (self._integer_digit i).getD 0)

/-- The value of the object in units of the last fractional place: its digits
read as one little-endian base-10 number. -/
def value (self : FixedDecimal _IntegerCount _DecimalCount _group_size) : Nat :=
  Nat.ofDigits 10 self.digits

/-- Every digit of the object is in `[0, 9]`. -/
def digits_valid (self : FixedDecimal _IntegerCount _DecimalCount _group_size) : Prop :=
  ∀ d ∈ self.digits, d ≤ 9

instance (self : FixedDecimal _IntegerCount _DecimalCount _group_size) :
    Decidable self.digits_valid := by
  unfold digits_valid; infer_instance

end FixedDecimal

namespace FixedDecimal

variable {_IntegerCount _DecimalCount _group_size : Nat}

/-! ### Multiplication -/

/-- The locals of `_digit_multiply` between two iterations of its outer loop,
with the value returned from inside the loop, if any.  `_sum` and `_addend` are
declared as `_sum(), _addend()` and are read as default-constructed objects. -/
structure MultiplyLocals (_IntegerCount _DecimalCount _group_size : Nat) where
  /-- The running sum of the partial products. -/
  _sum : FixedDecimal _IntegerCount _DecimalCount _group_size
  /-- The partial product being written. -/
  _addend : FixedDecimal _IntegerCount _DecimalCount _group_size
  /-- The carry digit of the multiplication. -/
  _mcarrydigit : Nat
  /-- The value returned from inside the loop, once it has been. -/
  returned : Option Bool
deriving DecidableEq

/-- One iteration of the first inner loop of `_digit_multiply`, on the pair of
`_addend` and `_mcarrydigit`.  Both operands are read at the outer index `i`;
the digit is written to `_addends[i]`, read as `_addend`. -/
def _digit_multiply_decimal_body (self _other : FixedDecimal _IntegerCount _DecimalCount _group_size)
    (i : Nat) (st : FixedDecimal _IntegerCount _DecimalCount _group_size × Nat) (j : Nat) :
    Option (FixedDecimal _IntegerCount _DecimalCount _group_size × Nat) := do
  let x ← self._decimal_digit i
  let y ← _other._decimal_digit i
  let _result := _digit_type ((x * y + st.2 : Nat) : Int)
  let _mcarrydigit := _digit_type ((_result / _digit_capacity : Nat) : Int)
  let _addend ← st.1._decimal_digit_set j (_digit_type ((_result % _digit_capacity : Nat) : Int))
  pure (_addend, _mcarrydigit)

/-- One iteration of the second inner loop of `_digit_multiply`. -/
def _digit_multiply_integer_body (self _other : FixedDecimal _IntegerCount _DecimalCount _group_size)
    (i : Nat) (st : FixedDecimal _IntegerCount _DecimalCount _group_size × Nat) (j : Nat) :
    Option (FixedDecimal _IntegerCount _DecimalCount _group_size × Nat) := do
  let x ← self._integer_digit i
  let y ← _other._integer_digit i
  let _result := _digit_type ((x * y + st.2 : Nat) : Int)
  let _mcarrydigit := _digit_type ((_result / _digit_capacity : Nat) : Int)
  let _addend ← st.1._integer_digit_set j (_digit_type ((_result % _digit_capacity : Nat) : Int))
  pure (_addend, _mcarrydigit)

/-- One iteration of the outer loop of `_digit_multiply`.  The condition
`_sum._digit_add(_addend)` is read as the carry `_digit_add` ends with, which is
what the comment under it (an addition overflow) names. -/
def _digit_multiply_outer_body (self _other : FixedDecimal _IntegerCount _DecimalCount _group_size)
    (st : MultiplyLocals _IntegerCount _DecimalCount _group_size) (i : Nat) :
    Option (MultiplyLocals _IntegerCount _DecimalCount _group_size) :=
  match st.returned with
  | some _ => some st
  | none => do
    let p1 ← count_loop (_digit_multiply_decimal_body self _other i) _DecimalCount
      (st._addend, st._mcarrydigit)
    let p2 ← count_loop (_digit_multiply_integer_body self _other i) _IntegerCount p1
    let q ← st._sum._digit_add_locals p2.1
    pure { _sum := q.1, _addend := p2.1, _mcarrydigit := p2.2,
           returned := if q.2 then some true else none }

/-- The locals of `_digit_multiply` when its outer loop ends. -/
def _digit_multiply_locals (self _other : FixedDecimal _IntegerCount _DecimalCount _group_size) :
    Option (MultiplyLocals _IntegerCount _DecimalCount _group_size) :=
  count_loop (_digit_multiply_outer_body self _other) _DecimalCount
    { _sum := default_ctor _IntegerCount _DecimalCount _group_size
      _addend := default_ctor _IntegerCount _DecimalCount _group_size
      _mcarrydigit := 0
      returned := none }

/-- The member `bool _digit_multiply(_other)`: the pair of `*this` when the
function ends and the value it returns.  No statement of the function writes to
`*this`. -/
def _digit_multiply (self _other : FixedDecimal _IntegerCount _DecimalCount _group_size) :
    Option (FixedDecimal _IntegerCount _DecimalCount _group_size × Bool) :=
  (self._digit_multiply_locals _other).map (fun st =>
    (self, st.returned.getD (decide (st._mcarrydigit ≠ 0))))

/-- The operator `*=`: calls `_digit_multiply(other)` and returns `*this`. -/
def operator_mul_assign (self other : FixedDecimal _IntegerCount _DecimalCount _group_size) :
    Option (FixedDecimal _IntegerCount _DecimalCount _group_size) :=
  (self._digit_multiply other).map Prod.fst

/-- The operator `*`: copies `*this` and returns `_copy *= other`. -/
def operator_mul (self other : FixedDecimal _IntegerCount _DecimalCount _group_size) :
    Option (FixedDecimal _IntegerCount _DecimalCount _group_size) :=
  let _copy := self
  _copy.operator_mul_assign other

/-! ### Reads outside an array as unspecified values

The definitions above give a call no result once it touches a cell outside an
array.  The definitions of this section follow the same statements with a
read of such a cell yielding an unspecified value of the cell type, given by a
function `outside` of the cell index; a write to such a cell still has no
result.  A digit that a statement reads and then overwrites is read through
the accessor above, the write being to the same cell. -/

/-- The read `_integer[_pos]`, a cell outside the array holding the
`_group_type` value `outside _pos`. -/
def _integer_group_reading (outside : Nat → Nat)
    (self : FixedDecimal _IntegerCount _DecimalCount _group_size) (_pos : Nat) : Nat :=
  (self._integer[_pos]?).getD (_group_type _group_size (outside _pos))

/-- The read `_decimal[_pos]`, a cell outside the array holding the
`_group_type` value `outside _pos`. -/
def _decimal_group_reading (outside : Nat → Nat)
    (self : FixedDecimal _IntegerCount _DecimalCount _group_size) (_pos : Nat) : Nat :=
  (self._decimal[_pos]?).getD (_group_type _group_size (outside _pos))

/-- The getter `_integer_digit(_pos)` over `_integer_group_reading`. -/
def _integer_digit_reading (outside : Nat → Nat)
    (self : FixedDecimal _IntegerCount _DecimalCount _group_size) (_pos : Nat) : Nat :=
  _digit_type (((self._integer_group_reading outside (_pos / _digits_per_group _group_size)
    >>> ((_pos % _digits_per_group _group_size) * _digit_size)) &&& _digit_mask : Nat) : Int)

/-- The getter `_decimal_digit(_pos)` over `_decimal_group_reading`. -/
def _decimal_digit_reading (outside : Nat → Nat)
    (self : FixedDecimal _IntegerCount _DecimalCount _group_size) (_pos : Nat) : Nat :=
  _digit_type (((self._decimal_group_reading outside (_pos / _digits_per_group _group_size)
    >>> ((_pos % _digits_per_group _group_size) * _digit_size)) &&& _digit_mask : Nat) : Int)

/-- One iteration of the first loop of `_digit_add`, the digit of `_other` read
with `_decimal_digit_reading`. -/
def _digit_add_decimal_body_reading (outside : Nat → Nat)
    (_other : FixedDecimal _IntegerCount _DecimalCount _group_size)
    (st : FixedDecimal _IntegerCount _DecimalCount _group_size × Bool) (i : Nat) :
    Option (FixedDecimal _IntegerCount _DecimalCount _group_size × Bool) := do
  let x ← st.1._decimal_digit i
  let y := _other._decimal_digit_reading outside i
  let _result := _digit_type ((x + y + st.2.toNat : Nat) : Int)
  let _carrybit := decide (_result / _digit_capacity ≠ 0)
  let self1 ← st.1._decimal_digit_set i (_digit_type ((_result % _digit_capacity : Nat) : Int))
  pure (self1, _carrybit)

/-- One iteration of the second loop of `_digit_add`, the digit
`_other._decimal_digit(i)` read with `_decimal_digit_reading`. -/
def _digit_add_integer_body_reading (outside : Nat → Nat)
    (_other : FixedDecimal _IntegerCount _DecimalCount _group_size)
    (st : FixedDecimal _IntegerCount _DecimalCount _group_size × Bool) (i : Nat) :
    Option (FixedDecimal _IntegerCount _DecimalCount _group_size × Bool) := do
  let x ← st.1._integer_digit i
  let y := _other._decimal_digit_reading outside i
  let _result := _digit_type ((x + y + st.2.toNat : Nat) : Int)
  let _carrybit := decide (_result / _digit_capacity ≠ 0)
  let self1 ← st.1._integer_digit_set i (_digit_type ((_result % _digit_capacity : Nat) : Int))
  pure (self1, _carrybit)

/-- The body of `_digit_add` over the bodies above: `*this` and the local
`_carrybit` when the function ends. -/
def _digit_add_locals_reading (outside : Nat → Nat)
    (self _other : FixedDecimal _IntegerCount _DecimalCount _group_size) :
    Option (FixedDecimal _IntegerCount _DecimalCount _group_size × Bool) :=
  (count_loop (_digit_add_decimal_body_reading outside _other) _DecimalCount (self, false)).bind
    (count_loop (_digit_add_integer_body_reading outside _other) _IntegerCount)

/-- The operator `+=` over `_digit_add_locals_reading`. -/
def operator_add_assign_reading (outside : Nat → Nat)
    (self other : FixedDecimal _IntegerCount _DecimalCount _group_size) :
    Option (FixedDecimal _IntegerCount _DecimalCount _group_size) :=
  (self._digit_add_locals_reading outside other).map Prod.fst

/-- One iteration of the first inner loop of `_digit_multiply`, the digits of
the operands read with `_decimal_digit_reading`. -/
def _digit_multiply_decimal_body_reading (outside_self outside_other : Nat → Nat)
    (self _other : FixedDecimal _IntegerCount _DecimalCount _group_size)
    (i : Nat) (st : FixedDecimal _IntegerCount _DecimalCount _group_size × Nat) (j : Nat) :
    Option (FixedDecimal _IntegerCount _DecimalCount _group_size × Nat) := do
  let x := self._decimal_digit_reading outside_self i
  let y := _other._decimal_digit_reading outside_other i
  let _result := _digit_type ((x * y + st.2 : Nat) : Int)
  let _mcarrydigit := _digit_type ((_result / _digit_capacity : Nat) : Int)
  let _addend ← st.1._decimal_digit_set j (_digit_type ((_result % _digit_capacity : Nat) : Int))
  pure (_addend, _mcarrydigit)

/-- One iteration of the second inner loop of `_digit_multiply`, the digits of
the operands read with `_integer_digit_reading`. -/
def _digit_multiply_integer_body_reading (outside_self outside_other : Nat → Nat)
    (self _other : FixedDecimal _IntegerCount _DecimalCount _group_size)
    (i : Nat) (st : FixedDecimal _IntegerCount _DecimalCount _group_size × Nat) (j : Nat) :
    Option (FixedDecimal _IntegerCount _DecimalCount _group_size × Nat) := do
  let x := self._integer_digit_reading outside_self i
  let y := _other._integer_digit_reading outside_other i
  let _result := _digit_type ((x * y + st.2 : Nat) : Int)
  let _mcarrydigit := _digit_type ((_result / _digit_capacity : Nat) : Int)
  let _addend ← st.1._integer_digit_set j (_digit_type ((_result % _digit_capacity : Nat) : Int))
  pure (_addend, _mcarrydigit)

/-- One iteration of the outer loop of `_digit_multiply` over the bodies above;
`outside_addend i` gives the cells outside `_addend` in the iteration `i`. -/
def _digit_multiply_outer_body_reading (outside_self outside_other : Nat → Nat)
    (outside_addend : Nat → Nat → Nat)
    (self _other : FixedDecimal _IntegerCount _DecimalCount _group_size)
    (st : MultiplyLocals _IntegerCount _DecimalCount _group_size) (i : Nat) :
    Option (MultiplyLocals _IntegerCount _DecimalCount _group_size) :=
  match st.returned with
  | some _ => some st
  | none => do
    let p1 ← count_loop
      (_digit_multiply_decimal_body_reading outside_self outside_other self _other i)
      _DecimalCount (st._addend, st._mcarrydigit)
    let p2 ← count_loop
      (_digit_multiply_integer_body_reading outside_self outside_other self _other i)
      _IntegerCount p1
    let q ← st._sum._digit_add_locals_reading (outside_addend i) p2.1
    pure { _sum := q.1, _addend := p2.1, _mcarrydigit := p2.2,
           returned := if q.2 then some true else none }

/-- The locals of `_digit_multiply` when its outer loop ends, over the bodies
above. -/
def _digit_multiply_locals_reading (outside_self outside_other : Nat → Nat)
    (outside_addend : Nat → Nat → Nat)
    (self _other : FixedDecimal _IntegerCount _DecimalCount _group_size) :
    Option (MultiplyLocals _IntegerCount _DecimalCount _group_size) :=
  count_loop
    (_digit_multiply_outer_body_reading outside_self outside_other outside_addend self _other)
    _DecimalCount
    { _sum := default_ctor _IntegerCount _DecimalCount _group_size
      _addend := default_ctor _IntegerCount _DecimalCount _group_size
      _mcarrydigit := 0
      returned := none }

/-- The member `bool _digit_multiply(_other)` over the bodies above: the pair
of `*this` when the function ends and the value it returns. -/
def _digit_multiply_reading (outside_self outside_other : Nat → Nat)
    (outside_addend : Nat → Nat → Nat)
    (self _other : FixedDecimal _IntegerCount _DecimalCount _group_size) :
    Option (FixedDecimal _IntegerCount _DecimalCount _group_size × Bool) :=
  (self._digit_multiply_locals_reading outside_self outside_other outside_addend _other).map
    (fun st => (self, st.returned.getD (decide (st._mcarrydigit ≠ 0))))

/-- The operator `*=` over `_digit_multiply_reading`. -/
def operator_mul_assign_reading (outside_self outside_other : Nat → Nat)
    (outside_addend : Nat → Nat → Nat)
    (self other : FixedDecimal _IntegerCount _DecimalCount _group_size) :
    Option (FixedDecimal _IntegerCount _DecimalCount _group_size) :=
  (self._digit_multiply_reading outside_self outside_other outside_addend other).map Prod.fst

/-- The operator `*` over `operator_mul_assign_reading`. -/
def operator_mul_reading (outside_self outside_other : Nat → Nat)
    (outside_addend : Nat → Nat → Nat)
    (self other : FixedDecimal _IntegerCount _DecimalCount _group_size) :
    Option (FixedDecimal _IntegerCount _DecimalCount _group_size) :=
  let _copy := self
  _copy.operator_mul_assign_reading outside_self outside_other outside_addend other

/-! ### Comparison -/

/-- One iteration of a loop of `operator==` over the cells read by `ga` and
`gb`, on the value returned so far (`none` while the loop is running). -/
def operator_eq_body (ga gb : Nat → Option Nat) (ret : Option Bool) (i : Nat) :
    Option (Option Bool) :=
  match ret with
  | some r => some (some r)
  | none => do
    let x ← ga i
    let y ← gb i
    pure (if x ≠ y then some false else none)

/-- The operator `==`: compares the groups of `_decimal`, then those of
`_integer`. -/
def operator_eq (self other : FixedDecimal _IntegerCount _DecimalCount _group_size) :
    Option Bool := do
  let r1 ← count_loop (operator_eq_body self._decimal_group other._decimal_group)
    (_decimal_groups _DecimalCount _group_size) none
  let r2 ← count_loop (operator_eq_body self._integer_group other._integer_group)
    (_integer_groups _IntegerCount _group_size) r1
  pure (r2.getD true)

/-- The operator `!=`. -/
def operator_ne (self other : FixedDecimal _IntegerCount _DecimalCount _group_size) :
    Option Bool :=
  (self.operator_eq other).map (fun r => !r)

/-- The loop `for (count_type i = start; i >= 0; i--)` of `operator<` and
`operator<=` over the digits read by `ga` and `gb`, from the index `i` on:
`returned (some r)` when the body returns `r`, `returned none` when the loop
condition fails.  The index is a `count_type`, so `i >= 0` holds and `i--`
at `0` gives `255`. -/
def msd_loop (ga gb : Nat → Option Nat) : Nat → Nat → Outcome (Option Bool)
  | 0, _ => Outcome.outOfFuel
  | fuel + 1, i =>
    if (i : Int) ≥ 0 then
      match ga i, gb i with
      | some x, some y =>
        if x < y then Outcome.returned (some true)
        else if x > y then Outcome.returned (some false)
        else msd_loop ga gb fuel (count_type ((i : Int) - 1))
      | _, _ => Outcome.outOfBounds
    else Outcome.returned none

/-- The two loops of `operator<` and `operator<=` one after the other, and the
value `last` returned after them.  The bounds `_integerCount` and
`_DecimalDigit` of the source are read as `_IntegerCount` and `_DecimalCount`. -/
def msd_compare (self other : FixedDecimal _IntegerCount _DecimalCount _group_size)
    (last : Bool) (fuel : Nat) : Outcome Bool :=
  match msd_loop self._integer_digit other._integer_digit fuel
      (count_type ((_IntegerCount : Int) - 1)) with
  | Outcome.returned (some r) => Outcome.returned r
  | Outcome.returned none =>
    match msd_loop self._decimal_digit other._decimal_digit fuel
        (count_type ((_DecimalCount : Int) - 1)) with
    | Outcome.returned (some r) => Outcome.returned r
    | Outcome.returned none => Outcome.returned last
    | Outcome.outOfBounds => Outcome.outOfBounds
    | Outcome.outOfFuel => Outcome.outOfFuel
  | Outcome.outOfBounds => Outcome.outOfBounds
  | Outcome.outOfFuel => Outcome.outOfFuel

/-- The operator `<`, run for at most `fuel` iterations of each loop. -/
def operator_lt (self other : FixedDecimal _IntegerCount _DecimalCount _group_size)
    (fuel : Nat) : Outcome Bool :=
  msd_compare self other false fuel

/-- The operator `<=`, run for at most `fuel` iterations of each loop. -/
def operator_le (self other : FixedDecimal _IntegerCount _DecimalCount _group_size)
    (fuel : Nat) : Outcome Bool :=
  msd_compare self other true fuel

/-- The negation `!` of the value a call returns. -/
def Outcome_not : Outcome Bool → Outcome Bool
  | Outcome.returned r => Outcome.returned (!r)
  | Outcome.outOfBounds => Outcome.outOfBounds
  | Outcome.outOfFuel => Outcome.outOfFuel

/-- The operator `>`: `!operator<=(other)`. -/
def operator_gt (self other : FixedDecimal _IntegerCount _DecimalCount _group_size)
    (fuel : Nat) : Outcome Bool :=
  Outcome_not (self.operator_le other fuel)

/-- The operator `>=`: `!operator<(other)`. -/
def operator_ge (self other : FixedDecimal _IntegerCount _DecimalCount _group_size)
    (fuel : Nat) : Outcome Bool :=
  Outcome_not (self.operator_lt other fuel)

end FixedDecimal

namespace FixedDecimal

variable {_IntegerCount _DecimalCount _group_size : Nat}

/-- The value of the fractional part in units of its last place: the
`_DecimalCount` fractional digits read as a little-endian base-10 number. -/
def decimal_value (self : FixedDecimal _IntegerCount _DecimalCount _group_size) : Nat :=
  Nat.ofDigits 10 ((List.range _DecimalCount).map (fun i => (self._decimal_digit i).getD 0))

end FixedDecimal

/-! ### Digit access, division and construction -/

/-- Conversion of an integer to `scount_type` (`signed char`), modulo
`2 ^ CHAR_BIT`. -/
def scount_type (n : Int) : Int :=
  (n + 2 ^ (CHAR_BIT - 1)) % 2 ^ CHAR_BIT - 2 ^ (CHAR_BIT - 1)

/-- The size in bytes of a storage type with `_group_size` value bits. -/
def sizeof_group_type (_group_size : Nat) : Nat :=
  (_group_size + (CHAR_BIT - 1)) / CHAR_BIT

/-- The call `memset(cells, 0, n)` on an array of cells of `size` bytes each:
the first `n` bytes of the array are cleared.  A cell of which only the first
`k` bytes are cleared loses its `k` low bytes (little-endian storage).  In the
calls below `n` is the number of cells, so no byte outside the array is
written. -/
def memset_zero (size : Nat) : List Nat → Nat → List Nat
  | [], _ => []
  | g :: gs, n =>
    (if size ≤ n then 0 else (g >>> (CHAR_BIT * n)) <<< (CHAR_BIT * n))
      :: memset_zero size gs (n - size)

namespace FixedDecimal

variable {_IntegerCount _DecimalCount _group_size : Nat}

/-- The operator `[]`.  Its parameter is a `scount_type`, to which the argument
is converted:
`pos >= 0 ? _integer_digit(count_type(pos)) : _decimal_digit(_DecimalCount + pos)`. -/
def operator_index (self : FixedDecimal _IntegerCount _DecimalCount _group_size)
    (pos : Int) : Option Nat :=
  let pos := scount_type pos
  if pos ≥ 0 then self._integer_digit (count_type pos)
  else self._decimal_digit (count_type ((_DecimalCount : Int) + pos))

/-- The member `bool _digit_divide(_other)`: the pair of `*this` when the
function ends and the value it returns.  Its body is `return 0`. -/
def _digit_divide (self _other : FixedDecimal _IntegerCount _DecimalCount _group_size) :
    FixedDecimal _IntegerCount _DecimalCount _group_size × Bool :=
  (self, false)

/-- The operator `/=`: calls `_digit_divide(other)` and returns `*this`. -/
def operator_div_assign (self other : FixedDecimal _IntegerCount _DecimalCount _group_size) :
    FixedDecimal _IntegerCount _DecimalCount _group_size :=
  (self._digit_divide other).1

/-- The operator `/`: copies `*this` and returns `_copy /= other`. -/
def operator_div (self other : FixedDecimal _IntegerCount _DecimalCount _group_size) :
    FixedDecimal _IntegerCount _DecimalCount _group_size :=
  let _copy := self
  _copy.operator_div_assign other

/-- The default constructor, byte by byte, run on storage that holds `prior`:
`memset(_integer, 0, _integer_groups); memset(_decimal, 0, _decimal_groups);`. -/
def default_ctor_memset (prior : FixedDecimal _IntegerCount _DecimalCount _group_size) :
    FixedDecimal _IntegerCount _DecimalCount _group_size :=
  { _integer := memset_zero (sizeof_group_type _group_size) prior._integer
      (_integer_groups _IntegerCount _group_size)
    _decimal := memset_zero (sizeof_group_type _group_size) prior._decimal
      (_decimal_groups _DecimalCount _group_size) }

/-- One iteration of the first loop of the converting constructor:
`_integer_group(i) = (i < other._integer_groups ? other._integer_group(i) : 0)`. -/
def convert_ctor_integer_body {_OtherIntegerCount _OtherDecimalCount : Nat}
    (other : FixedDecimal _OtherIntegerCount _OtherDecimalCount _group_size)
    (self : FixedDecimal _IntegerCount _DecimalCount _group_size) (i : Nat) :
    Option (FixedDecimal _IntegerCount _DecimalCount _group_size) := do
  let g ← if i < _integer_groups _OtherIntegerCount _group_size then other._integer_group i
    else some 0
  self._integer_group_set i g

/-- One iteration of the second loop of the converting constructor:
`_decimal_group(i) = (i < other._integer_groups ? other._decimal_group(i) : 0)`. -/
def convert_ctor_decimal_body {_OtherIntegerCount _OtherDecimalCount : Nat}
    (other : FixedDecimal _OtherIntegerCount _OtherDecimalCount _group_size)
    (self : FixedDecimal _IntegerCount _DecimalCount _group_size) (i : Nat) :
    Option (FixedDecimal _IntegerCount _DecimalCount _group_size) := do
  let g ← if i < _integer_groups _OtherIntegerCount _group_size then other._decimal_group i
    else some 0
  self._decimal_group_set i g

/-- The constructor from a `FixedDecimal` of another format, run on storage that
holds `prior`. -/
def convert_ctor {_OtherIntegerCount _OtherDecimalCount : Nat}
    (prior : FixedDecimal _IntegerCount _DecimalCount _group_size)
    (other : FixedDecimal _OtherIntegerCount _OtherDecimalCount _group_size) :
    Option (FixedDecimal _IntegerCount _DecimalCount _group_size) :=
  (count_loop (convert_ctor_integer_body other)
      (_integer_groups _IntegerCount _group_size) prior).bind
    (count_loop (convert_ctor_decimal_body other)
      (_decimal_groups _DecimalCount _group_size))

end FixedDecimal

/-! ### The variable-width `Decimal` -/

/-- An object of `Decimal<_Signed, _StorageType>`: the two heap arrays its
pointers `_integer` and `_decimal` designate, and its two count members. -/
structure Decimal (_group_size : Nat) where
  /-- The array of groups of the integer part. -/
  _integer : List Nat
  /-- The array of groups of the fractional part. -/
  _decimal : List Nat
  /-- The member `_integer_groups`. -/
  _integer_groups : Nat
  /-- The member `_decimal_groups`. -/
  _decimal_groups : Nat
deriving DecidableEq

namespace Decimal

variable {_group_size : Nat}

/-- The number of bits of a packed digit. -/
def _digit_size : Nat := 4

/-- The mask of one packed digit. -/
def _digit_mask : Nat := (1 <<< _digit_size) - 1

/-- The constant `_digits_per_group = (CHAR_BIT * sizeof(_digit_type)) / _group_size`;
the name `_group_size`, which `Decimal` does not declare, is read as in
`FixedDecimal`. -/
def _digits_per_group (_group_size : Nat) : Nat :=
  count_type ((CHAR_BIT * 1 / _group_size : Nat) : Int)

/-- The object is consistent: its count members are `count_type` values and
give the lengths of its arrays, and every cell is a `_group_type` value. -/
def wf (self : Decimal _group_size) : Prop :=
  self._integer_groups < 256 ∧ self._decimal_groups < 256 ∧
  self._integer.length = self._integer_groups ∧
  self._decimal.length = self._decimal_groups ∧
  (∀ g ∈ self._integer, g < 2 ^ _group_size) ∧
  (∀ g ∈ self._decimal, g < 2 ^ _group_size)

instance (self : Decimal _group_size) : Decidable self.wf := by
  unfold wf; infer_instance

/-- One iteration of a copy loop of `_resize_groups`: `_temp[i] = old[i]`. -/
def _resize_copy_body (old : List Nat) (_temp : List Nat) (i : Nat) : Option (List Nat) :=
  (old[i]?).bind (fun g => if i < _temp.length then some (_temp.set i g) else none)

/-- The member `_resize_groups(_integer_groups_, _decimal_groups_)`.  The
expression `new _group_type[n](0)` is read as an array of `n` cells holding `0`.
No statement assigns the members `_integer_groups` and `_decimal_groups`. -/
def _resize_groups (self : Decimal _group_size) (_integer_groups_ _decimal_groups_ : Nat) :
    Option (Decimal _group_size) := do
  let self1 ←
    if self._integer_groups ≠ _integer_groups_ then do
      let _temp_integer ← count_loop (_resize_copy_body self._integer)
        (if self._integer_groups < _integer_groups_ then self._integer_groups
          else _integer_groups_)
        (List.replicate _integer_groups_ 0)
      pure { self with _integer := _temp_integer }
    else pure self
  if self1._decimal_groups ≠ _decimal_groups_ then do
    let _temp_decimal ← count_loop (_resize_copy_body self1._decimal)
      (if self1._decimal_groups < _decimal_groups_ then self1._decimal_groups
        else _decimal_groups_)
      (List.replicate _decimal_groups_ 0)
    pure { self1 with _decimal := _temp_decimal }
  else pure self1

/-- The member `_resize(_integer_digits_, _decimal_digits_)`; the names
`_integer_digits` and `_decimal_digits` of its body are read as its
parameters.  (When `_digits_per_group` is `0` the quotients have no value in
C++; here they are `0`.) -/
def _resize (self : Decimal _group_size) (_integer_digits_ _decimal_digits_ : Nat) :
    Option (Decimal _group_size) :=
  self._resize_groups
    (count_type (((_integer_digits_ + _digits_per_group _group_size - 1)
      / _digits_per_group _group_size : Nat) : Int))
    (count_type (((_decimal_digits_ + _digits_per_group _group_size - 1)
      / _digits_per_group _group_size : Nat) : Int))

/-- The member `_integer_count()`. -/
def _integer_count (self : Decimal _group_size) : Nat :=
  count_type ((self._integer_groups * _digits_per_group _group_size : Nat) : Int)

/-- The member `_decimal_count()`. -/
def _decimal_count (self : Decimal _group_size) : Nat :=
  count_type ((self._decimal_groups * _digits_per_group _group_size : Nat) : Int)

/-- The read accessor `_integer_group(_pos)`: the cell `_integer[_pos]`. -/
def _integer_group (self : Decimal _group_size) (_pos : Nat) : Option Nat :=
  self._integer[_pos]?

/-- The read accessor `_decimal_group(_pos)`: the cell `_decimal[_pos]`. -/
def _decimal_group (self : Decimal _group_size) (_pos : Nat) : Option Nat :=
  self._decimal[_pos]?

/-- The getter `_integer_digit(_pos)`: `0` when `_pos >= _decimal_count()`,
else the packed digit of the group `_pos / _digits_per_group`. -/
def _integer_digit (self : Decimal _group_size) (_pos : Nat) : Option Nat :=
  if _pos ≥ self._decimal_count then some 0
  else (self._integer_group (_pos / _digits_per_group _group_size)).map (fun g =>
    _digit_type (((g >>> ((_pos % _digits_per_group _group_size) * _digit_size))
      &&& _digit_mask : Nat) : Int))

/-- The getter `_decimal_digit(_pos)`: the packed digit of the group
`_pos / _digits_per_group`. -/
def _decimal_digit (self : Decimal _group_size) (_pos : Nat) : Option Nat :=
  (self._decimal_group (_pos / _digits_per_group _group_size)).map (fun g =>
    _digit_type (((g >>> ((_pos % _digits_per_group _group_size) * _digit_size))
      &&& _digit_mask : Nat) : Int))

end Decimal

/-! ### The class template `Fraction`

`IntegerType` is modelled by the integers: the definitions describe the
executions in which no operation overflows and no conversion changes a value.
The operators `/` and `%` of C++ round toward zero (`Int.tdiv`, `Int.tmod`).
The members over a machine integer type are the definitions of `FractionOf`
further down. -/

/-- How a call that divides and loops ends. -/
inductive Exec (α : Type) where
  /-- The call returned this value. -/
  | value (a : α)
  /-- The call evaluated `/` or `%` with a right operand `0`. -/
  | divisionByZero
  /-- The call was still running when the step budget ran out. -/
  | outOfFuel
deriving DecidableEq

/-- An object of `Fraction<IntegerType>`. -/
structure Fraction where
  /-- The member `_numerator`. -/
  _numerator : Int
  /-- The member `_denominator`. -/
  _denominator : Int
deriving DecidableEq

namespace Fraction

/-- The member `_numerator_abs()`. -/
def _numerator_abs (self : Fraction) : Int :=
  if self._numerator ≥ 0 then self._numerator else -self._numerator

/-- The member `_denominator_abs()`. -/
def _denominator_abs (self : Fraction) : Int :=
  if self._denominator ≥ 0 then self._denominator else -self._denominator

/-- The loop of `_full_simplify`, run for at most `fuel` iterations:
`do { remainder = greater % lesser; greater = lesser; lesser = remainder; } while (lesser);`
The value is `greater` when the loop ends. -/
def _full_simplify_loop : Nat → Int → Int → Exec Int
  | 0, _, _ => Exec.outOfFuel
  | fuel + 1, greater, lesser =>
    if lesser = 0 then Exec.divisionByZero
    else
      let remainder := Int.tmod greater lesser
      if remainder ≠ 0 then _full_simplify_loop fuel lesser remainder
      else Exec.value lesser

/-- The member `_full_simplify()`, its loop run for at most `fuel` iterations. -/
def _full_simplify (self : Fraction) (fuel : Nat) : Exec Fraction :=
  let greater := if self._numerator_abs > self._denominator_abs then self._numerator
    else self._denominator
  let lesser := if self._numerator_abs < self._denominator_abs then self._numerator
    else self._denominator
  match _full_simplify_loop fuel greater lesser with
  | Exec.value greater =>
    if greater = 0 then Exec.divisionByZero
    else Exec.value { _numerator := Int.tdiv self._numerator greater
                      _denominator := Int.tdiv self._denominator greater }
  | Exec.divisionByZero => Exec.divisionByZero
  | Exec.outOfFuel => Exec.outOfFuel

/-- The member `simplify()`: calls `_full_simplify()`. -/
def simplify (self : Fraction) (fuel : Nat) : Exec Fraction :=
  self._full_simplify fuel

/-- The operator `==` between two fractions. -/
def operator_eq (self other : Fraction) : Bool :=
  decide (self._numerator * other._denominator = self._denominator * other._numerator)

/-- The default constructor `Fraction()`: `0/1`. -/
def default_ctor : Fraction := { _numerator := 0, _denominator := 1 }

/-- The operator `+=` with a fraction that is another object than `*this`:
`_numerator *= other._denominator; _numerator += other._numerator * _denominator;`
`_denominator *= other._denominator; _full_simplify();` -/
def operator_add_assign (self other : Fraction) (fuel : Nat) : Exec Fraction :=
  let _numerator := self._numerator * other._denominator
  let _numerator := _numerator + other._numerator * self._denominator
  let _denominator := self._denominator * other._denominator
  (Fraction.mk _numerator _denominator)._full_simplify fuel

/-- The operator `-=` with a fraction that is another object than `*this`:
`_numerator *= other._denominator; _numerator -= other._numerator;`
`_denominator *= other._denomiator; _full_simplify();`
The member `_denomiator`, which the class does not have, is read as
`_denominator`. -/
def operator_sub_assign (self other : Fraction) (fuel : Nat) : Exec Fraction :=
  let _numerator := self._numerator * other._denominator
  let _numerator := _numerator - other._numerator
  let _denominator := self._denominator * other._denominator
  (Fraction.mk _numerator _denominator)._full_simplify fuel

/-- The operator `+`: `Fraction(*this) += other`. -/
def operator_add (self other : Fraction) (fuel : Nat) : Exec Fraction :=
  (Fraction.mk self._numerator self._denominator).operator_add_assign other fuel

/-- The operator `-`: `Fraction(*this) -= other`. -/
def operator_sub (self other : Fraction) (fuel : Nat) : Exec Fraction :=
  (Fraction.mk self._numerator self._denominator).operator_sub_assign other fuel

/-- The operator `<` between two fractions. -/
def operator_lt (self other : Fraction) : Bool :=
  decide (self._numerator * other._denominator < other._numerator * self._denominator)

/-- The operator `<=` between two fractions. -/
def operator_le (self other : Fraction) : Bool :=
  decide (self._numerator * other._denominator ≤ other._numerator * self._denominator)

/-- The rational number a fraction stands for, `numerator / denominator`.  This
is not a member of the class: it is the number the comparisons are measured
against. -/
def rational_value (self : Fraction) : ℚ :=
  (self._numerator : ℚ) / (self._denominator : ℚ)

end Fraction

/-! ### The class template `FixedPoint`

An `IntegerType` is given by its signedness and its number of value bits.  An
expression is evaluated over the integers, with the two's complement reading of
the bitwise operators and `x << n` as `x * 2 ^ n` (the class assumes that signed
shifts work in the standard manner); its value is reduced to the type when it is
stored in `_content`, passed as an argument or returned.  This is what C++
computes whenever no intermediate operation overflows.  The one expression
that is not of the type `IntegerType` or its promotion is the mask
`(1 << FractionalBits) - 1` of `_d()`, whose literal `1` is an `int`: a call
that evaluates it with `FractionalBits ≥ 31` has no result. -/

/-- A template argument `IntegerType`: `std::numeric_limits<IntegerType>::is_signed`
and `std::numeric_limits<IntegerType>::digits`. -/
structure IntegerType where
  /-- Whether the type is signed. -/
  is_signed : Bool
  /-- The number of value bits. -/
  digits : Nat
deriving DecidableEq

/-- Conversion of an integer to the type, modulo `2 ^ digits` for an unsigned
type and in two's complement for a signed one. -/
def IntegerType.convert (T : IntegerType) (n : Int) : Int :=
  if T.is_signed then (n + 2 ^ T.digits) % 2 ^ (T.digits + 1) - 2 ^ T.digits
  else n % 2 ^ T.digits

/-- The left shift `x << n`. -/
def shift_left (x : Int) (n : Nat) : Int := x * 2 ^ n

/-- The expression `1 << n` on the literal `1`, which is an `int`, as the mask
`(1 << n) - 1` uses it: with the 31 value bits of a 32-bit `int` the shift is
`2 ^ n` when `n < 31`.  When `n ≥ 31` the shift has no defined value, or for
`n = 31` the most negative `int`, from which the mask subtracts `1`; either way
the mask has no value. -/
def int_one_shift_left (n : Nat) : Option Int :=
  if n < 31 then some (shift_left 1 n) else none

/-- An object of `FixedPoint<IntegerType, IntegerBits, FractionalBits>`. -/
structure FixedPoint (T : IntegerType) (IntegerBits FractionalBits : Nat) where
  /-- The member `_content`. -/
  _content : Int
deriving DecidableEq

namespace FixedPoint

variable {T : IntegerType} {IntegerBits FractionalBits : Nat}

/-- The content is a value of the type, and so is its magnitude: this leaves
out the most negative value of a signed type. -/
def wf (self : FixedPoint T IntegerBits FractionalBits) : Prop :=
  (if T.is_signed then -(2 ^ T.digits : Int) < self._content else 0 ≤ self._content) ∧
  self._content < 2 ^ T.digits

instance (self : FixedPoint T IntegerBits FractionalBits) : Decidable self.wf := by
  unfold wf; infer_instance

/-- The member `_i()`:
`(_content >= 0 ? _content : -_content) >> FractionalBits`. -/
def _i (self : FixedPoint T IntegerBits FractionalBits) : Int :=
  T.convert ((if self._content ≥ 0 then self._content else -self._content) >>> FractionalBits)

/-- The member `_d()`:
`(_content >= 0 ? _content : -_content) & ((1 << FractionalBits) - 1)`.  The
mask is computed on the `int` literal `1` and has no defined value when
`FractionalBits ≥ 31`, whatever `IntegerType` is. -/
def _d (self : FixedPoint T IntegerBits FractionalBits) : Option Int :=
  (int_one_shift_left FractionalBits).map (fun one_shifted =>
    T.convert (Int.land (if self._content ≥ 0 then self._content else -self._content)
      (one_shifted - 1)))

/-- The member `_negative()`: `_signed && (_content < 0)`. -/
def _negative (self : FixedPoint T IntegerBits FractionalBits) : Bool :=
  T.is_signed && decide (self._content < 0)

/-- The component value constructor `FixedPoint(i_value, d_value, s_value)`:
`_content(d_value | (i_value << FractionalBits))`, then `_content *= -1` when
`s_value` is set. -/
def component_ctor (i_value d_value : Int) (s_value : Bool) :
    FixedPoint T IntegerBits FractionalBits :=
  let _content := T.convert (Int.lor (T.convert d_value)
    (shift_left (T.convert i_value) FractionalBits))
  if s_value then { _content := T.convert (_content * -1) } else { _content := _content }

/-- The getter `i()`. -/
def i (self : FixedPoint T IntegerBits FractionalBits) : Int := self._i

/-- The getter `d()`. -/
def d (self : FixedPoint T IntegerBits FractionalBits) : Option Int := self._d

/-- The getter `s()`. -/
def s (self : FixedPoint T IntegerBits FractionalBits) : Bool := self._negative

/-- The setter `i(i_value)`:
`_content = ((_negative() * -2) + 1) * (i_value << FractionalBits) | _d()`, where
`*` binds tighter than `|`. -/
def i_set (self : FixedPoint T IntegerBits FractionalBits) (i_value : Int) :
    Option (FixedPoint T IntegerBits FractionalBits) :=
  self._d.map (fun d_value =>
    { _content := T.convert (Int.lor
        ((((if self._negative then 1 else 0) * -2) + 1)
          * shift_left (T.convert i_value) FractionalBits)
        d_value) })

/-- The setter `s(s_value)`:
`_content = (s_value ^ _content < 0) ? _content : -_content`, where `<` binds
tighter than `^`. -/
def s_set (self : FixedPoint T IntegerBits FractionalBits) (s_value : Bool) :
    FixedPoint T IntegerBits FractionalBits :=
  { _content := T.convert
      (if xor s_value (decide (self._content < 0)) then self._content else -self._content) }

/-- The member `d_size()`. -/
def d_size (_self : FixedPoint T IntegerBits FractionalBits) : Nat :=
  count_type (FractionalBits : Int)

/-- The member template `convert<OtherIntegerBits, OtherFractionalBits>()`. -/
def convert (self : FixedPoint T IntegerBits FractionalBits)
    (OtherIntegerBits OtherFractionalBits : Nat) :
    Option (FixedPoint T OtherIntegerBits OtherFractionalBits) :=
  let ddiff := scount_type (scount_type (self.d_size : Int)
    - scount_type (count_type (OtherFractionalBits : Int) : Int))
  if ddiff ≥ 0 then
    self._d.map (fun (d_value : Int) =>
      component_ctor self._i (d_value >>> count_type ddiff) (decide (self._content < 0)))
  else
    self._d.map (fun (d_value : Int) =>
      component_ctor self._i (shift_left d_value (count_type (-ddiff)))
        (decide (self._content < 0)))

end FixedPoint

/-! ### The class template `Fraction` over a machine integer type

The definitions of `Fraction` above are over the integers.  The definitions of
this section follow the same members for a given `IntegerType`: an operation is
carried out in the promoted type of its operands, which is `int` (taken with 31
value bits) for a type all of whose values are `int` values and the type
itself otherwise; a signed operation whose exact result is not a value of that
type has no result, an unsigned one is reduced modulo `2 ^ digits`; and a
value is converted to `IntegerType` when it is stored in a member or
returned. -/

/-- How a call on machine integers ends. -/
inductive Run (α : Type) where
  /-- The call returned this value. -/
  | value (a : α)
  /-- The call evaluated `/` or `%` with a right operand `0`. -/
  | divisionByZero
  /-- The call evaluated a signed operation whose result is not a value of
  the type of the operation. -/
  | overflow
  /-- The call was still running when the step budget ran out. -/
  | outOfFuel
deriving DecidableEq

/-- Sequencing of two steps of a call. -/
def Run.bind {α β : Type} : Run α → (α → Run β) → Run β
  | Run.value a, f => f a
  | Run.divisionByZero, _ => Run.divisionByZero
  | Run.overflow, _ => Run.overflow
  | Run.outOfFuel, _ => Run.outOfFuel

/-- The integer `n` is a value of the type. -/
def IntegerType.holds (T : IntegerType) (n : Int) : Prop :=
  (if T.is_signed then -(2 ^ T.digits : Int) ≤ n else 0 ≤ n) ∧ n < 2 ^ T.digits

instance (T : IntegerType) (n : Int) : Decidable (T.holds n) := by
  unfold IntegerType.holds; infer_instance

/-- The type in which an operation on operands of the type is carried out. -/
def IntegerType.promoted (T : IntegerType) : IntegerType :=
  if T.digits < 31 then { is_signed := true, digits := 31 } else T

/-- The result of an operation on operands of the type whose exact value is
`n`. -/
def IntegerType.arith (T : IntegerType) (n : Int) : Run Int :=
  if T.promoted.is_signed then
    if T.promoted.holds n then Run.value n else Run.overflow
  else Run.value (n % 2 ^ T.promoted.digits)

/-- An object of `Fraction<IntegerType>` for the machine integer type `T`. -/
structure FractionOf (T : IntegerType) where
  /-- The member `_numerator`. -/
  _numerator : Int
  /-- The member `_denominator`. -/
  _denominator : Int
deriving DecidableEq

namespace FractionOf

variable {T : IntegerType}

/-- The members are values of `IntegerType`. -/
def wf (self : FractionOf T) : Prop :=
  T.holds self._numerator ∧ T.holds self._denominator

instance (self : FractionOf T) : Decidable self.wf := by
  unfold wf; infer_instance

/-- The member `_numerator_abs()`: `_numerator >= 0 ? _numerator : -_numerator`,
returned as an `IntegerType`. -/
def _numerator_abs (self : FractionOf T) : Run Int :=
  if self._numerator ≥ 0 then Run.value (T.convert self._numerator)
  else (T.arith (-self._numerator)).bind (fun v => Run.value (T.convert v))

/-- The member `_denominator_abs()`. -/
def _denominator_abs (self : FractionOf T) : Run Int :=
  if self._denominator ≥ 0 then Run.value (T.convert self._denominator)
  else (T.arith (-self._denominator)).bind (fun v => Run.value (T.convert v))

/-- The loop of `_full_simplify`, run for at most `fuel` iterations:
`do { IntegerType remainder(greater % lesser); greater = lesser; lesser = remainder; } while (lesser);`
The value is `greater` when the loop ends.  The operator `%` has a result when
the quotient has one. -/
def _full_simplify_loop (T : IntegerType) : Nat → Int → Int → Run Int
  | 0, _, _ => Run.outOfFuel
  | fuel + 1, greater, lesser =>
    if lesser = 0 then Run.divisionByZero
    else
      (T.arith (Int.tdiv greater lesser)).bind (fun _ =>
        let remainder := T.convert (Int.tmod greater lesser)
        if remainder ≠ 0 then _full_simplify_loop T fuel lesser remainder
        else Run.value lesser)

/-- The member `_full_simplify()`, its loop run for at most `fuel` iterations. -/
def _full_simplify (self : FractionOf T) (fuel : Nat) : Run (FractionOf T) :=
  self._numerator_abs.bind (fun numerator_abs =>
  self._denominator_abs.bind (fun denominator_abs =>
    let greater := if numerator_abs > denominator_abs then self._numerator
      else self._denominator
    let lesser := if numerator_abs < denominator_abs then self._numerator
      else self._denominator
    (_full_simplify_loop T fuel greater lesser).bind (fun greater =>
      if greater = 0 then Run.divisionByZero
      else
        (T.arith (Int.tdiv self._numerator greater)).bind (fun q_numerator =>
        (T.arith (Int.tdiv self._denominator greater)).bind (fun q_denominator =>
          Run.value { _numerator := T.convert q_numerator
                      _denominator := T.convert q_denominator })))))

/-- The member `simplify()`: calls `_full_simplify()`. -/
def simplify (self : FractionOf T) (fuel : Nat) : Run (FractionOf T) :=
  self._full_simplify fuel

/-- The operator `==` between two fractions. -/
def operator_eq (self other : FractionOf T) : Run Bool :=
  (T.arith (self._numerator * other._denominator)).bind (fun left =>
  (T.arith (self._denominator * other._numerator)).bind (fun right =>
    Run.value (decide (left = right))))

end FractionOf

/-! ## Lemmas -/

namespace FixedDecimal
variable {_IntegerCount _DecimalCount _group_size : Nat}

theorem digits_per_group_eight : _digits_per_group 8 = 1 := by decide

theorem digit_type_of_lt {x : Nat} (h : x < 256) : _digit_type (x : Int) = x := by
  unfold _digit_type CHAR_BIT
  have : ((x : Int) % 2 ^ 8) = x := Int.emod_eq_of_lt (by omega) (by norm_num; omega)
  rw [this]; simp

theorem count_type_of_lt {x : Nat} (h : x < 256) : count_type (x : Int) = x := by
  unfold count_type CHAR_BIT
  have : ((x : Int) % 2 ^ 8) = x := Int.emod_eq_of_lt (by omega) (by norm_num; omega)
  rw [this]; simp

theorem integer_groups_eight {n : Nat} (h : n < 256) : _integer_groups n 8 = n := by
  unfold _integer_groups
  rw [digits_per_group_eight]
  simpa using count_type_of_lt h

theorem decimal_groups_eight {n : Nat} (h : n < 256) : _decimal_groups n 8 = n := by
  unfold _decimal_groups
  rw [digits_per_group_eight]
  simpa using count_type_of_lt h

set_option maxRecDepth 1000000 in
theorem nibble_write : ∀ g < 256, ∀ v < 16,
    (_group_type 8 (_group_type 8 (g ^^^ _group_type 8 (_group_type 8 g &&& (_digit_mask <<< 0)))
      ||| (v <<< 0))) &&& 15 = v := by
  decide

theorem decimal_digit_eight (s : FixedDecimal _IntegerCount _DecimalCount 8) (i : Nat) :
    s._decimal_digit i = (s._decimal[i]?).map (fun g => g &&& 15) := by
  unfold _decimal_digit _decimal_group
  rw [digits_per_group_eight]
  simp only [Nat.div_one, Nat.mod_one, Nat.zero_mul, Nat.shiftRight_zero]
  congr 1
  funext g
  have h : g &&& _digit_mask < 256 := lt_of_le_of_lt Nat.and_le_right (by decide)
  rw [digit_type_of_lt h]
  rfl

end FixedDecimal

theorem digit_sum_succ {σ : Type} (get : σ → Nat → Option Nat) (n : Nat) (s : σ) :
    digit_sum get (n + 1) s = digit_sum get n s + (get s n).getD 0 * 10 ^ n := by
  unfold digit_sum
  rw [Finset.sum_range_succ]

theorem digit_sum_congr {σ τ : Type} (get : σ → Nat → Option Nat) (get2 : τ → Nat → Option Nat)
    (n : Nat) (s : σ) (t : τ)
    (h : ∀ j, j < n → get s j = get2 t j) : digit_sum get n s = digit_sum get2 n t := by
  unfold digit_sum
  apply Finset.sum_congr rfl
  intro j hj
  rw [h j (Finset.mem_range.mp hj)]

theorem digit_sum_lt {σ : Type} (get : σ → Nat → Option Nat) (s : σ) :
    ∀ n, (∀ j, j < n → ∀ d, get s j = some d → d ≤ 9) → digit_sum get n s < 10 ^ n := by
  intro n
  induction n with
  | zero => intro _; simp [digit_sum]
  | succ n ih =>
    intro h
    rw [digit_sum_succ]
    have h1 := ih (fun j hj => h j (Nat.lt_succ_of_lt hj))
    have h2 : (get s n).getD 0 ≤ 9 := by
      cases hg : get s n with
      | none => simp
      | some d => simpa using h n (Nat.lt_succ_self n) d hg
    have h3 : (get s n).getD 0 * 10 ^ n ≤ 9 * 10 ^ n := Nat.mul_le_mul_right _ h2
    rw [pow_succ]
    omega

theorem sub_loop_spec {σ ρ : Type} {get : σ → Nat → Option Nat}
    {set : σ → Nat → Nat → Option σ} {N : Nat} {ok : σ → Prop} {rest : σ → ρ}
    (hc : DigitCells get set N ok rest) (gb : Nat → Option Nat)
    (hb : ∀ i, i < N → ∃ y, gb i = some y ∧ y ≤ 9)
    (a : σ) (c0 : Bool) (hok : ok a) (ha : ∀ i, i < N → ∀ d, get a i = some d → d ≤ 9) :
    ∀ n, n ≤ N → ∃ r c, count_loop (sub_body get set gb) n (a, c0) = some (r, c) ∧
      ok r ∧ rest r = rest a ∧ (∀ j, n ≤ j → get r j = get a j) ∧
      (∀ j, j < n → ∀ d, get r j = some d → d ≤ 9) ∧
      digit_sum get n r + digit_sum (fun _ : Unit => gb) n () + c0.toNat
        = digit_sum get n a + c.toNat * 10 ^ n := by
  intro n
  induction n with
  | zero =>
    intro _
    exact ⟨a, c0, rfl, hok, rfl, fun _ _ => rfl, fun j hj => absurd hj (Nat.not_lt_zero j),
      by simp [digit_sum]⟩
  | succ n ih =>
    intro hn
    obtain ⟨r, c, hrun, hokr, hrest, hhigh, hlow, hsum⟩ := ih (Nat.le_of_succ_le hn)
    have hnN : n < N := hn
    obtain ⟨y, hy, hy9⟩ := hb n hnN
    obtain ⟨x, hx, _⟩ := hc.read r n hokr hnN
    have hxa : get a n = some x := by rw [← hhigh n (le_refl n)]; exact hx
    have hx9 : x ≤ 9 := ha n hnN x hxa
    have hcle : c.toNat ≤ 1 := Bool.toNat_le c
    have hd : _digit_type ((y + c.toNat : Nat) : Int) = y + c.toNat :=
      FixedDecimal.digit_type_of_lt (by omega)
    -- the digit written and the borrow that leaves this position
    obtain ⟨v, c', hv, hv9, hc', hbal⟩ : ∃ v, ∃ c' : Bool,
        _digit_type ((x : Int) + (((decide (y + c.toNat > x)).toNat
          * FixedDecimal._digit_capacity : Nat) - ((y + c.toNat : Nat) : Int))) = v ∧ v ≤ 9 ∧
        c' = decide (y + c.toNat > x) ∧ v + y + c.toNat = x + c'.toNat * 10 := by
      by_cases hgt : y + c.toNat > x
      · refine ⟨x + 10 - (y + c.toNat), true, ?_, by omega, by simp [hgt], ?_⟩
        · have e : (x : Int) + (((decide (y + c.toNat > x)).toNat
              * FixedDecimal._digit_capacity : Nat) - ((y + c.toNat : Nat) : Int))
              = ((x + 10 - (y + c.toNat) : Nat) : Int) := by
            simp only [hgt, decide_True, Bool.toNat_true, FixedDecimal._digit_capacity,
              FixedDecimal._digit_max]
            omega
          rw [e]
          exact FixedDecimal.digit_type_of_lt (by omega)
        · simp; omega
      · refine ⟨x - (y + c.toNat), false, ?_, by omega, by simp [hgt], ?_⟩
        · have e : (x : Int) + (((decide (y + c.toNat > x)).toNat
              * FixedDecimal._digit_capacity : Nat) - ((y + c.toNat : Nat) : Int))
              = ((x - (y + c.toNat) : Nat) : Int) := by
            simp only [hgt, decide_False, Bool.toNat_false]
            omega
          rw [e]
          exact FixedDecimal.digit_type_of_lt (by omega)
        · simp; omega
    obtain ⟨t, ht, hokt, hread, hother, hrestt⟩ := hc.write r n v hokr hnN (by omega)
    refine ⟨t, c', ?_, hokt, hrestt.trans hrest, ?_, ?_, ?_⟩
    · simp only [count_loop, hrun, Option.some_bind, sub_body, hy, hx, hd,
        Option.pure_def, Option.bind_eq_bind, hv, ht, hc']
    · intro j hj
      rw [hother j (by omega), hhigh j (by omega)]
    · intro j hj d hjd
      by_cases hjn : j = n
      · subst hjn
        rw [hread] at hjd
        cases hjd
        exact hv9
      · rw [hother j hjn] at hjd
        exact hlow j (by omega) d hjd
    · rw [digit_sum_succ, digit_sum_succ, digit_sum_succ, hread, hxa, hy]
      have e1 : digit_sum get n t = digit_sum get n r :=
        digit_sum_congr get get n t r (fun j hj => hother j (by omega))
      rw [e1]
      simp only [Option.getD_some]
      have : (v + y + c.toNat) * 10 ^ n = (x + c'.toNat * 10) * 10 ^ n := by rw [hbal]
      rw [pow_succ]
      linarith [this, hsum]

theorem add_loop_spec {σ ρ : Type} {get : σ → Nat → Option Nat}
    {set : σ → Nat → Nat → Option σ} {N : Nat} {ok : σ → Prop} {rest : σ → ρ}
    (hc : DigitCells get set N ok rest) (gb : Nat → Option Nat)
    (hb : ∀ i, i < N → ∃ y, gb i = some y ∧ y ≤ 9)
    (a : σ) (c0 : Bool) (hok : ok a) (ha : ∀ i, i < N → ∀ d, get a i = some d → d ≤ 9) :
    ∀ n, n ≤ N → ∃ r c, count_loop (add_body get set gb) n (a, c0) = some (r, c) ∧
      ok r ∧ rest r = rest a ∧ (∀ j, n ≤ j → get r j = get a j) ∧
      (∀ j, j < n → ∀ d, get r j = some d → d ≤ 9) ∧
      digit_sum get n r + c.toNat * 10 ^ n
        = digit_sum get n a + digit_sum (fun _ : Unit => gb) n () + c0.toNat := by
  intro n
  induction n with
  | zero =>
    intro _
    exact ⟨a, c0, rfl, hok, rfl, fun _ _ => rfl, fun j hj => absurd hj (Nat.not_lt_zero j),
      by simp [digit_sum]⟩
  | succ n ih =>
    intro hn
    obtain ⟨r, c, hrun, hokr, hrest, hhigh, hlow, hsum⟩ := ih (Nat.le_of_succ_le hn)
    have hnN : n < N := hn
    obtain ⟨y, hy, hy9⟩ := hb n hnN
    obtain ⟨x, hx, _⟩ := hc.read r n hokr hnN
    have hxa : get a n = some x := by rw [← hhigh n (le_refl n)]; exact hx
    have hx9 : x ≤ 9 := ha n hnN x hxa
    have hcle : c.toNat ≤ 1 := Bool.toNat_le c
    have hd : _digit_type ((x + y + c.toNat : Nat) : Int) = x + y + c.toNat :=
      FixedDecimal.digit_type_of_lt (by omega)
    have hcap : FixedDecimal._digit_capacity = 10 := rfl
    have hv : _digit_type (((x + y + c.toNat) % 10 : Nat) : Int) = (x + y + c.toNat) % 10 :=
      FixedDecimal.digit_type_of_lt (by omega)
    obtain ⟨c', hc', hbal⟩ : ∃ c' : Bool, c' = decide ((x + y + c.toNat) / 10 ≠ 0) ∧
        (x + y + c.toNat) % 10 + c'.toNat * 10 = x + y + c.toNat := by
      by_cases hge : (x + y + c.toNat) / 10 ≠ 0
      · exact ⟨true, by simp [hge], by simp; omega⟩
      · exact ⟨false, by simp [hge], by simp; omega⟩
    obtain ⟨t, ht, hokt, hread, hother, hrestt⟩ :=
      hc.write r n ((x + y + c.toNat) % 10) hokr hnN (by omega)
    refine ⟨t, c', ?_, hokt, hrestt.trans hrest, ?_, ?_, ?_⟩
    · simp only [count_loop, hrun, Option.some_bind, add_body, hy, hx, hd, hcap,
        Option.pure_def, Option.bind_eq_bind, hv, ht, hc']
    · intro j hj
      rw [hother j (by omega), hhigh j (by omega)]
    · intro j hj d hjd
      by_cases hjn : j = n
      · subst hjn
        rw [hread] at hjd
        cases hjd
        omega
      · rw [hother j hjn] at hjd
        exact hlow j (by omega) d hjd
    · rw [digit_sum_succ, digit_sum_succ, digit_sum_succ, hread, hxa, hy]
      have e1 : digit_sum get n t = digit_sum get n r :=
        digit_sum_congr get get n t r (fun j hj => hother j (by omega))
      rw [e1]
      simp only [Option.getD_some]
      have : ((x + y + c.toNat) % 10 + c'.toNat * 10) * 10 ^ n
          = (x + y + c.toNat) * 10 ^ n := by rw [hbal]
      rw [pow_succ]
      linarith [this, hsum]

namespace FixedDecimal
variable {_IntegerCount _DecimalCount _group_size : Nat}

theorem integer_digit_eight (s : FixedDecimal _IntegerCount _DecimalCount 8) (i : Nat) :
    s._integer_digit i = (s._integer[i]?).map (fun g => g &&& 15) := by
  unfold _integer_digit _integer_group
  rw [digits_per_group_eight]
  simp only [Nat.div_one, Nat.mod_one, Nat.zero_mul, Nat.shiftRight_zero]
  congr 1
  funext g
  have h : g &&& _digit_mask < 256 := lt_of_le_of_lt Nat.and_le_right (by decide)
  rw [digit_type_of_lt h]
  rfl

/-- The states on which the digit cells of an eight-bit storage word behave:
the array has one cell per digit and every cell is a byte. -/
theorem decimal_cells :
    DigitCells (_decimal_digit : FixedDecimal _IntegerCount _DecimalCount 8 → Nat → Option Nat)
      _decimal_digit_set
      _DecimalCount (fun s => s._decimal.length = _DecimalCount ∧ ∀ g ∈ s._decimal, g < 256)
      (fun s => s._integer) := by
  constructor
  · intro s i hs hi
    rw [decimal_digit_eight]
    have hi2 : i < s._decimal.length := by rw [hs.1]; exact hi
    refine ⟨s._decimal[i] &&& 15, by simp [List.getElem?_eq_getElem hi2], ?_⟩
    exact lt_of_le_of_lt Nat.and_le_right (by decide)
  · intro s i v hs hi hv
    have hi2 : i < s._decimal.length := by rw [hs.1]; exact hi
    have hg : s._decimal[i] < 256 := hs.2 _ (List.getElem_mem hi2)
    refine ⟨{ s with _decimal := s._decimal.set i (_group_type 8 (_group_type 8
      (s._decimal[i] ^^^ _group_type 8 (_group_type 8 s._decimal[i] &&& (_digit_mask <<< 0)))
        ||| (v <<< 0))) }, ?_, ?_, ?_, ?_, ?_⟩
    · unfold _decimal_digit_set _decimal_group _decimal_group_set
      rw [digits_per_group_eight]
      simp only [Nat.div_one, Nat.mod_one, List.getElem?_eq_getElem hi2, Option.pure_def,
        Option.bind_eq_bind, Option.some_bind, hi2, if_true, List.length_set, List.set_set]
    · refine ⟨by simp [hs.1], ?_⟩
      intro g hg2
      rcases List.mem_or_eq_of_mem_set hg2 with h | h
      · exact hs.2 g h
      · rw [h]; exact Nat.mod_lt _ (by norm_num)
    · rw [decimal_digit_eight]
      simp only [List.getElem?_set_self hi2, Option.map_some']
      congr 1
      exact nibble_write _ hg v hv
    · intro j hj
      rw [decimal_digit_eight, decimal_digit_eight]
      simp only [List.getElem?_set_ne (Ne.symm hj)]
    · rfl

end FixedDecimal

theorem ofDigits_map_range (f : Nat → Nat) :
    ∀ n, Nat.ofDigits 10 ((List.range n).map f) = ∑ i in Finset.range n, f i * 10 ^ i := by
  intro n
  induction n with
  | zero => simp
  | succ n ih =>
    rw [List.range_succ, List.map_append, Nat.ofDigits_append, ih, Finset.sum_range_succ]
    simp [Nat.mul_comm]

namespace FixedDecimal
variable {_IntegerCount _DecimalCount _group_size : Nat}

theorem integer_cells :
    DigitCells (_integer_digit : FixedDecimal _IntegerCount _DecimalCount 8 → Nat → Option Nat)
      _integer_digit_set
      _IntegerCount (fun s => s._integer.length = _IntegerCount ∧ ∀ g ∈ s._integer, g < 256)
      (fun s => s._decimal) := by
  constructor
  · intro s i hs hi
    rw [integer_digit_eight]
    have hi2 : i < s._integer.length := by rw [hs.1]; exact hi
    refine ⟨s._integer[i] &&& 15, by simp [List.getElem?_eq_getElem hi2], ?_⟩
    exact lt_of_le_of_lt Nat.and_le_right (by decide)
  · intro s i v hs hi hv
    have hi2 : i < s._integer.length := by rw [hs.1]; exact hi
    have hg : s._integer[i] < 256 := hs.2 _ (List.getElem_mem hi2)
    refine ⟨{ s with _integer := s._integer.set i (_group_type 8 (_group_type 8
      (s._integer[i] ^^^ _group_type 8 (_group_type 8 s._integer[i] &&& (_digit_mask <<< 0)))
        ||| (v <<< 0))) }, ?_, ?_, ?_, ?_, ?_⟩
    · unfold _integer_digit_set _integer_group _integer_group_set
      rw [digits_per_group_eight]
      simp only [Nat.div_one, Nat.mod_one, List.getElem?_eq_getElem hi2, Option.pure_def,
        Option.bind_eq_bind, Option.some_bind, hi2, if_true, List.length_set, List.set_set]
    · refine ⟨by simp [hs.1], ?_⟩
      intro g hg2
      rcases List.mem_or_eq_of_mem_set hg2 with h | h
      · exact hs.2 g h
      · rw [h]; exact Nat.mod_lt _ (by norm_num)
    · rw [integer_digit_eight]
      simp only [List.getElem?_set_self hi2, Option.map_some']
      congr 1
      exact nibble_write _ hg v hv
    · intro j hj
      rw [integer_digit_eight, integer_digit_eight]
      simp only [List.getElem?_set_ne (Ne.symm hj)]
    · rfl

theorem value_eq_digit_sum (s : FixedDecimal _IntegerCount _DecimalCount _group_size) :
    s.value = digit_sum _decimal_digit _DecimalCount s
      + 10 ^ _DecimalCount * digit_sum _integer_digit _IntegerCount s := by
  unfold value digits digit_sum
  rw [Nat.ofDigits_append, ofDigits_map_range, ofDigits_map_range]
  simp

theorem digits_valid_iff (s : FixedDecimal _IntegerCount _DecimalCount _group_size) :
    s.digits_valid ↔
      (∀ i, i < _DecimalCount → ∀ d, s._decimal_digit i = some d → d ≤ 9) ∧
      (∀ i, i < _IntegerCount → ∀ d, s._integer_digit i = some d → d ≤ 9) := by
  unfold digits_valid digits
  constructor
  · intro h
    constructor
    · intro i hi d hd
      apply h
      simp only [List.mem_append, List.mem_map, List.mem_range]
      exact Or.inl ⟨i, hi, by simp [hd]⟩
    · intro i hi d hd
      apply h
      simp only [List.mem_append, List.mem_map, List.mem_range]
      exact Or.inr ⟨i, hi, by simp [hd]⟩
  · rintro ⟨h1, h2⟩ d hd
    simp only [List.mem_append, List.mem_map, List.mem_range] at hd
    rcases hd with ⟨i, hi, rfl⟩ | ⟨i, hi, rfl⟩
    · cases hg : s._decimal_digit i with
      | none => simp
      | some x => simpa using h1 i hi x hg
    · cases hg : s._integer_digit i with
      | none => simp
      | some x => simpa using h2 i hi x hg

theorem integer_digit_congr (s t : FixedDecimal _IntegerCount _DecimalCount _group_size)
    (h : t._integer = s._integer) (i : Nat) : t._integer_digit i = s._integer_digit i := by
  simp [_integer_digit, _integer_group, h]

theorem decimal_digit_congr (s t : FixedDecimal _IntegerCount _DecimalCount _group_size)
    (h : t._decimal = s._decimal) (i : Nat) : t._decimal_digit i = s._decimal_digit i := by
  simp [_decimal_digit, _decimal_group, h]

theorem wf_eight (s : FixedDecimal _IntegerCount _DecimalCount 8) :
    s.wf ↔ _IntegerCount < 256 ∧ _DecimalCount < 256 ∧
      (s._integer.length = _IntegerCount ∧ ∀ g ∈ s._integer, g < 256) ∧
      (s._decimal.length = _DecimalCount ∧ ∀ g ∈ s._decimal, g < 256) := by
  unfold wf
  constructor
  · rintro ⟨h1, h2, h3, h4, h5, h6⟩
    rw [integer_groups_eight h1] at h3
    rw [decimal_groups_eight h2] at h4
    exact ⟨h1, h2, ⟨h3, h5⟩, ⟨h4, h6⟩⟩
  · rintro ⟨h1, h2, ⟨h3, h5⟩, ⟨h4, h6⟩⟩
    rw [integer_groups_eight h1, decimal_groups_eight h2]
    exact ⟨h1, h2, h3, h4, h5, h6⟩

/-- What `_digit_subtract` leaves in `*this` and in `_borrowbit`. -/
theorem digit_subtract_locals_spec (a b : FixedDecimal _IntegerCount _DecimalCount 8)
    (ha : a.wf) (hb : b.wf) (hav : a.digits_valid) (hbv : b.digits_valid) :
    ∃ r c, a._digit_subtract_locals b = some (r, c) ∧ r.wf ∧ r.digits_valid ∧
      r.value + b.value = a.value + c.toNat * 10 ^ (_IntegerCount + _DecimalCount) ∧
      r.value < 10 ^ (_IntegerCount + _DecimalCount) := by
  rw [wf_eight] at ha hb
  obtain ⟨hI, hD, haI, haD⟩ := ha
  obtain ⟨_, _, hbI, hbD⟩ := hb
  rw [digits_valid_iff] at hav hbv
  -- the loop over the fractional digits
  obtain ⟨r1, c1, hrun1, hok1, hrest1, _, hlow1, hsum1⟩ :=
    sub_loop_spec decimal_cells b._decimal_digit
      (fun i hi => by
        obtain ⟨y, hy, _⟩ := decimal_cells.read b i hbD hi
        exact ⟨y, hy, hbv.1 i hi y hy⟩)
      a false haD hav.1 _DecimalCount (le_refl _)
  -- the loop over the integer digits
  have hok1I : r1._integer.length = _IntegerCount ∧ ∀ g ∈ r1._integer, g < 256 := by
    have e : r1._integer = a._integer := hrest1
    rw [e]; exact haI
  obtain ⟨r2, c2, hrun2, hok2, hrest2, _, hlow2, hsum2⟩ :=
    sub_loop_spec integer_cells b._integer_digit
      (fun i hi => by
        obtain ⟨y, hy, _⟩ := integer_cells.read b i hbI hi
        exact ⟨y, hy, hbv.2 i hi y hy⟩)
      r1 c1 hok1I
      (fun i hi d hd => hav.2 i hi d (by rw [← integer_digit_congr a r1 hrest1 i]; exact hd))
      _IntegerCount (le_refl _)
  have hrest2' : r2._decimal = r1._decimal := hrest2
  have hok2D : r2._decimal.length = _DecimalCount ∧ ∀ g ∈ r2._decimal, g < 256 := by
    rw [hrest2']; exact hok1
  have hvalid2 : r2.digits_valid := by
    rw [digits_valid_iff]
    exact ⟨fun i hi d hd => hlow1 i hi d (by rw [← decimal_digit_congr r1 r2 hrest2' i]; exact hd),
      hlow2⟩
  have e1 : digit_sum _decimal_digit _DecimalCount r2 = digit_sum _decimal_digit _DecimalCount r1 :=
    digit_sum_congr _ _ _ _ _ (fun j _ => decimal_digit_congr r1 r2 hrest2' j)
  have e2 : digit_sum _integer_digit _IntegerCount r1 = digit_sum _integer_digit _IntegerCount a :=
    digit_sum_congr _ _ _ _ _ (fun j _ => integer_digit_congr a r1 hrest1 j)
  have e3 : digit_sum (fun _ : Unit => b._decimal_digit) _DecimalCount ()
      = digit_sum _decimal_digit _DecimalCount b := rfl
  have e4 : digit_sum (fun _ : Unit => b._integer_digit) _IntegerCount ()
      = digit_sum _integer_digit _IntegerCount b := rfl
  rw [e3] at hsum1
  rw [e4, e2] at hsum2
  simp only [Bool.toNat_false, Nat.add_zero] at hsum1
  refine ⟨r2, c2, ?_, ?_, hvalid2, ?_, ?_⟩
  · unfold _digit_subtract_locals
    have b1 : _digit_subtract_decimal_body b = sub_body _decimal_digit _decimal_digit_set
        b._decimal_digit := rfl
    have b2 : _digit_subtract_integer_body b = sub_body _integer_digit _integer_digit_set
        b._integer_digit := rfl
    rw [b1, b2, hrun1, Option.some_bind, hrun2]
  · rw [wf_eight]; exact ⟨hI, hD, hok2, hok2D⟩
  · rw [value_eq_digit_sum, value_eq_digit_sum, value_eq_digit_sum, e1, pow_add]
    have := congrArg (fun z => 10 ^ _DecimalCount * z) hsum2
    simp only [Nat.mul_add] at this
    linarith [this, hsum1]
  · rw [value_eq_digit_sum, e1]
    have h1 := digit_sum_lt _decimal_digit r1 _DecimalCount hlow1
    have h2 := digit_sum_lt _integer_digit r2 _IntegerCount hlow2
    rw [Nat.add_comm _IntegerCount, pow_add]
    have h3 : 10 ^ _DecimalCount * (digit_sum _integer_digit _IntegerCount r2 + 1)
        ≤ 10 ^ _DecimalCount * 10 ^ _IntegerCount := Nat.mul_le_mul_left _ h2
    rw [Nat.mul_add] at h3
    omega

end FixedDecimal

theorem FixedDecimal.msd_loop_self (g : Nat → Option Nat) :
    ∀ fuel i r, msd_loop g g fuel i ≠ Outcome.returned r := by
  intro fuel
  induction fuel with
  | zero => intro i r h; simp [msd_loop] at h
  | succ fuel ih =>
    intro i r h
    unfold msd_loop at h
    rw [if_pos (Int.ofNat_nonneg i)] at h
    cases hg : g i with
    | none => simp [hg] at h
    | some x =>
      simp only [hg, lt_self_iff_false, if_false, gt_iff_lt] at h
      exact ih _ r h

theorem eq_loop_spec (l1 l2 : List Nat) :
    ∀ n, n ≤ l1.length → n ≤ l2.length → ∀ r0 : Option Bool,
      count_loop (FixedDecimal.operator_eq_body (fun i => l1[i]?) (fun i => l2[i]?)) n r0
        = some (match r0 with
          | some r => some r
          | none => if l1.take n = l2.take n then none else some false) := by
  intro n
  induction n with
  | zero =>
    intro _ _ r0
    cases r0 <;> simp [count_loop]
  | succ n ih =>
    intro h1 h2 r0
    have hn1 : n < l1.length := h1
    have hn2 : n < l2.length := h2
    rw [count_loop, ih (Nat.le_of_succ_le h1) (Nat.le_of_succ_le h2) r0]
    cases r0 with
    | some r => simp [FixedDecimal.operator_eq_body]
    | none =>
      simp only [Option.some_bind]
      have t1 : l1.take (n + 1) = l1.take n ++ [l1[n]] := by
        rw [List.take_succ, List.getElem?_eq_getElem hn1]; rfl
      have t2 : l2.take (n + 1) = l2.take n ++ [l2[n]] := by
        rw [List.take_succ, List.getElem?_eq_getElem hn2]; rfl
      by_cases hp : l1.take n = l2.take n
      · rw [if_pos hp]
        simp only [FixedDecimal.operator_eq_body, List.getElem?_eq_getElem hn1,
          List.getElem?_eq_getElem hn2, Option.pure_def, Option.bind_eq_bind, Option.some_bind]
        rw [t1, t2, hp]
        by_cases hxy : l1[n] = l2[n]
        · rw [hxy]; simp
        · have hne : ¬ (l2.take n ++ [l1[n]] = l2.take n ++ [l2[n]]) := fun e =>
            hxy (by simpa using List.append_cancel_left e)
          rw [if_neg hne, if_pos hxy]
      · rw [if_neg hp]
        have hne : ¬ l1.take (n + 1) = l2.take (n + 1) := by
          intro e
          apply hp
          have := congrArg (List.take n) e
          simpa [List.take_take] using this
        simp [FixedDecimal.operator_eq_body, hne]

namespace FixedDecimal
variable {_IntegerCount _DecimalCount _group_size : Nat}

theorem operator_eq_groups (a b : FixedDecimal _IntegerCount _DecimalCount _group_size)
    (ha : a.wf) (hb : b.wf) : a.operator_eq b = some (decide (a = b)) := by
  obtain ⟨_, _, haI, haD, _, _⟩ := ha
  obtain ⟨_, _, hbI, hbD, _, _⟩ := hb
  unfold operator_eq
  have e1 := eq_loop_spec a._decimal b._decimal (_decimal_groups _DecimalCount _group_size)
    (by rw [haD]) (by rw [hbD]) none
  have e2 := fun r0 => eq_loop_spec a._integer b._integer
    (_integer_groups _IntegerCount _group_size) (by rw [haI]) (by rw [hbI]) r0
  have d1 : a._decimal_group = fun i => a._decimal[i]? := rfl
  have d2 : b._decimal_group = fun i => b._decimal[i]? := rfl
  have d3 : a._integer_group = fun i => a._integer[i]? := rfl
  have d4 : b._integer_group = fun i => b._integer[i]? := rfl
  rw [d1, d2, d3, d4]
  simp only [Option.pure_def, Option.bind_eq_bind]
  rw [e1, Option.some_bind, e2, Option.some_bind]
  rw [← haD, List.take_length, haD, ← hbD, List.take_length]
  rw [← haI, List.take_length, haI, ← hbI, List.take_length]
  cases a with
  | mk ai ad =>
    cases b with
    | mk bi bd =>
      simp only [mk.injEq]
      by_cases hd : ad = bd <;> by_cases hi : ai = bi <;> simp [hd, hi]

theorem map_range_getElem (l : List Nat) (f : Nat → Nat) (n : Nat) (h : l.length = n) :
    (List.range n).map (fun i => ((l[i]?).map f).getD 0) = l.map f := by
  apply List.ext_getElem
  · simp [h]
  · intro i h1 h2
    have hi : i < l.length := by simpa using h2
    simp [List.getElem?_eq_getElem hi]

theorem digits_eight (s : FixedDecimal _IntegerCount _DecimalCount 8) (hs : s.wf) :
    s.digits = s._decimal.map (fun g => g &&& 15) ++ s._integer.map (fun g => g &&& 15) := by
  rw [wf_eight] at hs
  unfold digits
  have e1 : (fun i => (s._decimal_digit i).getD 0)
      = fun i => ((s._decimal[i]?).map (fun g => g &&& 15)).getD 0 := by
    funext i; rw [decimal_digit_eight]
  have e2 : (fun i => (s._integer_digit i).getD 0)
      = fun i => ((s._integer[i]?).map (fun g => g &&& 15)).getD 0 := by
    funext i; rw [integer_digit_eight]
  rw [e1, e2, map_range_getElem _ _ _ hs.2.2.2.1, map_range_getElem _ _ _ hs.2.2.1.1]

theorem map_nibble_id (l : List Nat) (h : ∀ g ∈ l, g < 16) :
    l.map (fun g => g &&& 15) = l := by
  have key : ∀ g < 16, g &&& 15 = g := by decide
  induction l with
  | nil => rfl
  | cons x xs ih =>
    rw [List.map_cons, key x (h x (List.mem_cons_self x xs)),
      ih (fun g hg => h g (List.mem_cons_of_mem x hg))]

end FixedDecimal

namespace FixedDecimal
variable {_IntegerCount _DecimalCount _group_size : Nat}

theorem integer_digit_set_decimal (s t : FixedDecimal _IntegerCount _DecimalCount _group_size)
    (i v : Nat) (h : s._integer_digit_set i v = some t) : t._decimal = s._decimal := by
  unfold _integer_digit_set _integer_group_set at h
  simp only [Option.bind_eq_bind, Option.bind_eq_some, List.length_set] at h
  obtain ⟨g, _, u, hu, ht⟩ := h
  split at hu
  · split at ht
    · cases hu; cases ht; rfl
    · cases ht
  · cases hu

theorem digit_add_integer_loop_decimal (b : FixedDecimal _IntegerCount _DecimalCount _group_size) :
    ∀ n st st', count_loop (_digit_add_integer_body b) n st = some st' →
      st'.1._decimal = st.1._decimal := by
  intro n
  induction n with
  | zero =>
    intro st st' h
    simp only [count_loop, Option.some.injEq] at h
    rw [h]
  | succ n ih =>
    intro st st' h
    simp only [count_loop, Option.bind_eq_some] at h
    obtain ⟨t, ht, hbody⟩ := h
    rw [← ih st t ht]
    simp only [_digit_add_integer_body, Option.pure_def, Option.bind_eq_bind,
      Option.bind_eq_some, Option.some.injEq] at hbody
    obtain ⟨x, _, y, _, u, hu, hst⟩ := hbody
    rw [← hst]
    exact integer_digit_set_decimal _ _ _ _ hu

theorem decimal_value_eq_digit_sum (s : FixedDecimal _IntegerCount _DecimalCount _group_size) :
    s.decimal_value = digit_sum _decimal_digit _DecimalCount s := by
  unfold decimal_value digit_sum
  rw [ofDigits_map_range]

end FixedDecimal

/-! ## The claims -/

namespace FixedDecimal
variable {_IntegerCount _DecimalCount _group_size : Nat}

/-- C1 (the code evaluated).  With two integer and two fractional
digits, `12.00 += 01.00` leaves `12.00`, not `13.00`: the second loop of
`_digit_add` adds the fractional digits of the right operand to the integer
digits of the left one.  With three integer and two fractional digits,
`123.45 += 001.05` reads `_other._decimal_digit(2)`, outside the array. -/
theorem digit_add_integer_loop_reads_fraction :
    (FixedDecimal.mk [2, 1] [0, 0] : FixedDecimal 2 2 8).wf ∧
    (FixedDecimal.mk [1, 0] [0, 0] : FixedDecimal 2 2 8).wf ∧
    (FixedDecimal.mk [2, 1] [0, 0] : FixedDecimal 2 2 8).digits_valid ∧
    (FixedDecimal.mk [1, 0] [0, 0] : FixedDecimal 2 2 8).digits_valid ∧
    (FixedDecimal.mk [2, 1] [0, 0] : FixedDecimal 2 2 8).operator_add_assign
        (FixedDecimal.mk [1, 0] [0, 0]) = some (FixedDecimal.mk [2, 1] [0, 0]) ∧
    (FixedDecimal.mk [2, 1] [0, 0] : FixedDecimal 2 2 8).value = 1200 ∧
    ((FixedDecimal.mk [2, 1] [0, 0] : FixedDecimal 2 2 8).value
      + (FixedDecimal.mk [1, 0] [0, 0] : FixedDecimal 2 2 8).value) % 10 ^ (2 + 2) = 1300 ∧
    (FixedDecimal.mk [3, 2, 1] [5, 4] : FixedDecimal 3 2 8).operator_add_assign
        (FixedDecimal.mk [1, 0, 0] [5, 0]) = none := by
  decide

/-- C2.  For operands of the same format over an eight-bit storage word whose
digits are all in `[0, 9]`, `a -= b` returns, and the value of the result is
`(value a - value b) mod 10 ^ (_IntegerCount + _DecimalCount)`; when
`value b ≤ value a` it is exactly `value a - value b`. -/
theorem operator_sub_assign_value (a b : FixedDecimal _IntegerCount _DecimalCount 8)
    (ha : a.wf) (hb : b.wf) (hav : a.digits_valid) (hbv : b.digits_valid) :
    ∃ r, a.operator_sub_assign b = some r ∧
      (r.value : Int) = ((a.value : Int) - (b.value : Int))
        % (10 : Int) ^ (_IntegerCount + _DecimalCount) ∧
      (b.value ≤ a.value → r.value = a.value - b.value) := by
  obtain ⟨r, c, hrun, _, _, hsum, hlt⟩ := digit_subtract_locals_spec a b ha hb hav hbv
  have hblt : b.value < 10 ^ (_IntegerCount + _DecimalCount) := by
    unfold value
    have h := @Nat.ofDigits_lt_base_pow_length 10 b.digits (by norm_num)
      (fun x hx => Nat.lt_succ_of_le (hbv x hx))
    simpa [digits, Nat.add_comm] using h
  refine ⟨r, ?_, ?_, ?_⟩
  · simp [operator_sub_assign, _digit_subtract, hrun]
  · have hr0 : (0 : Int) ≤ (r.value : Int) := Int.ofNat_nonneg _
    have hr1 : (r.value : Int) < (10 : Int) ^ (_IntegerCount + _DecimalCount) := by
      exact_mod_cast hlt
    have hsumZ : (r.value : Int) + (b.value : Int)
        = (a.value : Int) + (c.toNat : Int) * (10 : Int) ^ (_IntegerCount + _DecimalCount) := by
      exact_mod_cast hsum
    have e : (a.value : Int) - (b.value : Int)
        = (r.value : Int) + (-(c.toNat : Int)) * (10 : Int) ^ (_IntegerCount + _DecimalCount) := by
      linarith
    rw [e, Int.add_mul_emod_self, Int.emod_eq_of_lt hr0 hr1]
  · intro hle
    cases c with
    | false => simp at hsum; omega
    | true => simp at hsum; omega

/-- C2 (witness): `123.45 - 001.05` with three integer and two fractional
digits. -/
theorem operator_sub_assign_value_witness :
    (FixedDecimal.mk [3, 2, 1] [5, 4] : FixedDecimal 3 2 8).wf ∧
    (FixedDecimal.mk [1, 0, 0] [5, 0] : FixedDecimal 3 2 8).wf ∧
    (FixedDecimal.mk [3, 2, 1] [5, 4] : FixedDecimal 3 2 8).digits_valid ∧
    (FixedDecimal.mk [1, 0, 0] [5, 0] : FixedDecimal 3 2 8).digits_valid ∧
    ∃ r, (FixedDecimal.mk [3, 2, 1] [5, 4] : FixedDecimal 3 2 8).operator_sub_assign
        (FixedDecimal.mk [1, 0, 0] [5, 0]) = some r ∧
      (r.value : Int) = (((FixedDecimal.mk [3, 2, 1] [5, 4] : FixedDecimal 3 2 8).value : Int)
        - ((FixedDecimal.mk [1, 0, 0] [5, 0] : FixedDecimal 3 2 8).value : Int))
          % (10 : Int) ^ (3 + 2) ∧
      ((FixedDecimal.mk [1, 0, 0] [5, 0] : FixedDecimal 3 2 8).value
          ≤ (FixedDecimal.mk [3, 2, 1] [5, 4] : FixedDecimal 3 2 8).value →
        r.value = (FixedDecimal.mk [3, 2, 1] [5, 4] : FixedDecimal 3 2 8).value
          - (FixedDecimal.mk [1, 0, 0] [5, 0] : FixedDecimal 3 2 8).value) :=
  ⟨by decide, by decide, by decide, by decide,
    operator_sub_assign_value _ _ (by decide) (by decide) (by decide) (by decide)⟩

/-- C3 (the code evaluated).  With two integer and two fractional
digits, `12.00 *= 03.00` leaves `12.00`, not `36.00`: `_digit_multiply` writes
its digits to a local and never to `*this`.  With three integer and two
fractional digits, `012.00 *= 003.00` has no defined result: the `_digit_add`
it calls reads outside the array `_decimal`. -/
theorem digit_multiply_leaves_receiver :
    (FixedDecimal.mk [2, 1] [0, 0] : FixedDecimal 2 2 8).wf ∧
    (FixedDecimal.mk [3, 0] [0, 0] : FixedDecimal 2 2 8).wf ∧
    (FixedDecimal.mk [2, 1] [0, 0] : FixedDecimal 2 2 8).digits_valid ∧
    (FixedDecimal.mk [3, 0] [0, 0] : FixedDecimal 2 2 8).digits_valid ∧
    (FixedDecimal.mk [2, 1] [0, 0] : FixedDecimal 2 2 8).operator_mul_assign
        (FixedDecimal.mk [3, 0] [0, 0]) = some (FixedDecimal.mk [2, 1] [0, 0]) ∧
    (FixedDecimal.mk [2, 1] [0, 0] : FixedDecimal 2 2 8).value = 1200 ∧
    (FixedDecimal.mk [3, 0] [0, 0] : FixedDecimal 2 2 8).value = 300 ∧
    (FixedDecimal.mk [6, 3] [0, 0] : FixedDecimal 2 2 8).value = 3600 ∧
    (FixedDecimal.mk [2, 1, 0] [0, 0] : FixedDecimal 3 2 8).operator_mul_assign
        (FixedDecimal.mk [3, 0, 0] [0, 0]) = none := by
  decide

/-- C4 (the code evaluated).  With three integer and two
fractional digits, `001.00 < 001.50` and `001.00 <= 001.50` never return: the
integer digits are equal, so the first loop steps its unsigned index from `0`
to `255` and reads `_integer_digit(255)`, outside the array; the fractional
digits are never consulted. -/
theorem operator_lt_equal_integer_part :
    (FixedDecimal.mk [1, 0, 0] [0, 0] : FixedDecimal 3 2 8).wf ∧
    (FixedDecimal.mk [1, 0, 0] [0, 5] : FixedDecimal 3 2 8).wf ∧
    (FixedDecimal.mk [1, 0, 0] [0, 0] : FixedDecimal 3 2 8).value
      < (FixedDecimal.mk [1, 0, 0] [0, 5] : FixedDecimal 3 2 8).value ∧
    (FixedDecimal.mk [1, 0, 0] [0, 0] : FixedDecimal 3 2 8).operator_lt
      (FixedDecimal.mk [1, 0, 0] [0, 5]) 4 = Outcome.outOfBounds ∧
    (FixedDecimal.mk [1, 0, 0] [0, 0] : FixedDecimal 3 2 8).operator_le
      (FixedDecimal.mk [1, 0, 0] [0, 5]) 4 = Outcome.outOfBounds ∧
    (∀ fuel r, (FixedDecimal.mk [1, 0, 0] [0, 0] : FixedDecimal 3 2 8).operator_lt
      (FixedDecimal.mk [1, 0, 0] [0, 5]) fuel ≠ Outcome.returned r) ∧
    (∀ fuel r, (FixedDecimal.mk [1, 0, 0] [0, 0] : FixedDecimal 3 2 8).operator_le
      (FixedDecimal.mk [1, 0, 0] [0, 5]) fuel ≠ Outcome.returned r) := by
  refine ⟨by decide, by decide, by decide, by decide, by decide, ?_, ?_⟩
  · have key : ∀ fuel, (FixedDecimal.mk [1, 0, 0] [0, 0] : FixedDecimal 3 2 8).operator_lt
          (FixedDecimal.mk [1, 0, 0] [0, 5]) fuel = Outcome.outOfFuel ∨
        (FixedDecimal.mk [1, 0, 0] [0, 0] : FixedDecimal 3 2 8).operator_lt
          (FixedDecimal.mk [1, 0, 0] [0, 5]) fuel = Outcome.outOfBounds := fun fuel =>
      match fuel with
      | 0 => Or.inl rfl
      | 1 => Or.inl rfl
      | 2 => Or.inl rfl
      | 3 => Or.inl rfl
      | _ + 4 => Or.inr rfl
    intro fuel r
    rcases key fuel with h | h <;> rw [h] <;> exact fun e => Outcome.noConfusion e
  · have key : ∀ fuel, (FixedDecimal.mk [1, 0, 0] [0, 0] : FixedDecimal 3 2 8).operator_le
          (FixedDecimal.mk [1, 0, 0] [0, 5]) fuel = Outcome.outOfFuel ∨
        (FixedDecimal.mk [1, 0, 0] [0, 0] : FixedDecimal 3 2 8).operator_le
          (FixedDecimal.mk [1, 0, 0] [0, 5]) fuel = Outcome.outOfBounds := fun fuel =>
      match fuel with
      | 0 => Or.inl rfl
      | 1 => Or.inl rfl
      | 2 => Or.inl rfl
      | 3 => Or.inl rfl
      | _ + 4 => Or.inr rfl
    intro fuel r
    rcases key fuel with h | h <;> rw [h] <;> exact fun e => Outcome.noConfusion e

/-- C5 (the code evaluated).  `a < a` and `a <= a` never return,
whatever `a` is: no pair of digits differs, and the loop condition `i >= 0` on
the unsigned index never fails.  On `000.00` (three integer and two fractional
digits) the fourth iteration reads `_integer_digit(255)`, outside the array,
`255` being the index that follows `0`. -/
theorem operator_lt_self_never_returns :
    (∀ (ic dc gs : Nat) (a : FixedDecimal ic dc gs) (fuel : Nat) (r : Bool),
      a.operator_lt a fuel ≠ Outcome.returned r ∧ a.operator_le a fuel ≠ Outcome.returned r) ∧
    (FixedDecimal.mk [0, 0, 0] [0, 0] : FixedDecimal 3 2 8).wf ∧
    count_type ((0 : Int) - 1) = 255 ∧
    (FixedDecimal.mk [0, 0, 0] [0, 0] : FixedDecimal 3 2 8)._integer_digit 255 = none ∧
    (FixedDecimal.mk [0, 0, 0] [0, 0] : FixedDecimal 3 2 8).operator_lt
      (FixedDecimal.mk [0, 0, 0] [0, 0]) 4 = Outcome.outOfBounds ∧
    (FixedDecimal.mk [0, 0, 0] [0, 0] : FixedDecimal 3 2 8).operator_le
      (FixedDecimal.mk [0, 0, 0] [0, 0]) 4 = Outcome.outOfBounds := by
  refine ⟨?_, by decide, by decide, by decide, by decide, by decide⟩
  intro ic dc gs a fuel r
  have h1 := msd_loop_self a._integer_digit fuel (count_type ((ic : Int) - 1))
  constructor
  · intro h
    unfold operator_lt msd_compare at h
    split at h
    · next r' heq => exact h1 (some r') heq
    · next heq => exact h1 none heq
    · cases h
    · cases h
  · intro h
    unfold operator_le msd_compare at h
    split at h
    · next r' heq => exact h1 (some r') heq
    · next heq => exact h1 none heq
    · cases h
    · cases h

/-- C6 (counterexample).  With one integer and one fractional digit over an
eight-bit storage word, the objects built from the groups `0x15 | 0x00` and
`0x05 | 0x00` have the same digits, `5` and `0`, and `==` returns false. -/
theorem operator_eq_digits_counterexample :
    (group_ctor [0x15] [0] : Option (FixedDecimal 1 1 8)) = some (FixedDecimal.mk [0x15] [0]) ∧
    (group_ctor [0x05] [0] : Option (FixedDecimal 1 1 8)) = some (FixedDecimal.mk [0x05] [0]) ∧
    (FixedDecimal.mk [0x15] [0] : FixedDecimal 1 1 8).wf ∧
    (FixedDecimal.mk [0x05] [0] : FixedDecimal 1 1 8).wf ∧
    (FixedDecimal.mk [0x15] [0] : FixedDecimal 1 1 8).digits
      = (FixedDecimal.mk [0x05] [0] : FixedDecimal 1 1 8).digits ∧
    (FixedDecimal.mk [0x15] [0] : FixedDecimal 1 1 8).operator_eq (FixedDecimal.mk [0x05] [0])
      = some false ∧
    (FixedDecimal.mk [0x15] [0] : FixedDecimal 1 1 8).operator_ne (FixedDecimal.mk [0x05] [0])
      = some true := by
  decide

/-- C6 (amended).  `a == b` returns true exactly when every group of `a` equals
the group of `b` at the same place, and `a != b` returns the negation.  Equal
groups give equal digits; over an eight-bit storage word whose groups are all
below `16`, equal digits give equal groups. -/
theorem operator_eq_iff_groups (a b : FixedDecimal _IntegerCount _DecimalCount _group_size)
    (ha : a.wf) (hb : b.wf) :
    a.operator_eq b = some (decide (a._integer = b._integer ∧ a._decimal = b._decimal)) ∧
    a.operator_ne b = some (!decide (a._integer = b._integer ∧ a._decimal = b._decimal)) ∧
    (a._integer = b._integer ∧ a._decimal = b._decimal → a.digits = b.digits) ∧
    (_group_size = 8 → (∀ g ∈ a._integer ++ a._decimal ++ b._integer ++ b._decimal, g < 16) →
      a.digits = b.digits → a._integer = b._integer ∧ a._decimal = b._decimal) := by
  have heq : a.operator_eq b
      = some (decide (a._integer = b._integer ∧ a._decimal = b._decimal)) := by
    rw [operator_eq_groups a b ha hb]
    congr 1
    cases a; cases b
    simp
  refine ⟨heq, ?_, ?_, ?_⟩
  · simp [operator_ne, heq]
  · rintro ⟨h1, h2⟩
    simp [digits, _decimal_digit, _integer_digit, _decimal_group, _integer_group, h1, h2]
  · intro h8 hsmall hdig
    subst h8
    rw [digits_eight a ha, digits_eight b hb] at hdig
    have hs : ∀ l, l ⊆ a._integer ++ a._decimal ++ b._integer ++ b._decimal →
        l.map (fun g => g &&& 15) = l := fun l hl =>
      map_nibble_id l (fun g hg => hsmall g (hl hg))
    rw [hs a._decimal (by intro g hg; simp [hg]), hs a._integer (by intro g hg; simp [hg]),
      hs b._decimal (by intro g hg; simp [hg]), hs b._integer (by intro g hg; simp [hg])] at hdig
    have hlen : a._decimal.length = b._decimal.length := by
      rw [ha.2.2.2.1, hb.2.2.2.1]
    obtain ⟨h1, h2⟩ := List.append_inj hdig hlen
    exact ⟨h2, h1⟩

/-- C6 (witness): `007.50` against itself, three integer and two fractional
digits. -/
theorem operator_eq_iff_groups_witness :
    (FixedDecimal.mk [7, 0, 0] [0, 5] : FixedDecimal 3 2 8).wf ∧
    (FixedDecimal.mk [7, 0, 0] [0, 5] : FixedDecimal 3 2 8).operator_eq
      (FixedDecimal.mk [7, 0, 0] [0, 5]) = some true :=
  ⟨by decide, (operator_eq_iff_groups (FixedDecimal.mk [7, 0, 0] [0, 5] : FixedDecimal 3 2 8)
    (FixedDecimal.mk [7, 0, 0] [0, 5]) (by decide) (by decide)).1⟩

/-- C7 (the code evaluated).  With two integer and two fractional
digits, `99.99 += 00.01` ends with `_carrybit` set and `01.00 += 00.00` ends
with it clear; both calls hand the same object `01.00` to their caller and
nothing else, so the surviving carry is not reported. -/
theorem operator_add_assign_drops_carry :
    (FixedDecimal.mk [9, 9] [9, 9] : FixedDecimal 2 2 8).wf ∧
    (FixedDecimal.mk [0, 0] [1, 0] : FixedDecimal 2 2 8).wf ∧
    (FixedDecimal.mk [9, 9] [9, 9] : FixedDecimal 2 2 8).digits_valid ∧
    (FixedDecimal.mk [0, 0] [1, 0] : FixedDecimal 2 2 8).digits_valid ∧
    (FixedDecimal.mk [9, 9] [9, 9] : FixedDecimal 2 2 8)._digit_add_locals
      (FixedDecimal.mk [0, 0] [1, 0]) = some (FixedDecimal.mk [1, 0] [0, 0], true) ∧
    (FixedDecimal.mk [1, 0] [0, 0] : FixedDecimal 2 2 8)._digit_add_locals
      (FixedDecimal.mk [0, 0] [0, 0]) = some (FixedDecimal.mk [1, 0] [0, 0], false) ∧
    (FixedDecimal.mk [9, 9] [9, 9] : FixedDecimal 2 2 8).operator_add_assign
      (FixedDecimal.mk [0, 0] [1, 0]) = some (FixedDecimal.mk [1, 0] [0, 0]) ∧
    (FixedDecimal.mk [1, 0] [0, 0] : FixedDecimal 2 2 8).operator_add_assign
      (FixedDecimal.mk [0, 0] [0, 0]) = some (FixedDecimal.mk [1, 0] [0, 0]) := by
  decide

/-- C8 (counterexample).  With two integer and two fractional digits,
`99.99 += 00.01` ends with `_carrybit` set, and the object it leaves, `01.00`,
differs from `99.99` in every digit. -/
theorem digit_add_overflow_mutates_counterexample :
    (FixedDecimal.mk [9, 9] [9, 9] : FixedDecimal 2 2 8).wf ∧
    (FixedDecimal.mk [0, 0] [1, 0] : FixedDecimal 2 2 8).wf ∧
    (FixedDecimal.mk [9, 9] [9, 9] : FixedDecimal 2 2 8)._digit_add_locals
      (FixedDecimal.mk [0, 0] [1, 0]) = some (FixedDecimal.mk [1, 0] [0, 0], true) ∧
    (FixedDecimal.mk [9, 9] [9, 9] : FixedDecimal 2 2 8).operator_add_assign
      (FixedDecimal.mk [0, 0] [1, 0]) = some (FixedDecimal.mk [1, 0] [0, 0]) ∧
    (FixedDecimal.mk [1, 0] [0, 0] : FixedDecimal 2 2 8).digits = [0, 0, 1, 0] ∧
    (FixedDecimal.mk [9, 9] [9, 9] : FixedDecimal 2 2 8).digits = [9, 9, 9, 9] := by
  decide

/-- C8 (amended).  `a += b` does not restore `a`, whether or not a carry
survives: when the call ends, the fractional digits of `a` are those of
`(fraction a + fraction b) mod 10 ^ _DecimalCount`.  The call ends whenever
`_IntegerCount ≤ _DecimalCount`. -/
theorem digit_add_overwrites_fraction (a b : FixedDecimal _IntegerCount _DecimalCount 8)
    (ha : a.wf) (hb : b.wf) (hav : a.digits_valid) (hbv : b.digits_valid) :
    (_IntegerCount ≤ _DecimalCount → ∃ r c, a._digit_add_locals b = some (r, c)) ∧
    ∀ r c, a._digit_add_locals b = some (r, c) →
      a.operator_add_assign b = some r ∧
      r.decimal_value = (a.decimal_value + b.decimal_value) % 10 ^ _DecimalCount := by
  rw [wf_eight] at ha hb
  obtain ⟨hI, hD, haI, haD⟩ := ha
  obtain ⟨_, _, hbI, hbD⟩ := hb
  rw [digits_valid_iff] at hav hbv
  have hbdec : ∀ i, i < _DecimalCount → ∃ y, b._decimal_digit i = some y ∧ y ≤ 9 := by
    intro i hi
    obtain ⟨y, hy, _⟩ := decimal_cells.read b i hbD hi
    exact ⟨y, hy, hbv.1 i hi y hy⟩
  obtain ⟨r1, c1, hrun1, hok1, hrest1, _, hlow1, hsum1⟩ :=
    add_loop_spec decimal_cells b._decimal_digit hbdec a false haD hav.1 _DecimalCount (le_refl _)
  have b1 : _digit_add_decimal_body b
      = add_body _decimal_digit _decimal_digit_set b._decimal_digit := rfl
  have b2 : _digit_add_integer_body b
      = add_body _integer_digit _integer_digit_set b._decimal_digit := rfl
  have hlocals : a._digit_add_locals b
      = count_loop (_digit_add_integer_body b) _IntegerCount (r1, c1) := by
    unfold _digit_add_locals
    rw [b1, hrun1, Option.some_bind]
  constructor
  · intro hle
    have hok1I : r1._integer.length = _IntegerCount ∧ ∀ g ∈ r1._integer, g < 256 := by
      have e : r1._integer = a._integer := hrest1
      rw [e]; exact haI
    obtain ⟨r2, c2, hrun2, _⟩ :=
      add_loop_spec integer_cells b._decimal_digit
        (fun i hi => hbdec i (lt_of_lt_of_le hi hle)) r1 c1 hok1I
        (fun i hi d hd => hav.2 i hi d (by rw [← integer_digit_congr a r1 hrest1 i]; exact hd))
        _IntegerCount (le_refl _)
    exact ⟨r2, c2, by rw [hlocals, b2, hrun2]⟩
  · intro r c hrc
    refine ⟨by simp [operator_add_assign, _digit_add, hrc], ?_⟩
    rw [hlocals] at hrc
    have hdec : r._decimal = r1._decimal := digit_add_integer_loop_decimal b _ _ _ hrc
    rw [decimal_value_eq_digit_sum, decimal_value_eq_digit_sum, decimal_value_eq_digit_sum]
    have e1 : digit_sum _decimal_digit _DecimalCount r = digit_sum _decimal_digit _DecimalCount r1 :=
      digit_sum_congr _ _ _ _ _ (fun j _ => decimal_digit_congr r1 r hdec j)
    have e3 : digit_sum (fun _ : Unit => b._decimal_digit) _DecimalCount ()
        = digit_sum _decimal_digit _DecimalCount b := rfl
    rw [e3] at hsum1
    simp only [Bool.toNat_false, Nat.add_zero] at hsum1
    have hlt := digit_sum_lt _decimal_digit r1 _DecimalCount hlow1
    rw [e1, ← hsum1, Nat.add_mul_mod_self_right, Nat.mod_eq_of_lt hlt]

/-- C8 (witness): `99.99 += 00.01` with two integer and two fractional digits. -/
theorem digit_add_overwrites_fraction_witness :
    (FixedDecimal.mk [9, 9] [9, 9] : FixedDecimal 2 2 8).wf ∧
    (FixedDecimal.mk [0, 0] [1, 0] : FixedDecimal 2 2 8).wf ∧
    (FixedDecimal.mk [9, 9] [9, 9] : FixedDecimal 2 2 8).digits_valid ∧
    (FixedDecimal.mk [0, 0] [1, 0] : FixedDecimal 2 2 8).digits_valid ∧
    (FixedDecimal.mk [9, 9] [9, 9] : FixedDecimal 2 2 8)._digit_add_locals
      (FixedDecimal.mk [0, 0] [1, 0]) = some (FixedDecimal.mk [1, 0] [0, 0], true) ∧
    (FixedDecimal.mk [1, 0] [0, 0] : FixedDecimal 2 2 8).decimal_value
      = ((FixedDecimal.mk [9, 9] [9, 9] : FixedDecimal 2 2 8).decimal_value
        + (FixedDecimal.mk [0, 0] [1, 0] : FixedDecimal 2 2 8).decimal_value) % 10 ^ 2 :=
  ⟨by decide, by decide, by decide, by decide, by decide,
    ((digit_add_overwrites_fraction (FixedDecimal.mk [9, 9] [9, 9] : FixedDecimal 2 2 8)
      (FixedDecimal.mk [0, 0] [1, 0]) (by decide) (by decide) (by decide) (by decide)).2
        (FixedDecimal.mk [1, 0] [0, 0]) true (by decide)).2⟩

/-- C9 (the code evaluated).  With three integer and two
fractional digits, `005.00 -= 010.00` ends with `_borrowbit` set and
`995.00 -= 000.00` ends with it clear; both calls hand the same object `995.00`
to their caller and nothing else, so the surviving borrow is not reported. -/
theorem operator_sub_assign_drops_borrow :
    (FixedDecimal.mk [5, 0, 0] [0, 0] : FixedDecimal 3 2 8).wf ∧
    (FixedDecimal.mk [0, 1, 0] [0, 0] : FixedDecimal 3 2 8).wf ∧
    (FixedDecimal.mk [5, 0, 0] [0, 0] : FixedDecimal 3 2 8).digits_valid ∧
    (FixedDecimal.mk [0, 1, 0] [0, 0] : FixedDecimal 3 2 8).digits_valid ∧
    (FixedDecimal.mk [5, 0, 0] [0, 0] : FixedDecimal 3 2 8).value
      < (FixedDecimal.mk [0, 1, 0] [0, 0] : FixedDecimal 3 2 8).value ∧
    (FixedDecimal.mk [5, 0, 0] [0, 0] : FixedDecimal 3 2 8)._digit_subtract_locals
      (FixedDecimal.mk [0, 1, 0] [0, 0]) = some (FixedDecimal.mk [5, 9, 9] [0, 0], true) ∧
    (FixedDecimal.mk [5, 9, 9] [0, 0] : FixedDecimal 3 2 8)._digit_subtract_locals
      (FixedDecimal.mk [0, 0, 0] [0, 0]) = some (FixedDecimal.mk [5, 9, 9] [0, 0], false) ∧
    (FixedDecimal.mk [5, 0, 0] [0, 0] : FixedDecimal 3 2 8).operator_sub_assign
      (FixedDecimal.mk [0, 1, 0] [0, 0]) = some (FixedDecimal.mk [5, 9, 9] [0, 0]) ∧
    (FixedDecimal.mk [5, 9, 9] [0, 0] : FixedDecimal 3 2 8).operator_sub_assign
      (FixedDecimal.mk [0, 0, 0] [0, 0]) = some (FixedDecimal.mk [5, 9, 9] [0, 0]) := by
  decide

end FixedDecimal

/-! ## Lemmas on digit access, construction and resizing -/

theorem scount_type_of_range {n : Int} (h1 : -128 ≤ n) (h2 : n ≤ 127) : scount_type n = n := by
  unfold scount_type CHAR_BIT
  have e : (n + 2 ^ (8 - 1)) % 2 ^ 8 = n + 128 := by
    norm_num
    exact Int.emod_eq_of_lt (by omega) (by omega)
  rw [e]
  norm_num

theorem memset_zero_cells (cells : List Nat) :
    memset_zero 1 cells cells.length = List.replicate cells.length 0 := by
  induction cells with
  | nil => rfl
  | cons g gs ih =>
    simp only [memset_zero, List.length_cons, List.replicate_succ]
    rw [if_pos (by omega)]
    simp only [Nat.add_sub_cancel]
    rw [ih]

namespace FixedDecimal
variable {_IntegerCount _DecimalCount _group_size : Nat}

theorem digits_per_group_le (W : Nat) : _digits_per_group W ≤ 8 := by
  unfold _digits_per_group CHAR_BIT
  have h : 8 * 1 / W ≤ 8 := Nat.div_le_self _ _
  rw [count_type_of_lt (by omega)]
  exact h

theorem sizeof_of_digits_per_group {W : Nat} (h : 0 < _digits_per_group W) :
    sizeof_group_type W = 1 := by
  unfold _digits_per_group CHAR_BIT at h
  have h8 : 8 * 1 / W ≤ 8 := Nat.div_le_self _ _
  rw [count_type_of_lt (by omega)] at h
  have hW0 : 0 < W := by
    rcases Nat.eq_zero_or_pos W with h0 | h0
    · subst h0; simp at h
    · exact h0
  have hW8 : W ≤ 8 := by
    by_contra hc
    have : 8 * 1 / W = 0 := Nat.div_eq_of_lt (by omega)
    omega
  unfold sizeof_group_type CHAR_BIT
  have : (W + (8 - 1)) / 8 = 1 := by omega
  exact this

theorem groups_eq {n W : Nat} (hn : n < 256) (h : 0 < _digits_per_group W) :
    count_type (((n + (_digits_per_group W - 1)) / _digits_per_group W : Nat) : Int)
      = (n + (_digits_per_group W - 1)) / _digits_per_group W := by
  apply count_type_of_lt
  have h1 : (n + (_digits_per_group W - 1)) / _digits_per_group W < n + 1 := by
    rw [Nat.div_lt_iff_lt_mul h, Nat.add_mul, Nat.one_mul]
    have := Nat.le_mul_of_pos_right n h
    omega
  omega

theorem div_lt_groups {i n d : Nat} (hd : 0 < d) (hi : i < n) : i / d < (n + (d - 1)) / d := by
  rw [Nat.lt_iff_add_one_le, Nat.le_div_iff_mul_le hd, Nat.add_mul, Nat.one_mul]
  have := Nat.div_mul_le_self i d
  omega

end FixedDecimal

namespace FixedDecimal
variable {_IntegerCount _DecimalCount _group_size : Nat}

theorem digits_length (x : FixedDecimal _IntegerCount _DecimalCount _group_size) :
    x.digits.length = _DecimalCount + _IntegerCount := by
  simp [digits]

end FixedDecimal

/-! ## The claims on the sum with zero, on digit access and on construction -/

namespace FixedDecimal
variable {_IntegerCount _DecimalCount _group_size : Nat}

/-- C11 (the code evaluated).  With three integer and two fractional digits,
`123.45 + 000.00` has no defined result: the second loop of `_digit_add` reads
`_other._decimal_digit(2)` of the zero value, outside its array `_decimal`.
With two integer and two fractional digits `12.45 + 00.00` is `12.45`. -/
theorem operator_add_zero_reads_outside :
    (FixedDecimal.mk [3, 2, 1] [5, 4] : FixedDecimal 3 2 8).wf ∧
    (FixedDecimal.mk [3, 2, 1] [5, 4] : FixedDecimal 3 2 8).digits_valid ∧
    default_ctor 3 2 8 = FixedDecimal.mk [0, 0, 0] [0, 0] ∧
    (default_ctor 3 2 8)._decimal_digit 2 = none ∧
    (FixedDecimal.mk [3, 2, 1] [5, 4] : FixedDecimal 3 2 8).operator_add (default_ctor 3 2 8)
      = none ∧
    (FixedDecimal.mk [2, 1] [5, 4] : FixedDecimal 2 2 8).operator_add (default_ctor 2 2 8)
      = some (FixedDecimal.mk [2, 1] [5, 4]) := by
  decide

/-- C12 (the code evaluated).  With two integer and two fractional digits,
`12.00 + 01.00` is `12.00` and `01.00 + 12.00` is `01.00`, while the sum
`13.00` fits the format: each order adds the fractional digits of its right
operand to the integer digits of its left operand. -/
theorem operator_add_not_commutative :
    (FixedDecimal.mk [2, 1] [0, 0] : FixedDecimal 2 2 8).wf ∧
    (FixedDecimal.mk [1, 0] [0, 0] : FixedDecimal 2 2 8).wf ∧
    (FixedDecimal.mk [2, 1] [0, 0] : FixedDecimal 2 2 8).digits_valid ∧
    (FixedDecimal.mk [1, 0] [0, 0] : FixedDecimal 2 2 8).digits_valid ∧
    (FixedDecimal.mk [2, 1] [0, 0] : FixedDecimal 2 2 8).value
      + (FixedDecimal.mk [1, 0] [0, 0] : FixedDecimal 2 2 8).value < 10 ^ (2 + 2) ∧
    (FixedDecimal.mk [2, 1] [0, 0] : FixedDecimal 2 2 8).operator_add
      (FixedDecimal.mk [1, 0] [0, 0]) = some (FixedDecimal.mk [2, 1] [0, 0]) ∧
    (FixedDecimal.mk [1, 0] [0, 0] : FixedDecimal 2 2 8).operator_add
      (FixedDecimal.mk [2, 1] [0, 0]) = some (FixedDecimal.mk [1, 0] [0, 0]) ∧
    (FixedDecimal.mk [2, 1] [0, 0] : FixedDecimal 2 2 8).digits
      ≠ (FixedDecimal.mk [1, 0] [0, 0] : FixedDecimal 2 2 8).digits := by
  decide

/-- C14 (the code evaluated).  On `007.50`, with three integer and two
fractional digits, `operator[](3)` reads `_integer[3]` and `operator[](-3)`
reads `_decimal[255]`, `255` being the `count_type` value of `2 + (-3)`: both
cells are outside their arrays, and no statement tests the index first. -/
theorem operator_index_reads_outside :
    (FixedDecimal.mk [7, 0, 0] [0, 5] : FixedDecimal 3 2 8).wf ∧
    (FixedDecimal.mk [7, 0, 0] [0, 5] : FixedDecimal 3 2 8)._integer_group 3 = none ∧
    (FixedDecimal.mk [7, 0, 0] [0, 5] : FixedDecimal 3 2 8).operator_index 3 = none ∧
    count_type ((2 : Int) + scount_type (-3)) = 255 ∧
    (FixedDecimal.mk [7, 0, 0] [0, 5] : FixedDecimal 3 2 8)._decimal_group 255 = none ∧
    (FixedDecimal.mk [7, 0, 0] [0, 5] : FixedDecimal 3 2 8).operator_index (-3) = none := by
  decide

/-- C15.  For all operands of one format, `_digit_divide` returns false and
leaves `*this` as it was, so that `a /= b` and `a / b` are `a`, digit for
digit. -/
theorem digit_divide_fixed_result (a b : FixedDecimal _IntegerCount _DecimalCount _group_size) :
    a._digit_divide b = (a, false) ∧ a.operator_div_assign b = a ∧ a.operator_div b = a ∧
    (a.operator_div_assign b).digits = a.digits ∧
    a._digit_divide (default_ctor _IntegerCount _DecimalCount _group_size) = (a, false) :=
  ⟨rfl, rfl, rfl, rfl, rfl⟩

/-- C16.  For every format and every storage type for which the class exists
(`_digits_per_group` is not `0`), the default constructor, run on storage of any
content, clears every group, and every integer and fractional digit of the
object reads `0`. -/
theorem default_ctor_zero (prior : FixedDecimal _IntegerCount _DecimalCount _group_size)
    (hI : _IntegerCount < 256) (hD : _DecimalCount < 256)
    (hW : 0 < _digits_per_group _group_size)
    (hpI : prior._integer.length = _integer_groups _IntegerCount _group_size)
    (hpD : prior._decimal.length = _decimal_groups _DecimalCount _group_size) :
    default_ctor_memset prior = default_ctor _IntegerCount _DecimalCount _group_size ∧
    (∀ g ∈ (default_ctor_memset prior)._integer ++ (default_ctor_memset prior)._decimal, g = 0) ∧
    (∀ i, i < _IntegerCount → (default_ctor_memset prior)._integer_digit i = some 0) ∧
    (∀ i, i < _DecimalCount → (default_ctor_memset prior)._decimal_digit i = some 0) := by
  have e : default_ctor_memset prior = default_ctor _IntegerCount _DecimalCount _group_size := by
    unfold default_ctor_memset default_ctor
    rw [sizeof_of_digits_per_group hW]
    conv_lhs => rw [← hpI, ← hpD, memset_zero_cells, memset_zero_cells, hpI, hpD]
  have z : _digit_type (0 : Int) = 0 := by decide
  refine ⟨e, ?_, ?_, ?_⟩
  · rw [e]
    intro g hg
    simp only [default_ctor, List.mem_append, List.mem_replicate] at hg
    rcases hg with h | h <;> exact h.2
  · intro i hi
    rw [e]
    unfold _integer_digit _integer_group default_ctor _integer_groups
    rw [groups_eq hI hW, List.getElem?_replicate, if_pos (div_lt_groups hW hi)]
    simp [z]
  · intro i hi
    rw [e]
    unfold _decimal_digit _decimal_group default_ctor _decimal_groups
    rw [groups_eq hD hW, List.getElem?_replicate, if_pos (div_lt_groups hW hi)]
    simp [z]

/-- C16 (witness): three integer and two fractional digits over an eight-bit
storage word, on storage that held `0x4D 0x58 0x63 | 0x0B 0x16`. -/
theorem default_ctor_zero_witness :
    (3 < 256) ∧ (2 < 256) ∧ 0 < _digits_per_group 8 ∧
    default_ctor_memset (FixedDecimal.mk [0x4D, 0x58, 0x63] [0x0B, 0x16] : FixedDecimal 3 2 8)
      = default_ctor 3 2 8 ∧
    (∀ i, i < 3 → (default_ctor_memset
      (FixedDecimal.mk [0x4D, 0x58, 0x63] [0x0B, 0x16] : FixedDecimal 3 2 8))._integer_digit i
        = some 0) :=
  ⟨by decide, by decide, by decide,
    (default_ctor_zero (FixedDecimal.mk [0x4D, 0x58, 0x63] [0x0B, 0x16] : FixedDecimal 3 2 8)
      (by decide) (by decide) (by decide) (by decide) (by decide)).1,
    (default_ctor_zero (FixedDecimal.mk [0x4D, 0x58, 0x63] [0x0B, 0x16] : FixedDecimal 3 2 8)
      (by decide) (by decide) (by decide) (by decide) (by decide)).2.2.1⟩

/-- C17 (the code evaluated).  Converting `7.50` (one integer and two
fractional digits) to three integer and two fractional digits gives `007.00`:
the second loop bounds the copy of the fractional groups by
`other._integer_groups`, here `1`, and clears the group that holds the `5`.
Converting `12.5` (two integer digits, one fractional digit) to the same format
reads `other._decimal_group(1)`, outside the array of the source. -/
theorem convert_ctor_wrong_bound :
    (FixedDecimal.mk [7] [0, 5] : FixedDecimal 1 2 8).wf ∧
    (FixedDecimal.mk [0, 0, 0] [0, 0] : FixedDecimal 3 2 8).wf ∧
    (convert_ctor (FixedDecimal.mk [0, 0, 0] [0, 0] : FixedDecimal 3 2 8)
      (FixedDecimal.mk [7] [0, 5] : FixedDecimal 1 2 8))
      = some (FixedDecimal.mk [7, 0, 0] [0, 0]) ∧
    (FixedDecimal.mk [7] [0, 5] : FixedDecimal 1 2 8)._decimal_group 1 = some 5 ∧
    (FixedDecimal.mk [2, 1] [5] : FixedDecimal 2 1 8).wf ∧
    (FixedDecimal.mk [2, 1] [5] : FixedDecimal 2 1 8)._decimal_group 1 = none ∧
    (convert_ctor (FixedDecimal.mk [0, 0, 0] [0, 0] : FixedDecimal 3 2 8)
      (FixedDecimal.mk [2, 1] [5] : FixedDecimal 2 1 8)) = none := by
  decide

end FixedDecimal

/-! ## The claims on resizing a `Decimal` -/

namespace Decimal
variable {_group_size : Nat}

theorem resize_copy_spec (old temp : List Nat) :
    ∀ n, n ≤ old.length → n ≤ temp.length →
      ∃ t, count_loop (_resize_copy_body old) n temp = some t ∧ t.length = temp.length ∧
        (∀ i, i < n → t[i]? = old[i]?) ∧ (∀ i, n ≤ i → t[i]? = temp[i]?) := by
  intro n
  induction n with
  | zero =>
    intro _ _
    exact ⟨temp, rfl, rfl, fun i hi => absurd hi (Nat.not_lt_zero i), fun _ _ => rfl⟩
  | succ n ih =>
    intro h1 h2
    obtain ⟨t, ht, hlen, hlow, hhigh⟩ := ih (Nat.le_of_succ_le h1) (Nat.le_of_succ_le h2)
    have hn1 : n < old.length := h1
    have hn2 : n < t.length := by rw [hlen]; exact h2
    refine ⟨t.set n old[n], ?_, by simp [hlen], ?_, ?_⟩
    · simp only [count_loop, ht, Option.some_bind, _resize_copy_body,
        List.getElem?_eq_getElem hn1, hn2, if_true]
    · intro i hi
      by_cases hin : i = n
      · subst hin
        rw [List.getElem?_set_self hn2, List.getElem?_eq_getElem hn1]
      · rw [List.getElem?_set_ne (Ne.symm hin)]
        exact hlow i (by omega)
    · intro i hi
      rw [List.getElem?_set_ne (by omega)]
      exact hhigh i (by omega)

theorem resize_array_spec (old : List Nat) (c n : Nat) (hc : old.length = c) :
    ∃ t, count_loop (_resize_copy_body old) (if c < n then c else n) (List.replicate n 0)
        = some t ∧ t.length = n ∧
      (∀ i, i < c → i < n → t[i]? = old[i]?) ∧
      (∀ i, c ≤ i → i < n → t[i]? = some 0) := by
  have hm1 : (if c < n then c else n) ≤ old.length := by
    rw [hc]; split <;> omega
  have hm2 : (if c < n then c else n) ≤ (List.replicate n (0 : Nat)).length := by
    rw [List.length_replicate]; split <;> omega
  obtain ⟨t, ht, hlen, hlow, hhigh⟩ := resize_copy_spec old (List.replicate n 0) _ hm1 hm2
  refine ⟨t, ht, by simpa using hlen, ?_, ?_⟩
  · intro i hic hin
    apply hlow
    split <;> omega
  · intro i hic hin
    rw [hhigh i (by split <;> omega), List.getElem?_replicate, if_pos hin]

/-- What `_resize_groups` leaves in a consistent object. -/
theorem resize_groups_spec (x : Decimal _group_size) (hx : x.wf) (ni nd : Nat) :
    ∃ y, x._resize_groups ni nd = some y ∧
      y._integer_groups = x._integer_groups ∧ y._decimal_groups = x._decimal_groups ∧
      y._integer.length = ni ∧ y._decimal.length = nd ∧
      (∀ i, i < x._integer_groups → i < ni → y._integer[i]? = x._integer[i]?) ∧
      (∀ i, x._integer_groups ≤ i → i < ni → y._integer[i]? = some 0) ∧
      (∀ i, i < x._decimal_groups → i < nd → y._decimal[i]? = x._decimal[i]?) ∧
      (∀ i, x._decimal_groups ≤ i → i < nd → y._decimal[i]? = some 0) ∧
      (ni = x._integer_groups → y._integer = x._integer) ∧
      (nd = x._decimal_groups → y._decimal = x._decimal) := by
  obtain ⟨_, _, hI, hD, _, _⟩ := hx
  obtain ⟨ti, hti, hleni, hlowi, hhighi⟩ := resize_array_spec x._integer x._integer_groups ni hI
  obtain ⟨td, htd, hlend, hlowd, hhighd⟩ := resize_array_spec x._decimal x._decimal_groups nd hD
  by_cases h1 : x._integer_groups = ni <;> by_cases h2 : x._decimal_groups = nd
  · refine ⟨x, ?_, rfl, rfl, by rw [hI, h1], by rw [hD, h2], fun _ _ _ => rfl,
      fun i hi hi2 => by omega, fun _ _ _ => rfl, fun i hi hi2 => by omega,
      fun _ => rfl, fun _ => rfl⟩
    simp [_resize_groups, h1, h2]
  · refine ⟨{ x with _decimal := td }, ?_, rfl, rfl, by rw [hI, h1], hlend, fun _ _ _ => rfl,
      fun i hi hi2 => by omega, hlowd, hhighd, fun _ => rfl, fun h => absurd h.symm h2⟩
    simp [_resize_groups, h1, h2, htd]
  · refine ⟨{ x with _integer := ti }, ?_, rfl, rfl, hleni, by rw [hD, h2], hlowi, hhighi,
      fun _ _ _ => rfl, fun i hi hi2 => by omega, fun h => absurd h.symm h1, fun _ => rfl⟩
    simp [_resize_groups, h1, h2, hti]
  · refine ⟨{ x with _integer := ti, _decimal := td }, ?_, rfl, rfl, hleni, hlend, hlowi,
      hhighi, hlowd, hhighd, fun h => absurd h.symm h1, fun h => absurd h.symm h2⟩
    simp [_resize_groups, h1, h2, hti, htd]

theorem resize_groups_same (y : Decimal _group_size) :
    y._resize_groups y._integer_groups y._decimal_groups = some y := by
  simp [_resize_groups]

/-- C18 (the code evaluated).  Over an eight-bit storage word, a `Decimal` with
three integer groups `1 2 3` resized to two integer groups keeps the member
`_integer_groups = 3` with an array of two groups; resized then to four
integer groups, it copies `min(3, 4) = 3` groups and reads `_integer[2]`
outside the array of two, where groups `2` and `3` should hold `0`.  Resized
from three to five integer groups, with `7` then stored in group `3`, and
resized to four integer groups, it copies `min(3, 4) = 3` groups again and
group `3`, below both the old count `5` and the new count `4`, holds `0` and
not `7`.  On a `Decimal` whose count members give the lengths of its arrays,
`_resize_groups(n_int, n_dec)` returns, each new array has the requested
number of groups, holds the old group at every index below both counts and `0`
from the old count up to the new one, and an array whose requested count is
its current count is the old array. -/
theorem resize_groups_on_resized :
    (Decimal.mk [1, 2, 3] [4, 5] 3 2 : Decimal 8).wf ∧
    (Decimal.mk [1, 2, 3] [4, 5] 3 2 : Decimal 8)._resize_groups 2 2
      = some (Decimal.mk [1, 2] [4, 5] 3 2) ∧
    (Decimal.mk [1, 2] [4, 5] 3 2 : Decimal 8)._resize_groups 4 2 = none ∧
    (Decimal.mk [1, 2, 3] [4, 5] 3 2 : Decimal 8)._resize_groups 5 2
      = some (Decimal.mk [1, 2, 3, 0, 0] [4, 5] 3 2) ∧
    (Decimal.mk [1, 2, 3, 7, 0] [4, 5] 3 2 : Decimal 8)._resize_groups 4 2
      = some (Decimal.mk [1, 2, 3, 0] [4, 5] 3 2) ∧
    (∀ (w : Nat) (x : Decimal w), x.wf → ∀ n_int n_dec : Nat,
      ∃ y, x._resize_groups n_int n_dec = some y ∧
        y._integer.length = n_int ∧ y._decimal.length = n_dec ∧
        (∀ i, i < min x._integer_groups n_int → y._integer[i]? = x._integer[i]?) ∧
        (∀ i, x._integer_groups ≤ i → i < n_int → y._integer[i]? = some 0) ∧
        (∀ i, i < min x._decimal_groups n_dec → y._decimal[i]? = x._decimal[i]?) ∧
        (∀ i, x._decimal_groups ≤ i → i < n_dec → y._decimal[i]? = some 0) ∧
        (n_int = x._integer_groups → y._integer = x._integer) ∧
        (n_dec = x._decimal_groups → y._decimal = x._decimal)) := by
  refine ⟨by decide, by decide, by decide, by decide, by decide, ?_⟩
  intro w x hx n_int n_dec
  obtain ⟨y, hy, _, _, h1, h2, h3, h4, h5, h6, h7, h8⟩ := resize_groups_spec x hx n_int n_dec
  exact ⟨y, hy, h1, h2, fun i hi => h3 i (by omega) (by omega), h4,
    fun i hi => h5 i (by omega) (by omega), h6, h7, h8⟩

/-- C19 (the code evaluated).  Over an eight-bit storage word, a `Decimal` with
three integer groups and two fractional groups resized to five integer digits
and four fractional digits gets arrays of five and four groups, while its
members `_integer_groups` and `_decimal_groups` are still `3` and `2` and
`_integer_count()` and `_decimal_count()` still return `3` and `2`. -/
theorem resize_keeps_stale_counts :
    (Decimal.mk [1, 2, 3] [4, 5] 3 2 : Decimal 8).wf ∧
    _digits_per_group 8 = 1 ∧
    (Decimal.mk [1, 2, 3] [4, 5] 3 2 : Decimal 8)._resize 5 4
      = some (Decimal.mk [1, 2, 3, 0, 0] [4, 5, 0, 0] 3 2) ∧
    (Decimal.mk [1, 2, 3, 0, 0] [4, 5, 0, 0] 3 2 : Decimal 8)._integer_groups = 3 ∧
    (Decimal.mk [1, 2, 3, 0, 0] [4, 5, 0, 0] 3 2 : Decimal 8)._decimal_groups = 2 ∧
    (Decimal.mk [1, 2, 3, 0, 0] [4, 5, 0, 0] 3 2 : Decimal 8)._integer_count = 3 ∧
    (Decimal.mk [1, 2, 3, 0, 0] [4, 5, 0, 0] 3 2 : Decimal 8)._decimal_count = 2 ∧
    (Decimal.mk [1, 2, 3, 0, 0] [4, 5, 0, 0] 3 2 : Decimal 8)._integer.length = 5 ∧
    (Decimal.mk [1, 2, 3, 0, 0] [4, 5, 0, 0] 3 2 : Decimal 8)._decimal.length = 4 := by
  decide

/-- On a `Decimal` whose count members give the lengths of its arrays,
resizing to group counts at least the current ones and then back to the
original counts returns, the second call leaving the grown object as it is:
the arrays keep the grown lengths, every digit within the original width reads
as before, the count members are the original ones, and every digit of the
grown region reads `0`. -/
theorem resize_grow_back_spec (x : Decimal _group_size) (hx : x.wf) (n_int n_dec : Nat)
    (hi : x._integer_groups ≤ n_int) (hd : x._decimal_groups ≤ n_dec) :
    ∃ y z, x._resize_groups n_int n_dec = some y ∧
      y._resize_groups x._integer_groups x._decimal_groups = some z ∧
      z = y ∧ z._integer.length = n_int ∧ z._decimal.length = n_dec ∧
      (∀ pos, pos < x._integer_groups * _digits_per_group _group_size →
        z._integer_digit pos = x._integer_digit pos) ∧
      (∀ pos, pos < x._decimal_groups * _digits_per_group _group_size →
        z._decimal_digit pos = x._decimal_digit pos) ∧
      z._integer_groups = x._integer_groups ∧ z._decimal_groups = x._decimal_groups ∧
      (∀ pos, x._integer_groups * _digits_per_group _group_size ≤ pos →
        pos < n_int * _digits_per_group _group_size → y._integer_digit pos = some 0) ∧
      (∀ pos, x._decimal_groups * _digits_per_group _group_size ≤ pos →
        pos < n_dec * _digits_per_group _group_size → y._decimal_digit pos = some 0) := by
  obtain ⟨y, hy, hgi, hgd, hleni, hlend, hlowi, hhighi, hlowd, hhighd, _, _⟩ :=
    resize_groups_spec x hx n_int n_dec
  have hz : y._resize_groups x._integer_groups x._decimal_groups = some y := by
    rw [← hgi, ← hgd]; exact resize_groups_same y
  have hcount : y._decimal_count = x._decimal_count := by
    simp [_decimal_count, hgd]
  have z0 : _digit_type (0 : Int) = 0 := by decide
  refine ⟨y, y, hy, hz, rfl, hleni, hlend, ?_, ?_, hgi, hgd, ?_, ?_⟩
  · intro pos hpos
    have hdiv : pos / _digits_per_group _group_size < x._integer_groups :=
      Nat.div_lt_of_lt_mul (by rw [Nat.mul_comm]; exact hpos)
    unfold _integer_digit _integer_group
    rw [hcount, hlowi _ hdiv (by omega)]
  · intro pos hpos
    have hdiv : pos / _digits_per_group _group_size < x._decimal_groups :=
      Nat.div_lt_of_lt_mul (by rw [Nat.mul_comm]; exact hpos)
    unfold _decimal_digit _decimal_group
    rw [hlowd _ hdiv (by omega)]
  · intro pos h1 h2
    have hpos : 0 < _digits_per_group _group_size := by
      rcases Nat.eq_zero_or_pos (_digits_per_group _group_size) with h0 | h0
      · rw [h0] at h2; simp at h2
      · exact h0
    have hge : x._integer_groups ≤ pos / _digits_per_group _group_size :=
      (Nat.le_div_iff_mul_le hpos).mpr h1
    have hlt : pos / _digits_per_group _group_size < n_int :=
      Nat.div_lt_of_lt_mul (by rw [Nat.mul_comm]; exact h2)
    unfold _integer_digit _integer_group
    rw [hhighi _ hge hlt]
    split
    · rfl
    · simp [z0]
  · intro pos h1 h2
    have hpos : 0 < _digits_per_group _group_size := by
      rcases Nat.eq_zero_or_pos (_digits_per_group _group_size) with h0 | h0
      · rw [h0] at h2; simp at h2
      · exact h0
    have hge : x._decimal_groups ≤ pos / _digits_per_group _group_size :=
      (Nat.le_div_iff_mul_le hpos).mpr h1
    have hlt : pos / _digits_per_group _group_size < n_dec :=
      Nat.div_lt_of_lt_mul (by rw [Nat.mul_comm]; exact h2)
    unfold _decimal_digit _decimal_group
    rw [hhighd _ hge hlt]
    simp [z0]

/-- C20 (the code evaluated).  Over an eight-bit storage word, a `Decimal` with
three integer groups and two fractional groups resized to five integer digits
and four fractional digits gets arrays of five and four groups; resized back
to three and two digits, it is left as it is, with arrays of five and four
groups: `_resize_groups` compares the requested counts with the members
`_integer_groups` and `_decimal_groups`, which are still `3` and `2`, and does
nothing.  The same holds for every `Decimal` whose count members give the
lengths of its arrays and every pair of larger group counts; the digits within
the original width read as before and those of the grown region read `0`. -/
theorem resize_round_trip_storage :
    (Decimal.mk [1, 2, 3] [4, 5] 3 2 : Decimal 8).wf ∧
    _digits_per_group 8 = 1 ∧
    (Decimal.mk [1, 2, 3] [4, 5] 3 2 : Decimal 8)._resize 5 4
      = some (Decimal.mk [1, 2, 3, 0, 0] [4, 5, 0, 0] 3 2) ∧
    (Decimal.mk [1, 2, 3, 0, 0] [4, 5, 0, 0] 3 2 : Decimal 8)._resize 3 2
      = some (Decimal.mk [1, 2, 3, 0, 0] [4, 5, 0, 0] 3 2) ∧
    (Decimal.mk [1, 2, 3, 0, 0] [4, 5, 0, 0] 3 2 : Decimal 8)._integer.length = 5 ∧
    (Decimal.mk [1, 2, 3, 0, 0] [4, 5, 0, 0] 3 2 : Decimal 8)._decimal.length = 4 ∧
    (Decimal.mk [1, 2, 3] [4, 5] 3 2 : Decimal 8)._integer.length = 3 ∧
    (Decimal.mk [1, 2, 3] [4, 5] 3 2 : Decimal 8)._decimal.length = 2 ∧
    (∀ (w : Nat) (x : Decimal w), x.wf → ∀ n_int n_dec : Nat,
      x._integer_groups ≤ n_int → x._decimal_groups ≤ n_dec →
      ∃ y z, x._resize_groups n_int n_dec = some y ∧
        y._resize_groups x._integer_groups x._decimal_groups = some z ∧
        z = y ∧ z._integer.length = n_int ∧ z._decimal.length = n_dec ∧
        (∀ pos, pos < x._integer_groups * _digits_per_group w →
          z._integer_digit pos = x._integer_digit pos) ∧
        (∀ pos, pos < x._decimal_groups * _digits_per_group w →
          z._decimal_digit pos = x._decimal_digit pos) ∧
        z._integer_groups = x._integer_groups ∧ z._decimal_groups = x._decimal_groups ∧
        (∀ pos, x._integer_groups * _digits_per_group w ≤ pos →
          pos < n_int * _digits_per_group w → y._integer_digit pos = some 0) ∧
        (∀ pos, x._decimal_groups * _digits_per_group w ≤ pos →
          pos < n_dec * _digits_per_group w → y._decimal_digit pos = some 0)) := by
  refine ⟨by decide, by decide, by decide, by decide, by decide, by decide, by decide,
    by decide, ?_⟩
  intro w x hx n_int n_dec hi hd
  exact resize_grow_back_spec x hx n_int n_dec hi hd

end Decimal

/-! ## Lemmas and claims on the digit getters, the digit range and the packing -/

theorem count_type_le (n : Nat) : count_type (n : Int) ≤ n := by
  unfold count_type CHAR_BIT
  have h : ((n : Int) % 2 ^ 8).toNat = n % 256 := by
    have e : ((n : Int) % 2 ^ 8) = ((n % 256 : Nat) : Int) := by norm_num
    rw [e, Int.toNat_ofNat]
  rw [h]
  exact Nat.mod_le n 256

namespace FixedDecimal
variable {_IntegerCount _DecimalCount _group_size : Nat}

/-- What `_digit_add` leaves in `*this` when the integer part is not longer
than the fractional part. -/
theorem digit_add_locals_spec (a b : FixedDecimal _IntegerCount _DecimalCount 8)
    (ha : a.wf) (hb : b.wf) (hav : a.digits_valid) (hbv : b.digits_valid)
    (hle : _IntegerCount ≤ _DecimalCount) :
    ∃ r c, a._digit_add_locals b = some (r, c) ∧ r.wf ∧ r.digits_valid := by
  rw [wf_eight] at ha hb
  obtain ⟨hI, hD, haI, haD⟩ := ha
  obtain ⟨_, _, hbI, hbD⟩ := hb
  rw [digits_valid_iff] at hav hbv
  have hbdec : ∀ i, i < _DecimalCount → ∃ y, b._decimal_digit i = some y ∧ y ≤ 9 := by
    intro i hi
    obtain ⟨y, hy, _⟩ := decimal_cells.read b i hbD hi
    exact ⟨y, hy, hbv.1 i hi y hy⟩
  obtain ⟨r1, c1, hrun1, hok1, hrest1, _, hlow1, _⟩ :=
    add_loop_spec decimal_cells b._decimal_digit hbdec a false haD hav.1 _DecimalCount (le_refl _)
  have hok1I : r1._integer.length = _IntegerCount ∧ ∀ g ∈ r1._integer, g < 256 := by
    have e : r1._integer = a._integer := hrest1
    rw [e]; exact haI
  obtain ⟨r2, c2, hrun2, hok2, hrest2, _, hlow2, _⟩ :=
    add_loop_spec integer_cells b._decimal_digit
      (fun i hi => hbdec i (lt_of_lt_of_le hi hle)) r1 c1 hok1I
      (fun i hi d hd => hav.2 i hi d (by rw [← integer_digit_congr a r1 hrest1 i]; exact hd))
      _IntegerCount (le_refl _)
  have hrest2' : r2._decimal = r1._decimal := hrest2
  have hok2D : r2._decimal.length = _DecimalCount ∧ ∀ g ∈ r2._decimal, g < 256 := by
    rw [hrest2']; exact hok1
  refine ⟨r2, c2, ?_, ?_, ?_⟩
  · unfold _digit_add_locals
    have b1 : _digit_add_decimal_body b
        = add_body _decimal_digit _decimal_digit_set b._decimal_digit := rfl
    have b2 : _digit_add_integer_body b
        = add_body _integer_digit _integer_digit_set b._decimal_digit := rfl
    rw [b1, b2, hrun1, Option.some_bind, hrun2]
  · rw [wf_eight]; exact ⟨hI, hD, hok2, hok2D⟩
  · rw [digits_valid_iff]
    exact ⟨fun i hi d hd => hlow1 i hi d (by rw [← decimal_digit_congr r1 r2 hrest2' i]; exact hd),
      hlow2⟩

end FixedDecimal

namespace Decimal
variable {_group_size : Nat}

/-- C21 (the code evaluated).  Over an eight-bit storage word, on a `Decimal`
with three integer digits `3 2 1` and two fractional digits,
`_integer_digit(2)`, below the integer digit count, returns `0` while the digit
stored there is `3`, and `_integer_digit(3)`, at the end of the integer
sequence, returns `0` and reports nothing: the getter compares the position
with `_decimal_count()`.  With three integer and four fractional digits,
`_integer_digit(3)` passes that test and reads `_integer[3]` outside the array.
For every `Decimal`, a position at or past `_decimal_count()` reads as `0`. -/
theorem integer_digit_guard_wrong_count :
    (Decimal.mk [1, 2, 3] [4, 5] 3 2 : Decimal 8).wf ∧
    (Decimal.mk [1, 2, 3] [4, 5] 3 2 : Decimal 8)._integer_count = 3 ∧
    (Decimal.mk [1, 2, 3] [4, 5] 3 2 : Decimal 8)._decimal_count = 2 ∧
    (Decimal.mk [1, 2, 3] [4, 5] 3 2 : Decimal 8)._integer_group 2 = some 3 ∧
    (Decimal.mk [1, 2, 3] [4, 5] 3 2 : Decimal 8)._integer_digit 2 = some 0 ∧
    (Decimal.mk [1, 2, 3] [4, 5] 3 2 : Decimal 8)._integer_digit 3 = some 0 ∧
    (Decimal.mk [1, 2, 3] [4, 5, 6, 7] 3 4 : Decimal 8).wf ∧
    (Decimal.mk [1, 2, 3] [4, 5, 6, 7] 3 4 : Decimal 8)._integer_count = 3 ∧
    (Decimal.mk [1, 2, 3] [4, 5, 6, 7] 3 4 : Decimal 8)._integer_digit 2 = some 3 ∧
    (Decimal.mk [1, 2, 3] [4, 5, 6, 7] 3 4 : Decimal 8)._integer_digit 3 = none ∧
    (∀ (w : Nat) (x : Decimal w) (pos : Nat), x._decimal_count ≤ pos →
      x._integer_digit pos = some 0) := by
  refine ⟨by decide, by decide, by decide, by decide, by decide, by decide, by decide,
    by decide, by decide, by decide, ?_⟩
  intro w x pos h
  unfold _integer_digit
  rw [if_pos h]

end Decimal

namespace FixedDecimal
variable {_IntegerCount _DecimalCount _group_size : Nat}

/-- C29 (the code evaluated).  Over an eight-bit storage word, where
`_digits_per_group` is `1`, a digit written at a position in range reads back
and nothing else changes.  Where `_digits_per_group` is more than `1` it does
not: over a one-bit storage word (`_digits_per_group = 8`) the digit `5`
written at the integer position `0` reads back as `1`, and over a four-bit
storage word (`_digits_per_group = 2`) the digit `5` written at the integer
position `1` reads back as `0`; the setter shifts by `_pos % _digits_per_group`
bits where the getter shifts by `(_pos % _digits_per_group) * _digit_size`. -/
theorem digit_set_get_round_trip :
    (∀ (ic dc : Nat) (x : FixedDecimal ic dc 8), x.wf → ∀ p v, p < ic → v ≤ 9 →
      ∃ y, x._integer_digit_set p v = some y ∧ y._integer_digit p = some v ∧
        (∀ q, q ≠ p → y._integer_digit q = x._integer_digit q) ∧
        y._decimal = x._decimal) ∧
    (∀ (ic dc : Nat) (x : FixedDecimal ic dc 8), x.wf → ∀ p v, p < dc → v ≤ 9 →
      ∃ y, x._decimal_digit_set p v = some y ∧ y._decimal_digit p = some v ∧
        (∀ q, q ≠ p → y._decimal_digit q = x._decimal_digit q) ∧
        y._integer = x._integer) ∧
    _digits_per_group 1 = 8 ∧
    (FixedDecimal.mk [0] [0] : FixedDecimal 8 8 1).wf ∧
    (FixedDecimal.mk [0] [0] : FixedDecimal 8 8 1)._integer_digit_set 0 5
      = some (FixedDecimal.mk [1] [0]) ∧
    (FixedDecimal.mk [1] [0] : FixedDecimal 8 8 1)._integer_digit 0 = some 1 ∧
    _digits_per_group 4 = 2 ∧
    (FixedDecimal.mk [0] [0] : FixedDecimal 2 2 4).wf ∧
    (FixedDecimal.mk [0] [0] : FixedDecimal 2 2 4)._integer_digit_set 1 5
      = some (FixedDecimal.mk [10] [0]) ∧
    (FixedDecimal.mk [10] [0] : FixedDecimal 2 2 4)._integer_digit 1 = some 0 := by
  refine ⟨?_, ?_, by decide, by decide, by decide, by decide, by decide, by decide,
    by decide, by decide⟩
  · intro ic dc x hx p v hp hv
    rw [wf_eight] at hx
    obtain ⟨y, h1, _, h2, h3, h4⟩ := integer_cells.write x p v hx.2.2.1 hp (by omega)
    exact ⟨y, h1, h2, h3, h4⟩
  · intro ic dc x hx p v hp hv
    rw [wf_eight] at hx
    obtain ⟨y, h1, _, h2, h3, h4⟩ := decimal_cells.write x p v hx.2.2.2 hp (by omega)
    exact ⟨y, h1, h2, h3, h4⟩

/-- C30 (the code evaluated).  The constant `_digits_per_group` is
`(CHAR_BIT * sizeof(_digit_type)) / _group_size`, that is `8` divided by the
number of bits of the storage word: `1` for an eight-bit word, where
`8 / 4 = 2`, and `0` for a sixteen-bit word, where `16 / 4 = 4`; with `0`
digits per group no group count times `_digits_per_group` reaches a digit
count of `3`.  The same holds for `Decimal`. -/
theorem digits_per_group_inverted :
    _digits_per_group 8 = 1 ∧ 8 / _digit_size = 2 ∧
    _digits_per_group 16 = 0 ∧ 16 / _digit_size = 4 ∧
    Decimal._digits_per_group 8 = 1 ∧ Decimal._digits_per_group 16 = 0 ∧
    (∀ groups : Nat, groups * _digits_per_group 16 < 3) ∧
    _integer_groups 3 8 * _digits_per_group 8 = 3 := by
  refine ⟨by decide, by decide, by decide, by decide, by decide, by decide, ?_, by decide⟩
  intro groups
  have h : _digits_per_group 16 = 0 := by decide
  rw [h]
  omega

end FixedDecimal

/-! ## Lemmas and claims on `Fraction` -/

theorem natAbs_tmod (a b : Int) : (Int.tmod a b).natAbs = a.natAbs % b.natAbs := by
  cases a <;> cases b <;> simp [Int.tmod, Int.natAbs_neg, Int.natAbs_ofNat] <;> rfl

namespace Fraction

/-- With enough fuel the loop of `_full_simplify` ends, on a `greater` whose
magnitude is the greatest common divisor of the two magnitudes. -/
theorem full_simplify_loop_spec :
    ∀ (fuel : Nat) (greater lesser : Int), lesser ≠ 0 → lesser.natAbs ≤ fuel →
      ∃ g, _full_simplify_loop fuel greater lesser = Exec.value g ∧ g ≠ 0 ∧
        g.natAbs = Nat.gcd greater.natAbs lesser.natAbs := by
  intro fuel
  induction fuel with
  | zero =>
    intro greater lesser h0 hle
    exact absurd (Int.natAbs_eq_zero.mp (Nat.le_zero.mp hle)) h0
  | succ fuel ih =>
    intro greater lesser h0 hle
    have hpos : 0 < lesser.natAbs := Int.natAbs_pos.mpr h0
    unfold _full_simplify_loop
    rw [if_neg h0]
    simp only
    by_cases hr : Int.tmod greater lesser = 0
    · rw [if_neg (by simpa using hr)]
      refine ⟨lesser, rfl, h0, ?_⟩
      have hmod : greater.natAbs % lesser.natAbs = 0 := by
        rw [← natAbs_tmod, hr]; rfl
      exact (Nat.gcd_eq_right (Nat.dvd_of_mod_eq_zero hmod)).symm
    · rw [if_pos hr]
      have hlt : (Int.tmod greater lesser).natAbs < lesser.natAbs := by
        rw [natAbs_tmod]; exact Nat.mod_lt _ hpos
      obtain ⟨g, hg, hg0, hgcd⟩ := ih lesser (Int.tmod greater lesser) hr (by omega)
      refine ⟨g, hg, hg0, ?_⟩
      rw [hgcd, natAbs_tmod, Nat.gcd_comm lesser.natAbs, ← Nat.gcd_rec, Nat.gcd_comm]

/-- What `_full_simplify` returns on a fraction without a zero member. -/
theorem full_simplify_spec (f : Fraction) (hn : f._numerator ≠ 0) (hd : f._denominator ≠ 0)
    (fuel : Nat) (hfuel : f._numerator.natAbs + f._denominator.natAbs ≤ fuel) :
    ∃ g : Int, g ≠ 0 ∧ g.natAbs = Nat.gcd f._numerator.natAbs f._denominator.natAbs ∧
      f._full_simplify fuel = Exec.value
        { _numerator := Int.tdiv f._numerator g, _denominator := Int.tdiv f._denominator g } := by
  unfold _full_simplify
  simp only
  have key : ∀ greater lesser : Int, lesser ≠ 0 → lesser.natAbs ≤ fuel →
      Nat.gcd greater.natAbs lesser.natAbs = Nat.gcd f._numerator.natAbs f._denominator.natAbs →
      ∃ g : Int, g ≠ 0 ∧ g.natAbs = Nat.gcd f._numerator.natAbs f._denominator.natAbs ∧
        (match _full_simplify_loop fuel greater lesser with
          | Exec.value greater =>
            if greater = 0 then Exec.divisionByZero
            else Exec.value (Fraction.mk (Int.tdiv f._numerator greater)
                              (Int.tdiv f._denominator greater))
          | Exec.divisionByZero => Exec.divisionByZero
          | Exec.outOfFuel => Exec.outOfFuel) = Exec.value
          (Fraction.mk (Int.tdiv f._numerator g) (Int.tdiv f._denominator g)) := by
    intro greater lesser h0 hle hgcd
    obtain ⟨g, hg, hg0, hgg⟩ := full_simplify_loop_spec fuel greater lesser h0 hle
    refine ⟨g, hg0, by rw [hgg, hgcd], ?_⟩
    rw [hg]
    simp only
    rw [if_neg hg0]
  by_cases h1 : f._numerator_abs > f._denominator_abs
  · rw [if_pos h1, if_neg (by omega)]
    exact key _ _ hd (by omega) rfl
  · rw [if_neg h1]
    by_cases h2 : f._numerator_abs < f._denominator_abs
    · rw [if_pos h2]
      exact key _ _ hn (by omega) (Nat.gcd_comm _ _)
    · rw [if_neg h2]
      have habs : f._numerator.natAbs = f._denominator.natAbs := by
        unfold _numerator_abs _denominator_abs at h1 h2
        split at h1 <;> split at h1 <;> simp_all <;> omega
      exact key _ _ hd (by omega) (by rw [habs])

end Fraction

/-! ## The claims on the totality, the difference and the order of `Fraction` -/

namespace Fraction

/-- On a fraction with the numerator `0` and another denominator,
`_full_simplify` takes the numerator as `lesser` and evaluates
`greater % lesser` with `lesser = 0` in its first iteration. -/
theorem full_simplify_numerator_zero (f : Fraction) (hn : f._numerator = 0)
    (hd : f._denominator ≠ 0) (fuel : Nat) :
    f._full_simplify (fuel + 1) = Exec.divisionByZero := by
  have h1 : f._numerator_abs = 0 := by unfold _numerator_abs; rw [hn]; simp
  have h2 : 0 < f._denominator_abs := by
    unfold _denominator_abs
    split <;> omega
  unfold _full_simplify
  simp only
  rw [h1, if_neg (by omega), if_pos h2, hn]
  rfl

/-- The fraction `_full_simplify` returns is the receiver under `==`, and its
denominator is not `0`. -/
theorem full_simplify_cross (f : Fraction) (hn : f._numerator ≠ 0) (hd : f._denominator ≠ 0)
    (fuel : Nat) (hfuel : f._numerator.natAbs + f._denominator.natAbs ≤ fuel) :
    ∃ r, f._full_simplify fuel = Exec.value r ∧
      r._numerator * f._denominator = f._numerator * r._denominator ∧
      r._denominator ≠ 0 := by
  obtain ⟨k, hk0, hk, hrun⟩ := full_simplify_spec f hn hd fuel hfuel
  have hkn : k ∣ f._numerator := by
    rw [← Int.natAbs_dvd_natAbs, hk]; exact Nat.gcd_dvd_left _ _
  have hkd : k ∣ f._denominator := by
    rw [← Int.natAbs_dvd_natAbs, hk]; exact Nat.gcd_dvd_right _ _
  have e1 : k * Int.tdiv f._numerator k = f._numerator := Int.mul_tdiv_cancel' hkn
  have e2 : k * Int.tdiv f._denominator k = f._denominator := Int.mul_tdiv_cancel' hkd
  refine ⟨_, hrun, ?_, ?_⟩
  · calc Int.tdiv f._numerator k * f._denominator
        = Int.tdiv f._numerator k * (k * Int.tdiv f._denominator k) := by rw [e2]
      _ = (k * Int.tdiv f._numerator k) * Int.tdiv f._denominator k := by ring
      _ = f._numerator * Int.tdiv f._denominator k := by rw [e1]
  · intro h
    simp only at h
    rw [h, Int.mul_zero] at e2
    exact hd e2.symm

/-- C32 (the code evaluated).  On the default fraction `0/1` the call
`simplify()` evaluates `greater % lesser` with `lesser = 0`, whatever the number
of iterations allowed, and so does `0/1 + 0/1`; the same holds for every
fraction with the numerator `0` and a denominator other than `0`, for which
`simplify()` never returns.  For a numerator and a denominator other than `0`
the call returns within `|numerator| + |denominator|` iterations. -/
theorem simplify_zero_numerator :
    default_ctor._numerator = 0 ∧ default_ctor._denominator = 1 ∧
    (∀ fuel, default_ctor.simplify (fuel + 1) = Exec.divisionByZero) ∧
    (∀ fuel, default_ctor.operator_add default_ctor (fuel + 1) = Exec.divisionByZero) ∧
    (∀ (f : Fraction) (fuel : Nat), f._numerator = 0 → f._denominator ≠ 0 →
      f.simplify (fuel + 1) = Exec.divisionByZero) ∧
    (∀ (f : Fraction) (fuel : Nat) (r : Fraction), f._numerator = 0 → f._denominator ≠ 0 →
      f.simplify fuel ≠ Exec.value r) ∧
    (∀ f : Fraction, f._numerator ≠ 0 → f._denominator ≠ 0 →
      ∃ r, f.simplify (f._numerator.natAbs + f._denominator.natAbs) = Exec.value r) := by
  refine ⟨rfl, rfl, ?_, ?_, ?_, ?_, ?_⟩
  · intro fuel
    exact full_simplify_numerator_zero default_ctor rfl (by decide) fuel
  · intro fuel
    exact full_simplify_numerator_zero (Fraction.mk (0 * 1 + 0 * 1) (1 * 1)) (by decide)
      (by decide) fuel
  · intro f fuel hn hd
    exact full_simplify_numerator_zero f hn hd fuel
  · intro f fuel r hn hd h
    cases fuel with
    | zero =>
      have e : f.simplify 0 = Exec.outOfFuel := rfl
      rw [e] at h
      cases h
    | succ fuel =>
      have e : f.simplify (fuel + 1) = Exec.divisionByZero :=
        full_simplify_numerator_zero f hn hd fuel
      rw [e] at h
      cases h
  · intro f hn hd
    obtain ⟨r, hr, _⟩ := full_simplify_cross f hn hd _ (le_refl _)
    exact ⟨r, hr⟩

/-- C33 (the code evaluated).  The difference `1/2 - 1/3` is returned as `1/3`,
which is not `1/6` under `==`, and adding `1/3` back gives `2/3`, which is not
`1/2`; the sum `1/2 + 1/3` is `5/6`.  The operator `-=` subtracts
`other._numerator` where `+=` adds `other._numerator * _denominator`: whenever
the numerator `a.numerator * b.denominator - b.numerator` it computes and the
product of the denominators are not `0`, the fraction `a - b` is returned, it
is that numerator over the product of the denominators under `==`, and it is
the rational difference under `==` exactly when
`b.numerator * a.denominator = b.numerator`. -/
theorem operator_sub_omits_cross_product :
    (Fraction.mk 1 2).operator_sub (Fraction.mk 1 3) 10 = Exec.value (Fraction.mk 1 3) ∧
    (Fraction.mk 1 3).operator_eq (Fraction.mk (1 * 3 - 1 * 2) (2 * 3)) = false ∧
    (Fraction.mk 1 3).operator_add (Fraction.mk 1 3) 10 = Exec.value (Fraction.mk 2 3) ∧
    (Fraction.mk 2 3).operator_eq (Fraction.mk 1 2) = false ∧
    (Fraction.mk 1 2).operator_add (Fraction.mk 1 3) 10 = Exec.value (Fraction.mk 5 6) ∧
    (∀ (a b : Fraction) (fuel : Nat),
      a._numerator * b._denominator - b._numerator ≠ 0 →
      a._denominator * b._denominator ≠ 0 →
      (a._numerator * b._denominator - b._numerator).natAbs
        + (a._denominator * b._denominator).natAbs ≤ fuel →
      ∃ r, a.operator_sub b fuel = Exec.value r ∧
        r.operator_eq (Fraction.mk (a._numerator * b._denominator - b._numerator)
          (a._denominator * b._denominator)) = true ∧
        (r.operator_eq (Fraction.mk
            (a._numerator * b._denominator - b._numerator * a._denominator)
            (a._denominator * b._denominator)) = true
          ↔ b._numerator * a._denominator = b._numerator)) := by
  refine ⟨by decide, by decide, by decide, by decide, by decide, ?_⟩
  intro a b fuel hn hd hfuel
  obtain ⟨r, hr, hcross, hrd⟩ := full_simplify_cross
    (Fraction.mk (a._numerator * b._denominator - b._numerator)
      (a._denominator * b._denominator)) hn hd fuel hfuel
  simp only at hcross
  refine ⟨r, hr, ?_, ?_⟩
  · simp only [operator_eq, decide_eq_true_eq]
    rw [hcross]; ring
  · simp only [operator_eq, decide_eq_true_eq]
    rw [hcross]
    constructor
    · intro h
      have h2 : (a._numerator * b._denominator - b._numerator) * r._denominator
          = (a._numerator * b._denominator - b._numerator * a._denominator)
            * r._denominator := by
        rw [h]; ring
      have h3 := Int.eq_of_mul_eq_mul_right hrd h2
      omega
    · intro h
      rw [h]; ring

/-- C34 (the code evaluated).  `simplify()` turns `-6/4` into `3` over `-2`.
Before it `-6/4 < 1/3` is `true`; after it `<` and `<=` against `1/3` are
`false`, while the rational number `-3/2` is less than `1/3`.  The operators
compare `a.numerator * b.denominator` with `b.numerator * a.denominator`: they
give the order of the rational numbers when the product of the two
denominators is positive, and the reverse order when it is negative. -/
theorem operator_lt_denominator_sign :
    (Fraction.mk (-6) 4).simplify 10 = Exec.value (Fraction.mk 3 (-2)) ∧
    (Fraction.mk (-6) 4).operator_lt (Fraction.mk 1 3) = true ∧
    (Fraction.mk 3 (-2)).operator_lt (Fraction.mk 1 3) = false ∧
    (Fraction.mk 3 (-2)).operator_le (Fraction.mk 1 3) = false ∧
    (Fraction.mk 3 (-2)).rational_value < (Fraction.mk 1 3).rational_value ∧
    (∀ a b : Fraction, 0 < a._denominator * b._denominator →
      (a.operator_lt b = true ↔ a.rational_value < b.rational_value) ∧
      (a.operator_le b = true ↔ a.rational_value ≤ b.rational_value)) ∧
    (∀ a b : Fraction, a._denominator * b._denominator < 0 →
      (a.operator_lt b = true ↔ b.rational_value < a.rational_value) ∧
      (a.operator_le b = true ↔ b.rational_value ≤ a.rational_value)) := by
  have key : ∀ a b : Fraction, a._denominator * b._denominator ≠ 0 →
      a.rational_value * ((a._denominator * b._denominator : Int) : ℚ)
        = ((a._numerator * b._denominator : Int) : ℚ) ∧
      b.rational_value * ((a._denominator * b._denominator : Int) : ℚ)
        = ((b._numerator * a._denominator : Int) : ℚ) := by
    intro a b h
    have ha : (a._denominator : ℚ) ≠ 0 := by
      intro h0
      have : a._denominator = 0 := by exact_mod_cast h0
      rw [this] at h; simp at h
    have hb : (b._denominator : ℚ) ≠ 0 := by
      intro h0
      have : b._denominator = 0 := by exact_mod_cast h0
      rw [this] at h; simp at h
    unfold rational_value
    push_cast
    constructor <;> field_simp <;> ring
  refine ⟨by decide, by decide, by decide, by decide, ?_, ?_, ?_⟩
  · unfold rational_value; norm_num
  · intro a b h
    obtain ⟨e1, e2⟩ := key a b (by omega)
    have hq : (0 : ℚ) < ((a._denominator * b._denominator : Int) : ℚ) := by exact_mod_cast h
    constructor
    · simp only [operator_lt, decide_eq_true_eq]
      rw [← mul_lt_mul_right hq, e1, e2]
      exact Int.cast_lt.symm
    · simp only [operator_le, decide_eq_true_eq]
      rw [← mul_le_mul_right hq, e1, e2]
      exact Int.cast_le.symm
  · intro a b h
    obtain ⟨e1, e2⟩ := key a b (by omega)
    have hq : ((a._denominator * b._denominator : Int) : ℚ) < 0 := by exact_mod_cast h
    constructor
    · simp only [operator_lt, decide_eq_true_eq]
      rw [← mul_lt_mul_right_of_neg hq, e1, e2]
      exact Int.cast_lt.symm
    · simp only [operator_le, decide_eq_true_eq]
      rw [← mul_le_mul_right_of_neg hq, e1, e2]
      exact Int.cast_le.symm

end Fraction

/-! ## Lemmas and claims on `FixedPoint` -/

theorem nat_split (i d F : Nat) (hd : d < 2 ^ F) :
    (i * 2 ^ F + d) / 2 ^ F = i ∧ (i * 2 ^ F + d) % 2 ^ F = d := by
  have hpos : 0 < 2 ^ F := Nat.two_pow_pos _
  constructor
  · rw [Nat.add_comm, Nat.add_mul_div_right _ _ hpos, Nat.div_eq_of_lt hd, Nat.zero_add]
  · rw [Nat.add_comm, Nat.add_mul_mod_self_right, Nat.mod_eq_of_lt hd]

theorem int_lor_cast (a b : Nat) : Int.lor (a : Int) (b : Int) = ((a ||| b : Nat) : Int) := rfl

theorem int_land_cast (a b : Nat) : Int.land (a : Int) (b : Int) = ((a &&& b : Nat) : Int) := rfl

theorem lor_shift (i d F : Nat) (hd : d < 2 ^ F) :
    Int.lor (d : Int) (shift_left (i : Int) F) = ((i * 2 ^ F + d : Nat) : Int) := by
  have e : shift_left (i : Int) F = ((i * 2 ^ F : Nat) : Int) := by
    unfold shift_left; push_cast; rfl
  rw [e, int_lor_cast]
  congr 1
  rw [Nat.lor_comm, Nat.mul_comm, ← Nat.mul_add_lt_is_or hd]

theorem land_mask (m F : Nat) :
    Int.land (m : Int) (shift_left 1 F - 1) = ((m % 2 ^ F : Nat) : Int) := by
  have hpos : 0 < 2 ^ F := Nat.two_pow_pos _
  have e : shift_left 1 F - 1 = ((2 ^ F - 1 : Nat) : Int) := by
    unfold shift_left
    rw [Nat.cast_sub hpos]
    push_cast
    ring
  rw [e, int_land_cast, Nat.and_pow_two_sub_one_eq_mod]

theorem shift_right_cast (m F : Nat) : (m : Int) >>> F = ((m / 2 ^ F : Nat) : Int) := by
  rw [Int.shiftRight_eq_div_pow]
  rfl

namespace IntegerType

theorem convert_nat (T : IntegerType) (n : Nat) (h : n < 2 ^ T.digits) :
    T.convert (n : Int) = n := by
  have hz : (n : Int) < 2 ^ T.digits := by exact_mod_cast h
  unfold convert
  split
  · have e : ((n : Int) + 2 ^ T.digits) % 2 ^ (T.digits + 1) = (n : Int) + 2 ^ T.digits := by
      apply Int.emod_eq_of_lt
      · positivity
      · rw [pow_succ]; linarith
    rw [e]; ring
  · exact Int.emod_eq_of_lt (Int.ofNat_nonneg n) hz

theorem convert_neg (T : IntegerType) (hT : T.is_signed = true) (n : Nat)
    (h : n < 2 ^ T.digits) : T.convert (-(n : Int)) = -(n : Int) := by
  have hz : (n : Int) < 2 ^ T.digits := by exact_mod_cast h
  unfold convert
  rw [if_pos hT]
  have e : (-(n : Int) + 2 ^ T.digits) % 2 ^ (T.digits + 1) = -(n : Int) + 2 ^ T.digits := by
    apply Int.emod_eq_of_lt
    · linarith
    · rw [pow_succ]
      have := Int.ofNat_nonneg n
      linarith
  rw [e]; ring

end IntegerType

namespace FixedPoint
variable {T : IntegerType} {IntegerBits FractionalBits : Nat}

/-- The content the component constructor leaves. -/
theorem component_ctor_content (i d : Nat) (s : Bool) (hd : d < 2 ^ FractionalBits)
    (hv : i * 2 ^ FractionalBits + d < 2 ^ T.digits) (hs : s = true → T.is_signed = true) :
    (component_ctor (i : Int) (d : Int) s : FixedPoint T IntegerBits FractionalBits)._content
      = if s then -((i * 2 ^ FractionalBits + d : Nat) : Int)
        else ((i * 2 ^ FractionalBits + d : Nat) : Int) := by
  have hpos : 0 < 2 ^ FractionalBits := Nat.two_pow_pos _
  have hi : i < 2 ^ T.digits := by
    have := Nat.le_mul_of_pos_right i hpos
    omega
  have hd2 : d < 2 ^ T.digits := by omega
  unfold component_ctor
  simp only
  rw [T.convert_nat d hd2, T.convert_nat i hi, lor_shift i d _ hd, T.convert_nat _ hv]
  cases s with
  | false => simp
  | true =>
    simp only [if_true]
    rw [show ((i * 2 ^ FractionalBits + d : Nat) : Int) * -1
      = -((i * 2 ^ FractionalBits + d : Nat) : Int) by ring]
    exact T.convert_neg (hs rfl) _ hv

/-- The mask `(1 << n) - 1` has a value when `n < 31`. -/
theorem int_one_shift_left_of_lt {n : Nat} (h : n < 31) :
    int_one_shift_left n = some (shift_left 1 n) := by
  unfold int_one_shift_left
  rw [if_pos h]

/-- The call `_d()` has no result when `FractionalBits ≥ 31`. -/
theorem d_undefined (x : FixedPoint T IntegerBits FractionalBits) (h : 31 ≤ FractionalBits) :
    x._d = none := by
  have e : int_one_shift_left FractionalBits = none := by
    unfold int_one_shift_left
    exact if_neg (by omega)
  unfold _d
  rw [e]
  rfl

/-- The integer and fractional portions of an object whose magnitude is `m`. -/
theorem portions_of_magnitude (x : FixedPoint T IntegerBits FractionalBits) (m : Nat)
    (h : x._content = (m : Int) ∨ x._content = -(m : Int)) (hm : m < 2 ^ T.digits) :
    x._i = ((m / 2 ^ FractionalBits : Nat) : Int) ∧
    (FractionalBits < 31 → x._d = some ((m % 2 ^ FractionalBits : Nat) : Int)) := by
  have habs : (if x._content ≥ 0 then x._content else -x._content) = (m : Int) := by
    have hm0 := Int.ofNat_nonneg m
    rcases h with h | h
    · rw [h, if_pos (by simp)]
    · rw [h]
      split
      · omega
      · simp
  have hpos : 0 < 2 ^ FractionalBits := Nat.two_pow_pos _
  constructor
  · unfold _i
    rw [habs, shift_right_cast]
    exact T.convert_nat _ (lt_of_le_of_lt (Nat.div_le_self _ _) hm)
  · intro hF
    unfold _d
    rw [int_one_shift_left_of_lt hF, Option.map_some', habs, land_mask]
    rw [T.convert_nat _ (lt_of_le_of_lt (Nat.mod_le _ _) hm)]

/-- Two objects with the same magnitude have the same fractional portion. -/
theorem d_eq_of_magnitude (x y : FixedPoint T IntegerBits FractionalBits)
    (h : (if x._content ≥ 0 then x._content else -x._content)
      = (if y._content ≥ 0 then y._content else -y._content)) : x._d = y._d := by
  unfold _d
  rw [h]

/-- The magnitude of a well-formed content is a value of the type, and a
negative content needs a signed type. -/
theorem wf_magnitude (x : FixedPoint T IntegerBits FractionalBits) (hx : x.wf) :
    x._content.natAbs < 2 ^ T.digits ∧ (x._content < 0 → T.is_signed = true) := by
  unfold wf at hx
  obtain ⟨h1, h2⟩ := hx
  have hp : (0 : Int) < 2 ^ T.digits := by positivity
  constructor
  · have h : ((x._content.natAbs : Nat) : Int) < 2 ^ T.digits := by
      split at h1 <;> omega
    exact_mod_cast h
  · intro hc
    by_contra hT
    rw [if_neg hT] at h1
    omega

/-- The round trip of the component constructor through the accessors when the
mask of `_d()` has a value. -/
theorem component_ctor_accessors (hT : T.is_signed = true)
    (hbits : IntegerBits + FractionalBits ≤ T.digits) (hF : FractionalBits < 31)
    (i d : Int) (s : Bool)
    (hi0 : 0 ≤ i) (hi : i < 2 ^ IntegerBits) (hd0 : 0 ≤ d) (hd : d < 2 ^ FractionalBits) :
    (component_ctor i d s : FixedPoint T IntegerBits FractionalBits).i = i ∧
    (component_ctor i d s : FixedPoint T IntegerBits FractionalBits).d = some d ∧
    ((i, d) ≠ (0, 0) →
      (component_ctor i d s : FixedPoint T IntegerBits FractionalBits).s = s) := by
  obtain ⟨ni, rfl⟩ := Int.eq_ofNat_of_zero_le hi0
  obtain ⟨nd, rfl⟩ := Int.eq_ofNat_of_zero_le hd0
  have hni : ni < 2 ^ IntegerBits := by exact_mod_cast hi
  have hnd : nd < 2 ^ FractionalBits := by exact_mod_cast hd
  have hv : ni * 2 ^ FractionalBits + nd < 2 ^ T.digits := by
    have h1 : (ni + 1) * 2 ^ FractionalBits ≤ 2 ^ IntegerBits * 2 ^ FractionalBits :=
      Nat.mul_le_mul_right _ hni
    have h2 : 2 ^ IntegerBits * 2 ^ FractionalBits ≤ 2 ^ T.digits := by
      rw [← pow_add]; exact Nat.pow_le_pow_right (by norm_num) hbits
    rw [Nat.add_mul, Nat.one_mul] at h1
    omega
  have hc := @component_ctor_content T IntegerBits FractionalBits ni nd s hnd hv
    (fun _ => hT)
  have hmag : (component_ctor (ni : Int) (nd : Int) s :
      FixedPoint T IntegerBits FractionalBits)._content
        = ((ni * 2 ^ FractionalBits + nd : Nat) : Int) ∨
      (component_ctor (ni : Int) (nd : Int) s :
      FixedPoint T IntegerBits FractionalBits)._content
        = -((ni * 2 ^ FractionalBits + nd : Nat) : Int) := by
    rw [hc]; cases s <;> simp
  obtain ⟨h1, h2⟩ := portions_of_magnitude _ _ hmag hv
  obtain ⟨e1, e2⟩ := nat_split ni nd FractionalBits hnd
  refine ⟨?_, ?_, ?_⟩
  · unfold FixedPoint.i; rw [h1, e1]
  · unfold FixedPoint.d; rw [h2 hF, e2]
  · intro hne
    have hvpos : 0 < ni * 2 ^ FractionalBits + nd := by
      rcases Nat.eq_zero_or_pos nd with h0 | h0
      · rcases Nat.eq_zero_or_pos ni with h00 | h00
        · exact absurd (by rw [h0, h00]; rfl) hne
        · have := Nat.mul_pos h00 (Nat.two_pow_pos FractionalBits)
          omega
      · omega
    unfold FixedPoint.s _negative
    rw [hc, hT]
    cases s with
    | false =>
      simp only [Bool.true_and, Bool.false_eq_true, if_false, decide_eq_false_iff_not, not_lt]
      exact Int.ofNat_nonneg _
    | true =>
      simp only [Bool.true_and, if_true, decide_eq_true_eq]
      omega

/-- C24 (the code evaluated).  Over `long long` (63 value bits) in the format
`<23, 40>`, which is within the value bits, the object `FixedPoint(1, 1, false)`
has `i() = 1`, and its `d()` has no result: `_d()` computes its mask as
`(1 << 40) - 1` on the `int` literal `1`.  The same holds for every type and
every format with 31 or more fractional bits.  Over `signed char` in the
format `<4, 3>`, `FixedPoint(5, 3, true)` has the content `-43`, `i() = 5`,
`d() = 3` and `s() = true`; and for every signed type, every format within its
value bits with fewer than 31 fractional bits, all `0 ≤ i < 2 ^ IntegerBits`
and `0 ≤ d < 2 ^ FractionalBits` and every flag `s`, the object
`FixedPoint(i, d, s)` has `i() = i` and `d() = d`, and `s() = s` unless `i` and
`d` are both `0`. -/
theorem component_ctor_round_trip :
    23 + 40 ≤ (IntegerType.mk true 63).digits ∧
    (component_ctor 1 1 false : FixedPoint (IntegerType.mk true 63) 23 40).i = 1 ∧
    (component_ctor 1 1 false : FixedPoint (IntegerType.mk true 63) 23 40).d = none ∧
    (∀ (T : IntegerType) (I F : Nat) (x : FixedPoint T I F), 31 ≤ F → x.d = none) ∧
    (component_ctor 5 3 true : FixedPoint (IntegerType.mk true 7) 4 3)
      = FixedPoint.mk (-43) ∧
    (component_ctor 5 3 true : FixedPoint (IntegerType.mk true 7) 4 3).i = 5 ∧
    (component_ctor 5 3 true : FixedPoint (IntegerType.mk true 7) 4 3).d = some 3 ∧
    (component_ctor 5 3 true : FixedPoint (IntegerType.mk true 7) 4 3).s = true ∧
    (∀ (T : IntegerType) (I F : Nat), T.is_signed = true → I + F ≤ T.digits → F < 31 →
      ∀ (i d : Int) (s : Bool), 0 ≤ i → i < 2 ^ I → 0 ≤ d → d < 2 ^ F →
        (component_ctor i d s : FixedPoint T I F).i = i ∧
        (component_ctor i d s : FixedPoint T I F).d = some d ∧
        ((i, d) ≠ (0, 0) → (component_ctor i d s : FixedPoint T I F).s = s)) := by
  refine ⟨by decide, ?_, ?_, ?_, by decide, by decide, by decide, by decide, ?_⟩
  · have hc := @component_ctor_content (IntegerType.mk true 63) 23 40 1 1 false
      (by norm_num) (by norm_num) (fun h => absurd h (by decide))
    have hmag : (component_ctor ((1 : Nat) : Int) ((1 : Nat) : Int) false :
        FixedPoint (IntegerType.mk true 63) 23 40)._content
          = ((1 * 2 ^ 40 + 1 : Nat) : Int) ∨
        (component_ctor ((1 : Nat) : Int) ((1 : Nat) : Int) false :
        FixedPoint (IntegerType.mk true 63) 23 40)._content
          = -((1 * 2 ^ 40 + 1 : Nat) : Int) := by
      rw [hc]; simp
    obtain ⟨h1, _⟩ := portions_of_magnitude _ _ hmag (by norm_num)
    obtain ⟨e1, _⟩ := nat_split 1 1 40 (by norm_num)
    show (component_ctor ((1 : Nat) : Int) ((1 : Nat) : Int) false :
      FixedPoint (IntegerType.mk true 63) 23 40)._i = ((1 : Nat) : Int)
    rw [h1, e1]
  · exact d_undefined _ (by decide)
  · intro T I F x h
    exact d_undefined x h
  · intro T I F hT hbits hF i d s hi0 hi hd0 hd
    exact component_ctor_accessors hT hbits hF i d s hi0 hi hd0 hd

/-- The bitwise or of `-4` and `1` in two's complement is `-3`. -/
theorem lor_neg_four_one : Int.lor (-4) 1 = -3 := by
  show Int.lor (Int.negSucc 3) ((1 : Nat) : Int) = Int.negSucc 2
  simp only [Int.lor]
  norm_num [Nat.ldiff, Nat.bitwise]

/-- The setter `i(2)` on the content `-3` of a `signed char` value with one
fractional bit leaves the content `-3`. -/
theorem i_set_neg_three :
    (FixedPoint.mk (-3) : FixedPoint (IntegerType.mk true 7) 6 1).i_set 2
      = some (FixedPoint.mk (-3)) := by
  have h1 : (FixedPoint.mk (-3) : FixedPoint (IntegerType.mk true 7) 6 1)._negative = true := by
    decide
  have h2 : (FixedPoint.mk (-3) : FixedPoint (IntegerType.mk true 7) 6 1)._d = some 1 := by
    decide
  have h3 : (((if true = true then 1 else 0) * -2) + 1)
      * shift_left ((IntegerType.mk true 7).convert 2) 1 = (-4 : Int) := by decide
  have h4 : (IntegerType.mk true 7).convert (-3) = -3 := by decide
  unfold i_set
  rw [h1, h2, Option.map_some', h3, lor_neg_four_one, h4]

/-- C25 (the code evaluated).  Over `signed char` with 6 integer bits and one
fractional bit, let `x` have the content `-3`, so that `x` is negative with
`i() = 1` and `d() = 1`.  After `x.i(2)` the content is still `-3` and `i()` is
`1`, not `2`: the setter computes `(-(2 << 1)) | 1`, the negation being applied
before the fractional bits are put in.  On the content `3` the same call gives
the content `5`, with `i() = 2` and `d() = 1`. -/
theorem i_set_negative_fraction :
    (FixedPoint.mk (-3) : FixedPoint (IntegerType.mk true 7) 6 1).wf ∧
    (FixedPoint.mk (-3) : FixedPoint (IntegerType.mk true 7) 6 1).i = 1 ∧
    (FixedPoint.mk (-3) : FixedPoint (IntegerType.mk true 7) 6 1).d = some 1 ∧
    (FixedPoint.mk (-3) : FixedPoint (IntegerType.mk true 7) 6 1).s = true ∧
    (FixedPoint.mk (-3) : FixedPoint (IntegerType.mk true 7) 6 1).i_set 2
      = some (FixedPoint.mk (-3)) ∧
    ((FixedPoint.mk (-3) : FixedPoint (IntegerType.mk true 7) 6 1).i_set 2).map FixedPoint.i
      = some 1 ∧
    (FixedPoint.mk 3 : FixedPoint (IntegerType.mk true 7) 6 1).i_set 2
      = some (FixedPoint.mk 5) ∧
    ((FixedPoint.mk 3 : FixedPoint (IntegerType.mk true 7) 6 1).i_set 2).map FixedPoint.i
      = some 2 ∧
    ((FixedPoint.mk 3 : FixedPoint (IntegerType.mk true 7) 6 1).i_set 2).bind FixedPoint.d
      = some 1 :=
  ⟨by decide, by decide, by decide, by decide, i_set_neg_three,
    by rw [i_set_neg_three]; decide, by decide, by decide, by decide⟩

end FixedPoint

namespace FixedPoint
variable {T : IntegerType} {IntegerBits FractionalBits : Nat}

/-- The content `convert<I2, F2>()` leaves, in terms of the magnitude of the
receiver, when the mask of `_d()` has a value: the integer portion is kept, the
fractional portion is shifted right when the target has fewer fractional bits
and left when it has more. -/
theorem convert_content (x : FixedPoint T IntegerBits FractionalBits) (hx : x.wf)
    (I2 F2 : Nat) (hF : FractionalBits < 31) (hF2 : F2 < 128) (d2 : Nat)
    (hd2 : d2 = if F2 ≤ FractionalBits
      then x._content.natAbs % 2 ^ FractionalBits / 2 ^ (FractionalBits - F2)
      else x._content.natAbs % 2 ^ FractionalBits * 2 ^ (F2 - FractionalBits))
    (hlt : d2 < 2 ^ F2)
    (hfit : x._content.natAbs / 2 ^ FractionalBits * 2 ^ F2 + d2 < 2 ^ T.digits) :
    ∃ y, x.convert I2 F2 = some y ∧
      y._content = if x._content < 0
        then -((x._content.natAbs / 2 ^ FractionalBits * 2 ^ F2 + d2 : Nat) : Int)
        else ((x._content.natAbs / 2 ^ FractionalBits * 2 ^ F2 + d2 : Nat) : Int) := by
  obtain ⟨hm, hs⟩ := wf_magnitude x hx
  have habs : x._content = (x._content.natAbs : Int) ∨ x._content = -(x._content.natAbs : Int) :=
    Int.natAbs_eq x._content
  obtain ⟨hi, hd⟩ := portions_of_magnitude x _ habs hm
  have hd := hd hF
  have e1 : scount_type (x.d_size : Int) = FractionalBits := by
    unfold d_size
    rw [FixedDecimal.count_type_of_lt (by omega)]
    exact scount_type_of_range (by omega) (by omega)
  have e2 : scount_type (count_type (F2 : Int) : Int) = F2 := by
    rw [FixedDecimal.count_type_of_lt (by omega)]
    exact scount_type_of_range (by omega) (by omega)
  have e3 : scount_type ((FractionalBits : Int) - (F2 : Int)) = (FractionalBits : Int) - F2 :=
    scount_type_of_range (by omega) (by omega)
  have hsign : (decide (x._content < 0) = true → T.is_signed = true) := by
    intro h; exact hs (by simpa using h)
  unfold convert
  simp only [e1, e2, e3, hi, hd, Option.map_some']
  by_cases h : F2 ≤ FractionalBits
  · rw [if_pos (by omega)]
    have e4 : count_type ((FractionalBits : Int) - F2) = FractionalBits - F2 := by
      rw [show (FractionalBits : Int) - F2 = ((FractionalBits - F2 : Nat) : Int) by omega]
      exact FixedDecimal.count_type_of_lt (by omega)
    rw [if_pos h] at hd2
    refine ⟨_, rfl, ?_⟩
    rw [e4, shift_right_cast, ← hd2, component_ctor_content _ _ _ hlt hfit hsign]
    simp
  · rw [if_neg (by omega)]
    have e4 : count_type (-((FractionalBits : Int) - F2)) = F2 - FractionalBits := by
      rw [show -((FractionalBits : Int) - F2) = ((F2 - FractionalBits : Nat) : Int) by omega]
      exact FixedDecimal.count_type_of_lt (by omega)
    have e5 : shift_left ((x._content.natAbs % 2 ^ FractionalBits : Nat) : Int)
        (F2 - FractionalBits)
        = ((x._content.natAbs % 2 ^ FractionalBits * 2 ^ (F2 - FractionalBits) : Nat) : Int) := by
      unfold shift_left; push_cast; rfl
    rw [if_neg h] at hd2
    refine ⟨_, rfl, ?_⟩
    rw [e4, e5, ← hd2, component_ctor_content _ _ _ hlt hfit hsign]
    simp

/-- The call `convert<I2, F2>()` has no result when the receiver has 31 or more
fractional bits. -/
theorem convert_undefined (x : FixedPoint T IntegerBits FractionalBits) (I2 F2 : Nat)
    (h : 31 ≤ FractionalBits) : x.convert I2 F2 = none := by
  unfold convert
  simp only [d_undefined x h, Option.map_none']
  split <;> rfl

set_option maxHeartbeats 1000000 in
/-- What `convert<I2, F2>()` to a format with at least as many fractional bits
preserves, when the masks of `_d()` have a value in both formats. -/
theorem convert_widen_spec (x : FixedPoint T IntegerBits FractionalBits) (hx : x.wf)
    (I2 F2 : Nat) (hF : FractionalBits ≤ F2) (hF2 : F2 < 31) (hbits : I2 + F2 ≤ T.digits)
    (hint : x.i < 2 ^ I2) :
    ∃ y d z, x.convert I2 F2 = some y ∧ y.i = x.i ∧
      x.d = some d ∧ y.d = some (d * 2 ^ (F2 - FractionalBits)) ∧ y.s = x.s ∧
      y.convert IntegerBits FractionalBits = some z ∧ z._content = x._content := by
  obtain ⟨hm, hs⟩ := wf_magnitude x hx
  have habs : x._content = (x._content.natAbs : Int) ∨ x._content = -(x._content.natAbs : Int) :=
    Int.natAbs_eq x._content
  obtain ⟨hi, hd⟩ := portions_of_magnitude x _ habs hm
  have hd := hd (by omega)
  have hpF : 0 < 2 ^ FractionalBits := Nat.two_pow_pos _
  have hpk : 0 < 2 ^ (F2 - FractionalBits) := Nat.two_pow_pos _
  have hpow : 2 ^ F2 = 2 ^ FractionalBits * 2 ^ (F2 - FractionalBits) := by
    rw [← pow_add]; congr 1; omega
  have hdlt : x._content.natAbs % 2 ^ FractionalBits < 2 ^ FractionalBits :=
    Nat.mod_lt _ hpF
  have hlt : x._content.natAbs % 2 ^ FractionalBits * 2 ^ (F2 - FractionalBits) < 2 ^ F2 := by
    rw [hpow]; exact Nat.mul_lt_mul_of_pos_right hdlt hpk
  have hilt : x._content.natAbs / 2 ^ FractionalBits < 2 ^ I2 := by
    unfold FixedPoint.i at hint
    rw [hi] at hint
    exact_mod_cast hint
  have hfit : x._content.natAbs / 2 ^ FractionalBits * 2 ^ F2
      + x._content.natAbs % 2 ^ FractionalBits * 2 ^ (F2 - FractionalBits) < 2 ^ T.digits := by
    have h1 : (x._content.natAbs / 2 ^ FractionalBits + 1) * 2 ^ F2 ≤ 2 ^ I2 * 2 ^ F2 :=
      Nat.mul_le_mul_right _ hilt
    have h2 : 2 ^ I2 * 2 ^ F2 ≤ 2 ^ T.digits := by
      rw [← pow_add]; exact Nat.pow_le_pow_right (by norm_num) hbits
    rw [Nat.add_mul, Nat.one_mul] at h1
    omega
  have hd2 : x._content.natAbs % 2 ^ FractionalBits * 2 ^ (F2 - FractionalBits)
      = if F2 ≤ FractionalBits
        then x._content.natAbs % 2 ^ FractionalBits / 2 ^ (FractionalBits - F2)
        else x._content.natAbs % 2 ^ FractionalBits * 2 ^ (F2 - FractionalBits) := by
    split
    · rw [show F2 - FractionalBits = 0 by omega, show FractionalBits - F2 = 0 by omega]
      simp
    · rfl
  obtain ⟨y, hy, hc⟩ := convert_content x hx I2 F2 (by omega) (by omega) _ hd2 hlt hfit
  obtain ⟨s1, s2⟩ := nat_split (x._content.natAbs / 2 ^ FractionalBits) _ F2 hlt
  have hmag : y._content
      = ((x._content.natAbs / 2 ^ FractionalBits * 2 ^ F2
          + x._content.natAbs % 2 ^ FractionalBits * 2 ^ (F2 - FractionalBits) : Nat) : Int) ∨
      y._content
      = -((x._content.natAbs / 2 ^ FractionalBits * 2 ^ F2
          + x._content.natAbs % 2 ^ FractionalBits * 2 ^ (F2 - FractionalBits) : Nat) : Int) := by
    rw [hc]; split
    · exact Or.inr rfl
    · exact Or.inl rfl
  obtain ⟨yi, yd⟩ := portions_of_magnitude y _ hmag hfit
  have yd := yd hF2
  rw [s1] at yi
  rw [s2] at yd
  have hneg : y._content < 0 ↔ x._content < 0 := by
    rw [hc]
    constructor
    · intro h
      by_contra hn
      rw [if_neg hn] at h
      omega
    · intro h
      rw [if_pos h]
      have h0 : 0 < x._content.natAbs := by omega
      have h1 : 0 < x._content.natAbs / 2 ^ FractionalBits * 2 ^ F2
          + x._content.natAbs % 2 ^ FractionalBits * 2 ^ (F2 - FractionalBits) := by
        by_contra hz
        have hz0 : x._content.natAbs / 2 ^ FractionalBits * 2 ^ F2
          + x._content.natAbs % 2 ^ FractionalBits * 2 ^ (F2 - FractionalBits) = 0 := by omega
        have a1 : x._content.natAbs / 2 ^ FractionalBits = 0 := by
          rw [← s1, hz0]; simp
        have a2 : x._content.natAbs % 2 ^ FractionalBits = 0 := by
          have : x._content.natAbs % 2 ^ FractionalBits * 2 ^ (F2 - FractionalBits) = 0 := by
            omega
          rcases Nat.mul_eq_zero.mp this with h | h
          · exact h
          · omega
        have := Nat.div_add_mod x._content.natAbs (2 ^ FractionalBits)
        rw [a1, a2] at this
        omega
      omega
  have hM : ((x._content.natAbs / 2 ^ FractionalBits * 2 ^ F2
      + x._content.natAbs % 2 ^ FractionalBits * 2 ^ (F2 - FractionalBits) : Nat) : Int)
      < 2 ^ T.digits := by exact_mod_cast hfit
  have hyw : y.wf := by
    unfold wf
    constructor
    · split
      · rcases hmag with h | h <;> rw [h] <;> omega
      · rename_i hT
        have hx0 : ¬ x._content < 0 := fun h => hT (hs h)
        rw [hc, if_neg hx0]
        omega
    · rcases hmag with h | h <;> rw [h] <;> omega
  have ynat : y._content.natAbs
      = x._content.natAbs / 2 ^ FractionalBits * 2 ^ F2
        + x._content.natAbs % 2 ^ FractionalBits * 2 ^ (F2 - FractionalBits) := by
    rcases hmag with h | h
    · rw [h]; exact Int.natAbs_ofNat _
    · rw [h, Int.natAbs_neg]; exact Int.natAbs_ofNat _
  have hsplit := Nat.div_add_mod x._content.natAbs (2 ^ FractionalBits)
  obtain ⟨z, hz, hback⟩ := convert_content y hyw IntegerBits FractionalBits hF2 (by omega)
    (x._content.natAbs % 2 ^ FractionalBits)
    (by rw [if_pos hF, ynat, s2, Nat.mul_div_cancel _ hpk])
    hdlt
    (by rw [ynat, s1, Nat.mul_comm]; omega)
  refine ⟨y, ((x._content.natAbs % 2 ^ FractionalBits : Nat) : Int), z, hy, ?_, ?_, ?_, ?_, hz,
    ?_⟩
  · unfold FixedPoint.i; rw [yi, hi]
  · unfold FixedPoint.d; exact hd
  · unfold FixedPoint.d; rw [yd]; push_cast; rfl
  · unfold FixedPoint.s _negative
    rw [decide_eq_decide.mpr hneg]
  · rw [hback, ynat, s1]
    have e : ((x._content.natAbs / 2 ^ FractionalBits * 2 ^ FractionalBits
        + x._content.natAbs % 2 ^ FractionalBits : Nat) : Int) = (x._content.natAbs : Int) := by
      congr 1
      rw [Nat.mul_comm]; exact hsplit
    rw [e]
    by_cases hn : x._content < 0
    · rw [if_pos (hneg.mpr hn)]; omega
    · rw [if_neg (fun h => hn (hneg.mp h))]; omega

/-- C26 (the code evaluated).  Over a 64-bit unsigned type in the format
`<32, 32>`, the shipped `fp32_32`, the object with the content `5` has no
`d()`, and `convert<32, 32>()` and `convert<16, 48>()` have no result: `_d()`
computes its mask as `(1 << 32) - 1` on the `int` literal `1`.  The same holds
for every type and every format with 31 or more fractional bits.  Over
`signed char`, the content `-11` in the format `<2, 2>` converts to the content
`-44` in the format `<3, 4>` and back to `-11`; and for every type, every
well-formed `x` in a format `<I, F>` and every target format `<I2, F2>` with
`F ≤ F2 < 31`, `I2 + F2` within the value bits and `x.i() < 2 ^ I2`, the call
`x.convert<I2, F2>()` returns an object with the integer portion of `x`, the
fractional portion `x.d() * 2 ^ (F2 - F)` and the sign of `x`, and converting
it back with `convert<I, F>()` returns the raw content of `x`. -/
theorem convert_preserves :
    32 + 32 ≤ (IntegerType.mk false 64).digits ∧
    (FixedPoint.mk 5 : FixedPoint (IntegerType.mk false 64) 32 32).d = none ∧
    (FixedPoint.mk 5 : FixedPoint (IntegerType.mk false 64) 32 32).convert 32 32 = none ∧
    (FixedPoint.mk 5 : FixedPoint (IntegerType.mk false 64) 32 32).convert 16 48 = none ∧
    (∀ (T : IntegerType) (I F : Nat) (x : FixedPoint T I F) (I2 F2 : Nat), 31 ≤ F →
      x.d = none ∧ x.convert I2 F2 = none) ∧
    (FixedPoint.mk (-11) : FixedPoint (IntegerType.mk true 7) 2 2).wf ∧
    (FixedPoint.mk (-11) : FixedPoint (IntegerType.mk true 7) 2 2).i = 2 ∧
    (FixedPoint.mk (-11) : FixedPoint (IntegerType.mk true 7) 2 2).d = some 3 ∧
    (FixedPoint.mk (-11) : FixedPoint (IntegerType.mk true 7) 2 2).convert 3 4
      = some (FixedPoint.mk (-44)) ∧
    (FixedPoint.mk (-44) : FixedPoint (IntegerType.mk true 7) 3 4).i = 2 ∧
    (FixedPoint.mk (-44) : FixedPoint (IntegerType.mk true 7) 3 4).d = some 12 ∧
    (FixedPoint.mk (-44) : FixedPoint (IntegerType.mk true 7) 3 4).convert 2 2
      = some (FixedPoint.mk (-11)) ∧
    (∀ (T : IntegerType) (I F : Nat) (x : FixedPoint T I F), x.wf →
      ∀ I2 F2 : Nat, F ≤ F2 → F2 < 31 → I2 + F2 ≤ T.digits → x.i < 2 ^ I2 →
      ∃ y d z, x.convert I2 F2 = some y ∧ y.i = x.i ∧
        x.d = some d ∧ y.d = some (d * 2 ^ (F2 - F)) ∧ y.s = x.s ∧
        y.convert I F = some z ∧ z._content = x._content) := by
  refine ⟨by decide, ?_, ?_, ?_, ?_, by decide, by decide, by decide, by decide, by decide,
    by decide, by decide, ?_⟩
  · exact d_undefined _ (by decide)
  · exact convert_undefined _ _ _ (by decide)
  · exact convert_undefined _ _ _ (by decide)
  · intro T I F x I2 F2 h
    exact ⟨d_undefined x h, convert_undefined x I2 F2 h⟩
  · intro T I F x hx I2 F2 hF hF2 hbits hint
    exact convert_widen_spec x hx I2 F2 hF hF2 hbits hint

end FixedPoint

/-! ## The claim on the sign setter of `FixedPoint` -/

namespace FixedPoint
variable {T : IntegerType} {IntegerBits FractionalBits : Nat}

/-- A value of a signed type whose magnitude is a value of the type is not
changed by its conversion to the type. -/
theorem convert_of_magnitude (hT : T.is_signed = true) (n : Int)
    (h : n.natAbs < 2 ^ T.digits) : T.convert n = n := by
  rcases Int.natAbs_eq n with e | e
  · rw [e]; exact T.convert_nat _ h
  · rw [e]; exact T.convert_neg hT _ h

/-- The content the setter `s(s_value)` leaves in an object of a signed type:
the content when the flag differs from the sign of the content, and the
negated content when the flag is that sign. -/
theorem s_set_content (hT : T.is_signed = true) (x : FixedPoint T IntegerBits FractionalBits)
    (hx : x.wf) (v : Bool) :
    (x.s_set v)._content
      = if xor v (decide (x._content < 0)) then x._content else -x._content := by
  obtain ⟨hm, _⟩ := wf_magnitude x hx
  unfold s_set
  simp only
  split
  · exact convert_of_magnitude hT _ hm
  · exact convert_of_magnitude hT _ (by rw [Int.natAbs_neg]; exact hm)

/-- C35 (the code evaluated).  Over `signed char` in the format `<4, 3>`, on the
content `5` (positive), `s(false)` leaves the content `-5` and `s()` is then
`true`, and `s(true)` leaves the content `5` and `s()` is then `false`.  For
every signed type and every well-formed object with a content other than `0`,
after `s(v)` the getter `s()` returns the negation of `v`, while `i()` and
`d()` are unchanged: the setter keeps the content when the flag differs from
the sign and negates it when the flag is the sign. -/
theorem s_set_inverts_sign :
    (FixedPoint.mk 5 : FixedPoint (IntegerType.mk true 7) 4 3).wf ∧
    (FixedPoint.mk 5 : FixedPoint (IntegerType.mk true 7) 4 3).s = false ∧
    (FixedPoint.mk 5 : FixedPoint (IntegerType.mk true 7) 4 3).s_set false
      = FixedPoint.mk (-5) ∧
    ((FixedPoint.mk 5 : FixedPoint (IntegerType.mk true 7) 4 3).s_set false).s = true ∧
    (FixedPoint.mk 5 : FixedPoint (IntegerType.mk true 7) 4 3).s_set true
      = FixedPoint.mk 5 ∧
    ((FixedPoint.mk 5 : FixedPoint (IntegerType.mk true 7) 4 3).s_set true).s = false ∧
    (FixedPoint.mk (-5) : FixedPoint (IntegerType.mk true 7) 4 3).s_set true
      = FixedPoint.mk 5 ∧
    (∀ (T : IntegerType) (I F : Nat) (x : FixedPoint T I F) (v : Bool),
      T.is_signed = true → x.wf → x._content ≠ 0 →
        (x.s_set v).s = (!v) ∧ (x.s_set v).i = x.i ∧ (x.s_set v).d = x.d) := by
  refine ⟨by decide, by decide, by decide, by decide, by decide, by decide, by decide, ?_⟩
  intro T I F x v hT hx h0
  obtain ⟨hm, _⟩ := wf_magnitude x hx
  have hc := s_set_content hT x hx v
  have habs : x._content = (x._content.natAbs : Int) ∨ x._content = -(x._content.natAbs : Int) :=
    Int.natAbs_eq x._content
  have habs2 : (x.s_set v)._content = (x._content.natAbs : Int) ∨
      (x.s_set v)._content = -(x._content.natAbs : Int) := by
    rw [hc]
    split <;> omega
  obtain ⟨i1, _⟩ := portions_of_magnitude x _ habs hm
  obtain ⟨i2, _⟩ := portions_of_magnitude (x.s_set v) _ habs2 hm
  refine ⟨?_, ?_, ?_⟩
  · unfold FixedPoint.s _negative
    rw [hT, hc]
    cases v <;> by_cases hn : x._content < 0 <;> simp [hn] <;> omega
  · unfold FixedPoint.i; rw [i1, i2]
  · unfold FixedPoint.d
    apply d_eq_of_magnitude
    rw [hc]
    cases v <;> by_cases hn : x._content < 0 <;> simp [hn] <;> omega

end FixedPoint

/-! ## The claims on the reduction of `Fraction`, over a machine integer type -/

namespace IntegerType

/-- A value of the type is converted to itself. -/
theorem convert_of_small (T : IntegerType) (n : Int) (hs : n.natAbs < 2 ^ T.digits)
    (hu : T.is_signed = false → 0 ≤ n) : T.convert n = n := by
  by_cases hn : 0 ≤ n
  · have e := convert_nat T n.natAbs hs
    rwa [Int.natAbs_of_nonneg hn] at e
  · have hT : T.is_signed = true := by
      cases h : T.is_signed
      · exact absurd (hu h) hn
      · rfl
    have e := convert_neg T hT n.natAbs hs
    rwa [Int.ofNat_natAbs_of_nonpos (by omega), neg_neg] at e

/-- An operation whose exact result is a value of the type, the most negative
one apart, has this result. -/
theorem arith_of_small (T : IntegerType) (n : Int) (hs : n.natAbs < 2 ^ T.digits)
    (hu : T.is_signed = false → 0 ≤ n) : T.arith n = Run.value n := by
  have hz : ((n.natAbs : Nat) : Int) < 2 ^ T.digits := by exact_mod_cast hs
  have habs : -((n.natAbs : Nat) : Int) ≤ n ∧ n ≤ ((n.natAbs : Nat) : Int) := by omega
  unfold arith promoted
  by_cases h31 : T.digits < 31
  · rw [if_pos h31]
    simp only [if_true]
    have hp : (2 : Int) ^ T.digits ≤ 2 ^ 31 :=
      pow_le_pow_right₀ (by norm_num) (by omega)
    rw [if_pos]
    unfold holds
    simp only [if_true]
    constructor <;> linarith [habs.1, habs.2]
  · rw [if_neg h31]
    cases hT : T.is_signed
    · simp only [Bool.false_eq_true, if_false]
      have h0 := hu hT
      rw [Int.emod_eq_of_lt h0 (by linarith [habs.2])]
    · simp only [if_true]
      rw [if_pos]
      unfold holds
      rw [if_pos hT]
      constructor <;> linarith [habs.1, habs.2]

/-- An integer of a magnitude below `2 ^ digits`, not negative for an unsigned
type, is a value of the type. -/
theorem holds_of_small (T : IntegerType) (n : Int) (hs : n.natAbs < 2 ^ T.digits)
    (hu : T.is_signed = false → 0 ≤ n) : T.holds n := by
  have hz : ((n.natAbs : Nat) : Int) < 2 ^ T.digits := by exact_mod_cast hs
  have habs : -((n.natAbs : Nat) : Int) ≤ n ∧ n ≤ ((n.natAbs : Nat) : Int) := by omega
  unfold holds
  cases hT : T.is_signed
  · simp only [Bool.false_eq_true, if_false]
    exact ⟨hu hT, by linarith [habs.2]⟩
  · simp only [if_true]
    constructor <;> linarith [habs.1, habs.2]

end IntegerType

namespace FractionOf

variable {T : IntegerType}

/-- With enough fuel the loop of `_full_simplify` ends on operands that are
values of the type, the most negative one apart, on a `greater` whose magnitude
is the greatest common divisor of the two magnitudes. -/
theorem full_simplify_loop_small (T : IntegerType) :
    ∀ (fuel : Nat) (greater lesser : Int), lesser ≠ 0 → lesser.natAbs ≤ fuel →
      greater.natAbs < 2 ^ T.digits → lesser.natAbs < 2 ^ T.digits →
      (T.is_signed = false → 0 ≤ greater ∧ 0 ≤ lesser) →
      ∃ g, _full_simplify_loop T fuel greater lesser = Run.value g ∧ g ≠ 0 ∧
        g.natAbs = Nat.gcd greater.natAbs lesser.natAbs ∧
        (T.is_signed = false → 0 ≤ g) := by
  intro fuel
  induction fuel with
  | zero =>
    intro greater lesser h0 hle _ _ _
    exact absurd (Int.natAbs_eq_zero.mp (Nat.le_zero.mp hle)) h0
  | succ fuel ih =>
    intro greater lesser h0 hle hgs hls hu
    have hpos : 0 < lesser.natAbs := Int.natAbs_pos.mpr h0
    have hq : T.arith (Int.tdiv greater lesser) = Run.value (Int.tdiv greater lesser) := by
      apply IntegerType.arith_of_small
      · rw [Int.natAbs_tdiv]
        exact lt_of_le_of_lt (Nat.div_le_self _ _) hgs
      · intro hT
        exact Int.tdiv_nonneg (hu hT).1 (hu hT).2
    have hlt : (Int.tmod greater lesser).natAbs < lesser.natAbs := by
      rw [natAbs_tmod]; exact Nat.mod_lt _ hpos
    have hr : T.convert (Int.tmod greater lesser) = Int.tmod greater lesser := by
      apply IntegerType.convert_of_small
      · omega
      · intro hT
        exact Int.tmod_nonneg _ (hu hT).1
    unfold _full_simplify_loop
    rw [if_neg h0, hq]
    simp only [Run.bind, hr]
    by_cases hz : Int.tmod greater lesser = 0
    · rw [if_neg (by simpa using hz)]
      refine ⟨lesser, rfl, h0, ?_, fun hT => (hu hT).2⟩
      have hmod : greater.natAbs % lesser.natAbs = 0 := by
        rw [← natAbs_tmod, hz]; rfl
      exact (Nat.gcd_eq_right (Nat.dvd_of_mod_eq_zero hmod)).symm
    · rw [if_pos hz]
      obtain ⟨g, hg, hg0, hgcd, hgu⟩ := ih lesser (Int.tmod greater lesser) hz (by omega)
        hls (by omega) (fun hT => ⟨(hu hT).2, Int.tmod_nonneg _ (hu hT).1⟩)
      refine ⟨g, hg, hg0, ?_, hgu⟩
      rw [hgcd, natAbs_tmod, Nat.gcd_comm lesser.natAbs, ← Nat.gcd_rec, Nat.gcd_comm]

/-- The magnitude of a member that is not the most negative value. -/
theorem numerator_abs_small (f : FractionOf T) (hs : f._numerator.natAbs < 2 ^ T.digits)
    (hu : T.is_signed = false → 0 ≤ f._numerator) :
    f._numerator_abs = Run.value ((f._numerator.natAbs : Nat) : Int) := by
  unfold _numerator_abs
  by_cases h : f._numerator ≥ 0
  · rw [if_pos h, IntegerType.convert_of_small T _ hs hu, Int.natAbs_of_nonneg h]
  · rw [if_neg h, IntegerType.arith_of_small T _ (by rwa [Int.natAbs_neg])
      (fun hT => absurd (hu hT) h)]
    simp only [Run.bind]
    rw [IntegerType.convert_of_small T _ (by rwa [Int.natAbs_neg])
      (fun hT => absurd (hu hT) h), Int.ofNat_natAbs_of_nonpos (by omega)]

/-- The magnitude of a member that is not the most negative value. -/
theorem denominator_abs_small (f : FractionOf T) (hs : f._denominator.natAbs < 2 ^ T.digits)
    (hu : T.is_signed = false → 0 ≤ f._denominator) :
    f._denominator_abs = Run.value ((f._denominator.natAbs : Nat) : Int) := by
  unfold _denominator_abs
  by_cases h : f._denominator ≥ 0
  · rw [if_pos h, IntegerType.convert_of_small T _ hs hu, Int.natAbs_of_nonneg h]
  · rw [if_neg h, IntegerType.arith_of_small T _ (by rwa [Int.natAbs_neg])
      (fun hT => absurd (hu hT) h)]
    simp only [Run.bind]
    rw [IntegerType.convert_of_small T _ (by rwa [Int.natAbs_neg])
      (fun hT => absurd (hu hT) h), Int.ofNat_natAbs_of_nonpos (by omega)]

/-- What `_full_simplify` returns on a fraction whose members are neither zero
nor the most negative value of the type. -/
theorem full_simplify_small (f : FractionOf T)
    (hn : f._numerator ≠ 0) (hd : f._denominator ≠ 0)
    (hns : f._numerator.natAbs < 2 ^ T.digits) (hds : f._denominator.natAbs < 2 ^ T.digits)
    (hu : T.is_signed = false → 0 ≤ f._numerator ∧ 0 ≤ f._denominator)
    (fuel : Nat) (hfuel : f._numerator.natAbs + f._denominator.natAbs ≤ fuel) :
    ∃ g : Int, g ≠ 0 ∧ g.natAbs = Nat.gcd f._numerator.natAbs f._denominator.natAbs ∧
      (T.is_signed = false → 0 ≤ g) ∧
      f._full_simplify fuel = Run.value
        { _numerator := Int.tdiv f._numerator g, _denominator := Int.tdiv f._denominator g } := by
  have key : ∀ greater lesser : Int, lesser ≠ 0 → lesser.natAbs ≤ fuel →
      greater.natAbs < 2 ^ T.digits → lesser.natAbs < 2 ^ T.digits →
      (T.is_signed = false → 0 ≤ greater ∧ 0 ≤ lesser) →
      Nat.gcd greater.natAbs lesser.natAbs = Nat.gcd f._numerator.natAbs f._denominator.natAbs →
      ∃ g : Int, g ≠ 0 ∧ g.natAbs = Nat.gcd f._numerator.natAbs f._denominator.natAbs ∧
        (T.is_signed = false → 0 ≤ g) ∧
        ((_full_simplify_loop T fuel greater lesser).bind (fun greater =>
          if greater = 0 then Run.divisionByZero
          else
            (T.arith (Int.tdiv f._numerator greater)).bind (fun q_numerator =>
            (T.arith (Int.tdiv f._denominator greater)).bind (fun q_denominator =>
              Run.value ({ _numerator := T.convert q_numerator
                           _denominator := T.convert q_denominator } : FractionOf T)))))
          = Run.value
            { _numerator := Int.tdiv f._numerator g, _denominator := Int.tdiv f._denominator g } := by
    intro greater lesser h0 hle hgs hls hgu hgcd
    obtain ⟨g, hg, hg0, hgg, hgn⟩ := full_simplify_loop_small T fuel greater lesser h0 hle hgs hls hgu
    refine ⟨g, hg0, by rw [hgg, hgcd], hgn, ?_⟩
    have sn : (Int.tdiv f._numerator g).natAbs < 2 ^ T.digits := by
      rw [Int.natAbs_tdiv]; exact lt_of_le_of_lt (Nat.div_le_self _ _) hns
    have sd : (Int.tdiv f._denominator g).natAbs < 2 ^ T.digits := by
      rw [Int.natAbs_tdiv]; exact lt_of_le_of_lt (Nat.div_le_self _ _) hds
    have un : T.is_signed = false → 0 ≤ Int.tdiv f._numerator g :=
      fun hT => Int.tdiv_nonneg (hu hT).1 (hgn hT)
    have ud : T.is_signed = false → 0 ≤ Int.tdiv f._denominator g :=
      fun hT => Int.tdiv_nonneg (hu hT).2 (hgn hT)
    rw [hg]
    simp only [Run.bind]
    rw [if_neg hg0, IntegerType.arith_of_small T _ sn un, IntegerType.arith_of_small T _ sd ud]
    simp only [Run.bind]
    rw [IntegerType.convert_of_small T _ sn un, IntegerType.convert_of_small T _ sd ud]
  unfold _full_simplify
  rw [numerator_abs_small f hns (fun hT => (hu hT).1),
    denominator_abs_small f hds (fun hT => (hu hT).2)]
  simp only [Run.bind]
  by_cases h1 : ((f._numerator.natAbs : Nat) : Int) > ((f._denominator.natAbs : Nat) : Int)
  · rw [if_pos h1, if_neg (by omega)]
    exact key _ _ hd (by omega) hns hds hu rfl
  · rw [if_neg h1]
    by_cases h2 : ((f._numerator.natAbs : Nat) : Int) < ((f._denominator.natAbs : Nat) : Int)
    · rw [if_pos h2]
      exact key _ _ hn (by omega) hds hns (fun hT => ⟨(hu hT).2, (hu hT).1⟩) (Nat.gcd_comm _ _)
    · rw [if_neg h2]
      have habs : f._numerator.natAbs = f._denominator.natAbs := by omega
      exact key _ _ hd (by omega) hds hds (fun hT => ⟨(hu hT).2, (hu hT).2⟩) (by rw [habs])

/-- A negation of the most negative value of a signed type that is not
promoted has no result. -/
theorem numerator_abs_most_negative (f : FractionOf T) (hT : T.is_signed = true)
    (h31 : 31 ≤ T.digits) (hn : f._numerator = -(2 ^ T.digits : Int)) :
    f._numerator_abs = Run.overflow := by
  have hpos : (0 : Int) < 2 ^ T.digits := by positivity
  unfold _numerator_abs
  rw [if_neg (by rw [hn]; linarith)]
  have hp : T.promoted = T := by
    unfold IntegerType.promoted
    exact if_neg (by omega)
  have e : T.arith (-f._numerator) = Run.overflow := by
    unfold IntegerType.arith
    rw [hp, if_pos hT, if_neg]
    unfold IntegerType.holds
    rw [hn, neg_neg]
    intro h
    exact lt_irrefl _ h.2
  rw [e]
  rfl

set_option maxRecDepth 100000 in
/-- C22 (the code evaluated).  `Fraction<int>(INT_MIN, -1).simplify()`, with
`int` of 31 value bits, has no result: `_numerator_abs()` evaluates
`-_numerator` on the most negative `int`, and the first iteration of the loop
evaluates `INT_MIN % -1`, whose quotient is not an `int`; the same holds for every
signed type that is not promoted and every fraction whose numerator is the most
negative value.  `6/4` is left as `3/2`, and on `signed char` the fraction
`-128` over `-1` is left as `-128` over `1`.  For every type and every fraction whose members
are values of the type other than zero and the most negative value,
`simplify()` returns within `|numerator| + |denominator|` iterations, and the
numerator and the denominator it leaves are relatively prime. -/
theorem simplify_coprime :
    (FractionOf.mk (-2 ^ 31) (-1) : FractionOf (IntegerType.mk true 31)).wf ∧
    (FractionOf.mk (-2 ^ 31) (-1) : FractionOf (IntegerType.mk true 31))._numerator_abs
      = Run.overflow ∧
    _full_simplify_loop (IntegerType.mk true 31) 1 (-2 ^ 31) (-1) = Run.overflow ∧
    (∀ fuel, (FractionOf.mk (-2 ^ 31) (-1) : FractionOf (IntegerType.mk true 31)).simplify fuel
      = Run.overflow) ∧
    (∀ (T : IntegerType) (f : FractionOf T) (fuel : Nat), T.is_signed = true → 31 ≤ T.digits →
      f._numerator = -(2 ^ T.digits : Int) → f.simplify fuel = Run.overflow) ∧
    (FractionOf.mk 6 4 : FractionOf (IntegerType.mk true 31)).simplify 10
      = Run.value (FractionOf.mk 3 2) ∧
    (FractionOf.mk (-128) (-1) : FractionOf (IntegerType.mk true 7)).simplify 5
      = Run.value (FractionOf.mk (-128) 1) ∧
    (∀ (T : IntegerType) (f : FractionOf T) (fuel : Nat),
      f._numerator ≠ 0 → f._denominator ≠ 0 →
      f._numerator.natAbs < 2 ^ T.digits → f._denominator.natAbs < 2 ^ T.digits →
      (T.is_signed = false → 0 ≤ f._numerator ∧ 0 ≤ f._denominator) →
      f._numerator.natAbs + f._denominator.natAbs ≤ fuel →
      ∃ r, f.simplify fuel = Run.value r ∧ r.wf ∧
        Nat.gcd r._numerator.natAbs r._denominator.natAbs = 1) := by
  have hgen : ∀ (T : IntegerType) (f : FractionOf T) (fuel : Nat), T.is_signed = true →
      31 ≤ T.digits → f._numerator = -(2 ^ T.digits : Int) → f.simplify fuel = Run.overflow := by
    intro T f fuel hT h31 hn
    unfold simplify _full_simplify
    rw [numerator_abs_most_negative f hT h31 hn]
    rfl
  refine ⟨by decide, by decide, by decide, ?_, hgen, by decide, by decide, ?_⟩
  · intro fuel
    exact hgen _ _ fuel rfl (le_refl _) rfl
  · intro T f fuel hn hd hns hds hu hfuel
    obtain ⟨g, hg0, hg, hgu, hrun⟩ := full_simplify_small f hn hd hns hds hu fuel hfuel
    have sn : (Int.tdiv f._numerator g).natAbs < 2 ^ T.digits := by
      rw [Int.natAbs_tdiv]; exact lt_of_le_of_lt (Nat.div_le_self _ _) hns
    have sd : (Int.tdiv f._denominator g).natAbs < 2 ^ T.digits := by
      rw [Int.natAbs_tdiv]; exact lt_of_le_of_lt (Nat.div_le_self _ _) hds
    refine ⟨_, hrun, ?_, ?_⟩
    · exact ⟨IntegerType.holds_of_small T _ sn (fun hT => Int.tdiv_nonneg (hu hT).1 (hgu hT)),
        IntegerType.holds_of_small T _ sd (fun hT => Int.tdiv_nonneg (hu hT).2 (hgu hT))⟩
    · simp only [Int.natAbs_tdiv, hg]
      have hpos : 0 < Nat.gcd f._numerator.natAbs f._denominator.natAbs :=
        Nat.gcd_pos_of_pos_left _ (Int.natAbs_pos.mpr hn)
      exact Nat.coprime_div_gcd_div_gcd hpos

/-- The operator `==` on two fractions whose cross products are values of the
type, the most negative one apart. -/
theorem operator_eq_small (a b : FractionOf T)
    (hl : (a._numerator * b._denominator).natAbs < 2 ^ T.digits)
    (hr : (a._denominator * b._numerator).natAbs < 2 ^ T.digits)
    (hu : T.is_signed = false →
      0 ≤ a._numerator * b._denominator ∧ 0 ≤ a._denominator * b._numerator) :
    a.operator_eq b = Run.value
      (decide (a._numerator * b._denominator = a._denominator * b._numerator)) := by
  unfold operator_eq
  rw [IntegerType.arith_of_small T _ hl (fun hT => (hu hT).1),
    IntegerType.arith_of_small T _ hr (fun hT => (hu hT).2)]
  rfl

set_option maxRecDepth 100000 in
/-- C23 (the code evaluated).  On `signed char` the call `simplify()` on
`Fraction<signed char>(-128, -1)` leaves `g` with the numerator `-128` and the
denominator `1`: the quotient `128` of the numerator by the divisor `-1` is
converted to `signed char`.  Then `g.numerator * f.denominator` is `128` and
`f.numerator * g.denominator` is `-128`, and `g == f` and `f == g` are false.
On `int` the call has no result on `Fraction<int>(INT_MIN, -1)`.  `6/4` is left
as `3/2`, which `==` finds equal to `6/4`.  For every type and every fraction
`f` whose members are values of the type other than zero and the most negative
value, `simplify()` returns a fraction `g` with
`g.numerator * f.denominator = f.numerator * g.denominator`, and `g == f` and
`f == g` are true when the product of the members of `f` is such a value
too. -/
theorem simplify_equal :
    (FractionOf.mk (-128) (-1) : FractionOf (IntegerType.mk true 7)).wf ∧
    (FractionOf.mk (-128) (-1) : FractionOf (IntegerType.mk true 7)).simplify 2
      = Run.value (FractionOf.mk (-128) 1) ∧
    (FractionOf.mk (-128) 1 : FractionOf (IntegerType.mk true 7))._numerator
        * (FractionOf.mk (-128) (-1) : FractionOf (IntegerType.mk true 7))._denominator = 128 ∧
    (FractionOf.mk (-128) (-1) : FractionOf (IntegerType.mk true 7))._numerator
        * (FractionOf.mk (-128) 1 : FractionOf (IntegerType.mk true 7))._denominator = -128 ∧
    (FractionOf.mk (-128) 1 : FractionOf (IntegerType.mk true 7)).operator_eq
        (FractionOf.mk (-128) (-1)) = Run.value false ∧
    (FractionOf.mk (-128) (-1) : FractionOf (IntegerType.mk true 7)).operator_eq
        (FractionOf.mk (-128) 1) = Run.value false ∧
    (∀ fuel r, (FractionOf.mk (-2 ^ 31) (-1) : FractionOf (IntegerType.mk true 31)).simplify fuel
      ≠ Run.value r) ∧
    (FractionOf.mk 6 4 : FractionOf (IntegerType.mk true 7)).simplify 10
      = Run.value (FractionOf.mk 3 2) ∧
    (FractionOf.mk 3 2 : FractionOf (IntegerType.mk true 7)).operator_eq (FractionOf.mk 6 4)
      = Run.value true ∧
    (∀ (T : IntegerType) (f : FractionOf T) (fuel : Nat),
      f._numerator ≠ 0 → f._denominator ≠ 0 →
      f._numerator.natAbs < 2 ^ T.digits → f._denominator.natAbs < 2 ^ T.digits →
      (T.is_signed = false → 0 ≤ f._numerator ∧ 0 ≤ f._denominator) →
      f._numerator.natAbs + f._denominator.natAbs ≤ fuel →
      ∃ g, f.simplify fuel = Run.value g ∧
        g._numerator * f._denominator = f._numerator * g._denominator ∧
        ((f._numerator * f._denominator).natAbs < 2 ^ T.digits →
          g.operator_eq f = Run.value true ∧ f.operator_eq g = Run.value true)) := by
  refine ⟨by decide, by decide, by decide, by decide, by decide, by decide, ?_, by decide,
    by decide, ?_⟩
  · intro fuel r h
    have e : (FractionOf.mk (-2 ^ 31) (-1) : FractionOf (IntegerType.mk true 31)).simplify fuel
        = Run.overflow := by
      unfold simplify _full_simplify
      rw [numerator_abs_most_negative _ rfl (le_refl _) rfl]
      rfl
    rw [e] at h
    exact Run.noConfusion h
  · intro T f fuel hn hd hns hds hu hfuel
    obtain ⟨k, hk0, hk, hku, hrun⟩ := full_simplify_small f hn hd hns hds hu fuel hfuel
    have hkn : k ∣ f._numerator := by
      rw [← Int.natAbs_dvd_natAbs, hk]; exact Nat.gcd_dvd_left _ _
    have hkd : k ∣ f._denominator := by
      rw [← Int.natAbs_dvd_natAbs, hk]; exact Nat.gcd_dvd_right _ _
    have e1 : k * Int.tdiv f._numerator k = f._numerator := Int.mul_tdiv_cancel' hkn
    have e2 : k * Int.tdiv f._denominator k = f._denominator := Int.mul_tdiv_cancel' hkd
    have cross : Int.tdiv f._numerator k * f._denominator
        = f._numerator * Int.tdiv f._denominator k := by
      calc Int.tdiv f._numerator k * f._denominator
          = Int.tdiv f._numerator k * (k * Int.tdiv f._denominator k) := by rw [e2]
        _ = (k * Int.tdiv f._numerator k) * Int.tdiv f._denominator k := by ring
        _ = f._numerator * Int.tdiv f._denominator k := by rw [e1]
    refine ⟨_, hrun, cross, ?_⟩
    intro hprod
    have b1 : (Int.tdiv f._numerator k * f._denominator).natAbs < 2 ^ T.digits := by
      rw [Int.natAbs_mul, Int.natAbs_tdiv]
      rw [Int.natAbs_mul] at hprod
      exact lt_of_le_of_lt (Nat.mul_le_mul_right _ (Nat.div_le_self _ _)) hprod
    have b2 : (Int.tdiv f._denominator k * f._numerator).natAbs < 2 ^ T.digits := by
      rw [Int.natAbs_mul, Int.natAbs_tdiv]
      rw [Int.natAbs_mul, Nat.mul_comm] at hprod
      exact lt_of_le_of_lt (Nat.mul_le_mul_right _ (Nat.div_le_self _ _)) hprod
    have b3 : (f._numerator * Int.tdiv f._denominator k).natAbs < 2 ^ T.digits := by
      rwa [Int.mul_comm]
    have b4 : (f._denominator * Int.tdiv f._numerator k).natAbs < 2 ^ T.digits := by
      rwa [Int.mul_comm]
    have un : T.is_signed = false → 0 ≤ Int.tdiv f._numerator k :=
      fun hT => Int.tdiv_nonneg (hu hT).1 (hku hT)
    have ud : T.is_signed = false → 0 ≤ Int.tdiv f._denominator k :=
      fun hT => Int.tdiv_nonneg (hu hT).2 (hku hT)
    constructor
    · rw [operator_eq_small _ _ b1 b2
        (fun hT => ⟨Int.mul_nonneg (un hT) (hu hT).2, Int.mul_nonneg (ud hT) (hu hT).1⟩)]
      simp only [decide_eq_true_eq, Run.value.injEq]
      rw [cross]; ring
    · rw [operator_eq_small _ _ b3 b4
        (fun hT => ⟨Int.mul_nonneg (hu hT).1 (ud hT), Int.mul_nonneg (hu hT).2 (un hT)⟩)]
      simp only [decide_eq_true_eq, Run.value.injEq]
      rw [← cross]; ring

end FractionOf

/-! ## The claims on the digit range and on the receiver of the multiplication -/

/-- A loop that writes one digit of `[0, 9]` per iteration into abstract digit
cells, as the loops of `_digit_add` and the inner loops of `_digit_multiply`
do: it runs to its end and keeps the cells well formed and their digits in
`[0, 9]`. -/
theorem write_loop_spec {σ ρ γ : Type} {get : σ → Nat → Option Nat}
    {set : σ → Nat → Nat → Option σ} {N : Nat} {ok : σ → Prop} {rest : σ → ρ}
    (hc : DigitCells get set N ok rest) (body : σ × γ → Nat → Option (σ × γ))
    (hbody : ∀ st j, ok st.1 → j < N →
      ∃ v c, v ≤ 9 ∧ body st j = (set st.1 j v).bind (fun t => some (t, c)))
    (p : σ × γ) (hok : ok p.1) (hp : ∀ j, j < N → ∀ d, get p.1 j = some d → d ≤ 9) :
    ∀ n, n ≤ N → ∃ q, count_loop body n p = some q ∧ ok q.1 ∧
      (∀ j, j < N → ∀ d, get q.1 j = some d → d ≤ 9) ∧ rest q.1 = rest p.1 := by
  intro n
  induction n with
  | zero =>
    intro _
    exact ⟨p, rfl, hok, hp, rfl⟩
  | succ n ih =>
    intro hn
    obtain ⟨q, hq, hqok, hqd, hqr⟩ := ih (by omega)
    obtain ⟨v, c, hv, hb⟩ := hbody q n hqok (by omega)
    obtain ⟨t, ht, htok, htn, htf, htr⟩ := hc.write q.1 n v hqok (by omega) (by omega)
    refine ⟨(t, c), ?_, htok, ?_, ?_⟩
    · simp only [count_loop, hq, Option.some_bind, hb, ht]
    · intro j hj d hd
      by_cases e : j = n
      · rw [e, htn] at hd
        simp only [Option.some.injEq] at hd
        omega
      · rw [htf j e] at hd
        exact hqd j hj d hd
    · show rest t = rest p.1
      rw [htr, hqr]

/-- A loop whose every iteration with a result has the same result under
another body has, when it has a result, the same result under that body. -/
theorem count_loop_some_of_some {σ : Type} (body body2 : σ → Nat → Option σ)
    (h : ∀ s i t, body s i = some t → body2 s i = some t) :
    ∀ n s t, count_loop body n s = some t → count_loop body2 n s = some t := by
  intro n
  induction n with
  | zero => intro s t hs; exact hs
  | succ n ih =>
    intro s t hs
    simp only [count_loop, Option.bind_eq_some] at hs ⊢
    obtain ⟨u, hu, hb⟩ := hs
    exact ⟨u, ih s u hu, h u n t hb⟩

namespace FixedDecimal
variable {_IntegerCount _DecimalCount _group_size : Nat}

/-- The default-constructed object over an eight-bit storage word is well
formed and its digits are in `[0, 9]`. -/
theorem default_ctor_wf_valid (hI : _IntegerCount < 256) (hD : _DecimalCount < 256) :
    (default_ctor _IntegerCount _DecimalCount 8).wf ∧
    (default_ctor _IntegerCount _DecimalCount 8).digits_valid := by
  have hwf : (default_ctor _IntegerCount _DecimalCount 8).wf := by
    rw [wf_eight]
    unfold default_ctor
    rw [integer_groups_eight hI, decimal_groups_eight hD]
    refine ⟨hI, hD, ⟨List.length_replicate _ _, ?_⟩, ⟨List.length_replicate _ _, ?_⟩⟩
    · intro g hg
      rw [List.eq_of_mem_replicate hg]; decide
    · intro g hg
      rw [List.eq_of_mem_replicate hg]; decide
  refine ⟨hwf, ?_⟩
  unfold digits_valid
  rw [digits_eight _ hwf]
  intro d hd
  unfold default_ctor at hd
  simp only [List.mem_append, List.mem_map] at hd
  rcases hd with ⟨g, hg, e⟩ | ⟨g, hg, e⟩
  · rw [List.eq_of_mem_replicate hg] at e
    rw [← e]; decide
  · rw [List.eq_of_mem_replicate hg] at e
    rw [← e]; decide

/-- The digit `_result % _digit_capacity` that the loops write is in `[0, 9]`. -/
theorem written_digit_le (r : Nat) :
    _digit_type ((r % _digit_capacity : Nat) : Int) ≤ 9 := by
  have h : r % _digit_capacity < 10 := Nat.mod_lt _ (by decide)
  rw [digit_type_of_lt (by omega)]
  omega

/-- A digit that `_integer_digit` reads inside the array is the digit that
`_integer_digit_reading` reads. -/
theorem integer_digit_reading_of_some (outside : Nat → Nat)
    (s : FixedDecimal _IntegerCount _DecimalCount _group_size) (p d : Nat)
    (h : s._integer_digit p = some d) : s._integer_digit_reading outside p = d := by
  unfold _integer_digit _integer_group at h
  unfold _integer_digit_reading _integer_group_reading
  cases hg : s._integer[p / _digits_per_group _group_size]? with
  | none => rw [hg] at h; cases h
  | some g =>
    rw [hg] at h
    simp only [Option.map_some', Option.some.injEq] at h
    simp only [Option.getD_some]
    exact h

/-- A digit that `_decimal_digit` reads inside the array is the digit that
`_decimal_digit_reading` reads. -/
theorem decimal_digit_reading_of_some (outside : Nat → Nat)
    (s : FixedDecimal _IntegerCount _DecimalCount _group_size) (p d : Nat)
    (h : s._decimal_digit p = some d) : s._decimal_digit_reading outside p = d := by
  unfold _decimal_digit _decimal_group at h
  unfold _decimal_digit_reading _decimal_group_reading
  cases hg : s._decimal[p / _digits_per_group _group_size]? with
  | none => rw [hg] at h; cases h
  | some g =>
    rw [hg] at h
    simp only [Option.map_some', Option.some.injEq] at h
    simp only [Option.getD_some]
    exact h

/-- What `_digit_add` leaves in `*this` in every format, whatever the reads
outside `_other._decimal` return: the loops run to their end and every digit
written is in `[0, 9]`. -/
theorem digit_add_locals_reading_spec (outside : Nat → Nat)
    (a b : FixedDecimal _IntegerCount _DecimalCount 8) (ha : a.wf) (hav : a.digits_valid) :
    ∃ r c, a._digit_add_locals_reading outside b = some (r, c) ∧ r.wf ∧ r.digits_valid := by
  rw [wf_eight] at ha
  obtain ⟨hI, hD, haI, haD⟩ := ha
  rw [digits_valid_iff] at hav
  obtain ⟨p1, hrun1, hok1, hv1, hrest1⟩ := write_loop_spec decimal_cells
    (_digit_add_decimal_body_reading outside b)
    (fun st j hst hj => by
      obtain ⟨x, hx, _⟩ := decimal_cells.read st.1 j hst hj
      refine ⟨_, decide (_digit_type
          ((x + b._decimal_digit_reading outside j + st.2.toNat : Nat) : Int)
            / _digit_capacity ≠ 0), written_digit_le
        (_digit_type ((x + b._decimal_digit_reading outside j + st.2.toNat : Nat) : Int)), ?_⟩
      simp only [_digit_add_decimal_body_reading, hx, Option.pure_def, Option.bind_eq_bind,
        Option.some_bind])
    (a, false) haD hav.1 _DecimalCount (le_refl _)
  have hrest1' : p1.1._integer = a._integer := hrest1
  have hok1I : p1.1._integer.length = _IntegerCount ∧ ∀ g ∈ p1.1._integer, g < 256 := by
    rw [hrest1']; exact haI
  have hv1I : ∀ j, j < _IntegerCount → ∀ d, p1.1._integer_digit j = some d → d ≤ 9 := by
    intro j hj d hd
    rw [integer_digit_congr a p1.1 hrest1' j] at hd
    exact hav.2 j hj d hd
  obtain ⟨p2, hrun2, hok2, hv2, hrest2⟩ := write_loop_spec integer_cells
    (_digit_add_integer_body_reading outside b)
    (fun st j hst hj => by
      obtain ⟨x, hx, _⟩ := integer_cells.read st.1 j hst hj
      refine ⟨_, decide (_digit_type
          ((x + b._decimal_digit_reading outside j + st.2.toNat : Nat) : Int)
            / _digit_capacity ≠ 0), written_digit_le
        (_digit_type ((x + b._decimal_digit_reading outside j + st.2.toNat : Nat) : Int)), ?_⟩
      simp only [_digit_add_integer_body_reading, hx, Option.pure_def, Option.bind_eq_bind,
        Option.some_bind])
    p1 hok1I hv1I _IntegerCount (le_refl _)
  have hrest2' : p2.1._decimal = p1.1._decimal := hrest2
  refine ⟨p2.1, p2.2, ?_, ?_, ?_⟩
  · unfold _digit_add_locals_reading
    rw [hrun1, Option.some_bind, hrun2]
  · rw [wf_eight]
    exact ⟨hI, hD, hok2, by rw [hrest2']; exact hok1⟩
  · rw [digits_valid_iff]
    refine ⟨?_, hv2⟩
    intro j hj d hd
    rw [decimal_digit_congr p1.1 p2.1 hrest2' j] at hd
    exact hv1 j hj d hd

/-- When `_digit_add` touches no cell outside an array, it leaves the same
object and carry whatever `outside` is. -/
theorem digit_add_locals_reading_of_some (outside : Nat → Nat)
    (a b : FixedDecimal _IntegerCount _DecimalCount _group_size)
    (r : FixedDecimal _IntegerCount _DecimalCount _group_size × Bool)
    (h : a._digit_add_locals b = some r) : a._digit_add_locals_reading outside b = some r := by
  unfold _digit_add_locals at h
  unfold _digit_add_locals_reading
  simp only [Option.bind_eq_some] at h ⊢
  obtain ⟨u, hu, hr⟩ := h
  refine ⟨u, ?_, ?_⟩
  · refine count_loop_some_of_some _ _ ?_ _ _ _ hu
    intro s i t hb
    simp only [_digit_add_decimal_body, Option.pure_def, Option.bind_eq_bind,
      Option.bind_eq_some, Option.some.injEq] at hb
    obtain ⟨x, hx, y, hy, w, hw, ht⟩ := hb
    simp only [_digit_add_decimal_body_reading, hx, decimal_digit_reading_of_some outside b i y hy,
      hw, Option.pure_def, Option.bind_eq_bind, Option.some_bind, ht]
  · refine count_loop_some_of_some _ _ ?_ _ _ _ hr
    intro s i t hb
    simp only [_digit_add_integer_body, Option.pure_def, Option.bind_eq_bind,
      Option.bind_eq_some, Option.some.injEq] at hb
    obtain ⟨x, hx, y, hy, w, hw, ht⟩ := hb
    simp only [_digit_add_integer_body_reading, hx, decimal_digit_reading_of_some outside b i y hy,
      hw, Option.pure_def, Option.bind_eq_bind, Option.some_bind, ht]

/-- C27.  Over an eight-bit storage word, in every format and for all operands
`a` and `b` whose digits are all in `[0, 9]`: `a -= b` returns and leaves every
digit of `a` in `[0, 9]`; `a += b` returns and leaves every digit of `a` in
`[0, 9]`, whatever value `outside` gives the cells that `_digit_add` reads
outside the array `_other._decimal` (it reads them when the integer part is
longer than the fractional part); and when `a += b` touches no cell outside an
array, the object it leaves does not depend on `outside`.  Nothing is assumed
on whether the operation overflows or underflows. -/
theorem digits_valid_after_arithmetic (a b : FixedDecimal _IntegerCount _DecimalCount 8)
    (ha : a.wf) (hb : b.wf) (hav : a.digits_valid) (hbv : b.digits_valid)
    (outside : Nat → Nat) :
    (∃ r, a.operator_sub_assign b = some r ∧ r.wf ∧ r.digits_valid) ∧
    (∃ r, a.operator_add_assign_reading outside b = some r ∧ r.wf ∧ r.digits_valid) ∧
    (∀ r, a.operator_add_assign b = some r →
      a.operator_add_assign_reading outside b = some r) := by
  refine ⟨?_, ?_, ?_⟩
  · obtain ⟨r, c, hrun, hw, hv, _⟩ := digit_subtract_locals_spec a b ha hb hav hbv
    exact ⟨r, by simp [operator_sub_assign, _digit_subtract, hrun], hw, hv⟩
  · obtain ⟨r, c, hrun, hw, hv⟩ := digit_add_locals_reading_spec outside a b ha hav
    exact ⟨r, by simp [operator_add_assign_reading, hrun], hw, hv⟩
  · intro r h
    simp only [operator_add_assign, _digit_add, Option.map_eq_some'] at h
    obtain ⟨q, hq, e⟩ := h
    simp only [operator_add_assign_reading, Option.map_eq_some']
    exact ⟨q, digit_add_locals_reading_of_some outside a b q hq, e⟩

/-- C27 (witness): with three integer and two fractional digits,
`123.45 += 001.05` reads `_other._decimal_digit(2)` outside the array; when the
cell read there holds `255`, the digit read is `15` and the sum left is
`628.50`, every digit in `[0, 9]`; and `123.45 -= 001.05` leaves `122.40`. -/
theorem digits_valid_after_arithmetic_witness :
    (FixedDecimal.mk [3, 2, 1] [5, 4] : FixedDecimal 3 2 8).wf ∧
    (FixedDecimal.mk [1, 0, 0] [5, 0] : FixedDecimal 3 2 8).wf ∧
    (FixedDecimal.mk [3, 2, 1] [5, 4] : FixedDecimal 3 2 8).digits_valid ∧
    (FixedDecimal.mk [1, 0, 0] [5, 0] : FixedDecimal 3 2 8).digits_valid ∧
    (FixedDecimal.mk [1, 0, 0] [5, 0] : FixedDecimal 3 2 8)._decimal_digit_reading
      (fun _ => 255) 2 = 15 ∧
    (FixedDecimal.mk [3, 2, 1] [5, 4] : FixedDecimal 3 2 8).operator_add_assign_reading
      (fun _ => 255) (FixedDecimal.mk [1, 0, 0] [5, 0])
      = some (FixedDecimal.mk [8, 2, 6] [0, 5]) ∧
    (FixedDecimal.mk [8, 2, 6] [0, 5] : FixedDecimal 3 2 8).digits_valid ∧
    (FixedDecimal.mk [3, 2, 1] [5, 4] : FixedDecimal 3 2 8).operator_sub_assign
      (FixedDecimal.mk [1, 0, 0] [5, 0]) = some (FixedDecimal.mk [2, 2, 1] [0, 4]) ∧
    ((∃ r, (FixedDecimal.mk [3, 2, 1] [5, 4] : FixedDecimal 3 2 8).operator_sub_assign
        (FixedDecimal.mk [1, 0, 0] [5, 0]) = some r ∧ r.wf ∧ r.digits_valid) ∧
     (∃ r, (FixedDecimal.mk [3, 2, 1] [5, 4] : FixedDecimal 3 2 8).operator_add_assign_reading
        (fun _ => 255) (FixedDecimal.mk [1, 0, 0] [5, 0]) = some r ∧ r.wf ∧ r.digits_valid) ∧
     (∀ r, (FixedDecimal.mk [3, 2, 1] [5, 4] : FixedDecimal 3 2 8).operator_add_assign
        (FixedDecimal.mk [1, 0, 0] [5, 0]) = some r →
      (FixedDecimal.mk [3, 2, 1] [5, 4] : FixedDecimal 3 2 8).operator_add_assign_reading
        (fun _ => 255) (FixedDecimal.mk [1, 0, 0] [5, 0]) = some r)) :=
  ⟨by decide, by decide, by decide, by decide, by decide, by decide, by decide, by decide,
    digits_valid_after_arithmetic _ _ (by decide) (by decide) (by decide) (by decide) _⟩

/-- The two inner loops of `_digit_multiply` at the outer index `i`, on a well
formed `_addend` with digits in `[0, 9]`, whatever the reads outside the arrays
of the operands return: they run to their end and leave `_addend` well formed
with digits in `[0, 9]`. -/
theorem digit_multiply_inner_reading_spec (outside_self outside_other : Nat → Nat)
    (a b : FixedDecimal _IntegerCount _DecimalCount 8) (i : Nat)
    (p : FixedDecimal _IntegerCount _DecimalCount 8 × Nat) (hp : p.1.wf)
    (hpv : p.1.digits_valid) :
    ∃ p1 p2, count_loop
        (_digit_multiply_decimal_body_reading outside_self outside_other a b i)
        _DecimalCount p = some p1 ∧
      count_loop (_digit_multiply_integer_body_reading outside_self outside_other a b i)
        _IntegerCount p1 = some p2 ∧
      p2.1.wf ∧ p2.1.digits_valid := by
  rw [wf_eight] at hp
  obtain ⟨hI, hD, hpI, hpD⟩ := hp
  rw [digits_valid_iff] at hpv
  obtain ⟨p1, hrun1, hok1, hv1, hrest1⟩ := write_loop_spec decimal_cells
    (_digit_multiply_decimal_body_reading outside_self outside_other a b i)
    (fun st j _ _ => ⟨_, _digit_type ((_digit_type
        ((a._decimal_digit_reading outside_self i * b._decimal_digit_reading outside_other i
          + st.2 : Nat) : Int) / _digit_capacity : Nat) : Int),
      written_digit_le (_digit_type
        ((a._decimal_digit_reading outside_self i * b._decimal_digit_reading outside_other i
          + st.2 : Nat) : Int)), by
      simp only [_digit_multiply_decimal_body_reading, Option.pure_def, Option.bind_eq_bind]⟩)
    p hpD hpv.1 _DecimalCount (le_refl _)
  have hrest1' : p1.1._integer = p.1._integer := hrest1
  have hok1I : p1.1._integer.length = _IntegerCount ∧ ∀ g ∈ p1.1._integer, g < 256 := by
    rw [hrest1']; exact hpI
  have hv1I : ∀ j, j < _IntegerCount → ∀ d, p1.1._integer_digit j = some d → d ≤ 9 := by
    intro j hj d hd
    rw [integer_digit_congr p.1 p1.1 hrest1' j] at hd
    exact hpv.2 j hj d hd
  obtain ⟨p2, hrun2, hok2, hv2, hrest2⟩ := write_loop_spec integer_cells
    (_digit_multiply_integer_body_reading outside_self outside_other a b i)
    (fun st j _ _ => ⟨_, _digit_type ((_digit_type
        ((a._integer_digit_reading outside_self i * b._integer_digit_reading outside_other i
          + st.2 : Nat) : Int) / _digit_capacity : Nat) : Int),
      written_digit_le (_digit_type
        ((a._integer_digit_reading outside_self i * b._integer_digit_reading outside_other i
          + st.2 : Nat) : Int)), by
      simp only [_digit_multiply_integer_body_reading, Option.pure_def, Option.bind_eq_bind]⟩)
    p1 hok1I hv1I _IntegerCount (le_refl _)
  have hrest2' : p2.1._decimal = p1.1._decimal := hrest2
  refine ⟨p1, p2, hrun1, hrun2, ?_, ?_⟩
  · rw [wf_eight]
    exact ⟨hI, hD, hok2, by rw [hrest2']; exact hok1⟩
  · rw [digits_valid_iff]
    refine ⟨?_, hv2⟩
    intro j hj d hd
    rw [decimal_digit_congr p1.1 p2.1 hrest2' j] at hd
    exact hv1 j hj d hd

/-- The outer loop of `_digit_multiply` runs to its end in every format,
whatever the reads outside an array return. -/
theorem digit_multiply_locals_reading_some (outside_self outside_other : Nat → Nat)
    (outside_addend : Nat → Nat → Nat)
    (a b : FixedDecimal _IntegerCount _DecimalCount 8)
    (hI : _IntegerCount < 256) (hD : _DecimalCount < 256) :
    ∃ st, a._digit_multiply_locals_reading outside_self outside_other outside_addend b
      = some st := by
  obtain ⟨hd1, hd2⟩ := @default_ctor_wf_valid _IntegerCount _DecimalCount hI hD
  have key : ∀ n,
      ∃ st, count_loop
        (_digit_multiply_outer_body_reading outside_self outside_other outside_addend a b) n
        { _sum := default_ctor _IntegerCount _DecimalCount 8
          _addend := default_ctor _IntegerCount _DecimalCount 8
          _mcarrydigit := 0
          returned := none } = some st ∧
        st._sum.wf ∧ st._sum.digits_valid ∧ st._addend.wf ∧ st._addend.digits_valid := by
    intro n
    induction n with
    | zero => exact ⟨_, rfl, hd1, hd2, hd1, hd2⟩
    | succ n ih =>
      obtain ⟨st, hst, h1, h2, h3, h4⟩ := ih
      simp only [count_loop, hst, Option.some_bind]
      unfold _digit_multiply_outer_body_reading
      cases hr : st.returned with
      | some r => exact ⟨st, rfl, h1, h2, h3, h4⟩
      | none =>
        obtain ⟨p1, p2, hp1, hp2, hw, hv⟩ := digit_multiply_inner_reading_spec
          outside_self outside_other a b n (st._addend, st._mcarrydigit) h3 h4
        obtain ⟨q, c, hq, hqw, hqv⟩ := digit_add_locals_reading_spec (outside_addend n)
          st._sum p2.1 h1 h2
        simp only [hp1, hp2, hq, Option.pure_def, Option.bind_eq_bind, Option.some_bind]
        exact ⟨_, rfl, hqw, hqv, hw, hv⟩
  obtain ⟨st, hst, _⟩ := key _DecimalCount
  exact ⟨st, hst⟩

/-- C31.  Over an eight-bit storage word, in every format and for all operands
`a` and `b`: `a *= b` returns and leaves the object `a`, every storage group as
it was, and `a * b` returns a copy of `a`, whatever values the cells read
outside an array hold (`outside_self` and `outside_other` for the operands,
`outside_addend i` for `_addend` in the outer iteration `i`); `_digit_multiply`
writes to its locals `_sum` and `_addend` only.  When `a *= b` touches no cell
outside an array, the object it leaves is `a` as well. -/
theorem operator_mul_assign_frame (a b : FixedDecimal _IntegerCount _DecimalCount 8)
    (ha : a.wf) (hb : b.wf) (outside_self outside_other : Nat → Nat)
    (outside_addend : Nat → Nat → Nat) :
    a.operator_mul_assign_reading outside_self outside_other outside_addend b = some a ∧
    a.operator_mul_reading outside_self outside_other outside_addend b = some a ∧
    (∀ r, a.operator_mul_assign b = some r → r = a) := by
  obtain ⟨st, hst⟩ := digit_multiply_locals_reading_some outside_self outside_other
    outside_addend a b ha.1 hb.2.1
  have e : a.operator_mul_assign_reading outside_self outside_other outside_addend b
      = some a := by
    simp [operator_mul_assign_reading, _digit_multiply_reading, hst]
  refine ⟨e, e, ?_⟩
  intro r h
  simp only [operator_mul_assign, _digit_multiply, Option.map_map, Option.map_eq_some',
    Function.comp_apply] at h
  obtain ⟨_, _, e2⟩ := h
  exact e2.symm

/-- C31 (witness): with three integer and two fractional digits,
`012.00 *= 003.00` reads `_decimal_digit(2)` of `_addend` outside the array;
when every cell read outside an array holds `255`, the call leaves `012.00`.
With two integer and three fractional digits, `12.000 *= 03.000` reads
`_integer_digit(2)` of both operands outside the array and leaves `12.000`. -/
theorem operator_mul_assign_frame_witness :
    (FixedDecimal.mk [2, 1, 0] [0, 0] : FixedDecimal 3 2 8).wf ∧
    (FixedDecimal.mk [3, 0, 0] [0, 0] : FixedDecimal 3 2 8).wf ∧
    (FixedDecimal.mk [2, 1, 0] [0, 0] : FixedDecimal 3 2 8).operator_mul_assign_reading
      (fun _ => 255) (fun _ => 255) (fun _ _ => 255) (FixedDecimal.mk [3, 0, 0] [0, 0])
      = some (FixedDecimal.mk [2, 1, 0] [0, 0]) ∧
    (FixedDecimal.mk [2, 1] [0, 0, 0] : FixedDecimal 2 3 8).operator_mul_assign_reading
      (fun _ => 255) (fun _ => 255) (fun _ _ => 255) (FixedDecimal.mk [3, 0] [0, 0, 0])
      = some (FixedDecimal.mk [2, 1] [0, 0, 0]) ∧
    (FixedDecimal.mk [2, 1] [0, 0, 0] : FixedDecimal 2 3 8)._integer_digit_reading
      (fun _ => 255) 2 = 15 ∧
    ((FixedDecimal.mk [2, 1, 0] [0, 0] : FixedDecimal 3 2 8).operator_mul_assign_reading
        (fun _ => 255) (fun _ => 255) (fun _ _ => 255) (FixedDecimal.mk [3, 0, 0] [0, 0])
        = some (FixedDecimal.mk [2, 1, 0] [0, 0]) ∧
      (FixedDecimal.mk [2, 1, 0] [0, 0] : FixedDecimal 3 2 8).operator_mul_reading
        (fun _ => 255) (fun _ => 255) (fun _ _ => 255) (FixedDecimal.mk [3, 0, 0] [0, 0])
        = some (FixedDecimal.mk [2, 1, 0] [0, 0]) ∧
      (∀ r, (FixedDecimal.mk [2, 1, 0] [0, 0] : FixedDecimal 3 2 8).operator_mul_assign
        (FixedDecimal.mk [3, 0, 0] [0, 0]) = some r →
        r = FixedDecimal.mk [2, 1, 0] [0, 0])) :=
  ⟨by decide, by decide, by decide, by decide, by decide,
    operator_mul_assign_frame _ _ (by decide) (by decide) _ _ _⟩

end FixedDecimal
